import Mathlib

/-!
# DNS over TCP record framing and message parsing (src/app-layer-dns-tcp.c)

A shallow embedding of the record framers `DNSTCPRequestParse` and
`DNSTCPResponseParse`, of the message parsers `DNSRequestParseData` and
`DNSReponseParseData`, of the reassembly helpers `BufferData` and
`BufferReset`, of the probing parser `DNSTcpProbingParser` with its walk
`DNSTCPRequestParseProbe`, and of the transaction id callbacks
`DNSStateUpdateTransactionId` and `DNSStateTransactionFree`; and of the queue
handlers `TmqhInputSimple` and `TmqhOutputSimple` of src/tmqh-simple.c.

Conventions of the embedding.

* A `uint8_t` is a `Byte`; wider machine integers are natural numbers, with the
  wrap-around written out (`% 65536`, `% 4294967296`) wherever C performs it.
* A pointer into a chunk is the list of the bytes from the pointer to the end of
  the memory object.  Reading past that list is `Err.oob`.
* `goto next_record` and the `while` loops are recursions on a fuel argument;
  `Err.fuel` says that the given number of iterations was not enough.
* Functions and constants of the repository that are not part of
  `app-layer-dns-tcp.c` are collected in `Env`, or modelled from the
  specification where the doc comment says so.
-/

namespace DnsTcp

/-- One octet (`uint8_t`). -/
abbrev Byte := Fin 256

/-- Ways in which a run of the model ends without a C return value. -/
inductive Err where
  /-- a read or write outside the memory object (undefined behaviour in C) -/
  | oob
  /-- the iteration budget of the model was used up -/
  | fuel
  deriving DecidableEq, Repr

/-- Outcome of a loop inside a parser: normal completion, one of the two exit
labels of the source, or a failure of the model. -/
inductive Walk (α : Type) where
  | done (a : α)
  | bad_data
  | insufficient_data
  | oob
  | fuel
  deriving DecidableEq, Repr

/-- The function `ntohs` applied to two consecutive octets. -/
def ntohs (hi lo : Byte) : Nat := hi.val * 256 + lo.val

/-- Read the big-endian 16 bit field at index `i`. -/
def rd16 (mem : List Byte) (i : Nat) : Option Nat :=
  match mem[i]?, mem[i + 1]? with
  | some hi, some lo => some (ntohs hi lo)
  | _, _ => none

/-- Conversion to `uint16_t`. -/
def u16 (x : Nat) : Nat := x % 65536

/-- Conversion to `uint32_t`. -/
def u32 (x : Nat) : Nat := x % 4294967296

/-- Subtraction of two `uint16_t` values after integer promotion, converted to
`uint16_t`. -/
def sub16 (a b : Nat) : Nat := (a + 65536 - b) % 65536

/-- Subtraction of two `uint16_t` values after integer promotion, converted to
`uint32_t`. -/
def sub16to32 (a b : Nat) : Nat := (a + 4294967296 - b) % 4294967296

/-- Subtraction on `uint32_t`. -/
def sub32 (a b : Nat) : Nat := (a + 4294967296 - b % 4294967296) % 4294967296

/-- The fixed DNS header (`DNSHeader`), its six fields in host byte order. -/
structure DNSHeader where
  tx_id : Nat
  flags : Nat
  questions : Nat
  answer_rr : Nat
  authority_rr : Nat
  additional_rr : Nat
  deriving DecidableEq, Repr

/-- Size of `DNSHeader`: six 16 bit fields. -/
def sizeof_DNSHeader : Nat := 12

/-- Size of the packed `DNSTcpHeader`: the length field and the six header fields. -/
def sizeof_DNSTcpHeader : Nat := 14

/-- Size of `DNSQueryTrailer`: type and class. -/
def sizeof_DNSQueryTrailer : Nat := 4

/-- The value of `IPPROTO_TCP`. -/
def IPPROTO_TCP : Nat := 6

/-- Dereference of all fields of the `DNSHeader` at the start of `mem`. -/
def readHeader (mem : List Byte) : Option DNSHeader :=
  match rd16 mem 0, rd16 mem 2, rd16 mem 4, rd16 mem 6, rd16 mem 8, rd16 mem 10 with
  | some a, some b, some c, some d, some e, some g => some ⟨a, b, c, d, e, g⟩
  | _, _, _, _, _, _ => none

/-- The part of `Flow` that the framers look at. -/
structure Flow where
  proto : Nat
  deriving DecidableEq, Repr

/-- One stored query: the dotted name, the type and the class. -/
structure DNSQueryEntry where
  name : List Byte
  type : Nat
  qclass : Nat
  deriving DecidableEq, Repr

/-- One transaction of the flow. Resource records are kept as their wire bytes. -/
structure DNSTransaction where
  tx_id : Nat
  queries : List DNSQueryEntry
  answers : List (List Byte)
  authorities : List (List Byte)
  reply_seen : Bool
  deriving DecidableEq, Repr

/-- Decoder events raised by the code of `app-layer-dns-tcp.c`. -/
inductive DecoderEvent where
  | UNSOLLICITED_RESPONSE
  deriving DecidableEq, Repr

/-- Observation of a call made while a framer runs. It is never read by the code. -/
inductive Call where
  /-- a pass through the label `next_record` with `input_len` bytes left -/
  | next_record (input_len : Nat)
  /-- `DNSRequestParseData` called on memory `mem` with declared length `n` -/
  | request_data (mem : List Byte) (n : Nat)
  /-- `DNSReponseParseData` called on memory `mem` with declared length `n` -/
  | response_data (mem : List Byte) (n : Nat)
  /-- `BufferData` called with length argument `len` (before the conversion to
  `uint16_t`) in a state with the given `offset` and `record_len` -/
  | buffer_data (len offset record_len : Nat)
  /-- the branch of `BufferData` that holds `BUG_ON(1)` was entered -/
  | bug_on
  deriving DecidableEq, Repr

/-- The per-flow state `DNSState`. `buffer` is `none` for a null pointer and
otherwise holds the initialised bytes of the 0xffff byte staging region.
`events` collects the decoder events set on the flow, `calls` is the
observation log. -/
structure DNSState where
  buffer : Option (List Byte)
  record_len : Nat
  offset : Nat
  tx_list : List DNSTransaction
  transaction_cnt : Nat
  transaction_done : Nat
  events : List DecoderEvent
  calls : List Call
  deriving DecidableEq, Repr

/-- The zero-initialised state of a new flow. -/
def DNSState.init : DNSState :=
  ⟨none, 0, 0, [], 0, 0, [], []⟩

/-- Append one observation to the log. -/
def DNSState.note (st : DNSState) (c : Call) : DNSState :=
  { st with calls := st.calls ++ [c] }

/-- What `app-layer-dns-tcp.c` takes from the rest of the repository.

* `DNS_MAX_SIZE` is the size of the name buffer `fqdn`; the cursor
  `fqdn_offset` is a `uint16_t` that stays below it, hence the bound.
* The two validators stand for the sign of the result of
  `DNSValidateRequestHeader` and `DNSValidateResponseHeader` (`true` for a
  result that is not negative).
* `rrWalk input input_len data` is the cursor returned by the resource record
  walker `DNSReponseParse`, `none` for its null result. -/
structure Env where
  DNS_MAX_SIZE : Nat
  DNS_MAX_SIZE_le : DNS_MAX_SIZE ≤ 65536
  DNSValidateRequestHeader : DNSHeader → Bool
  DNSValidateResponseHeader : DNSHeader → Bool
  rrWalk : List Byte → Nat → Nat → Option Nat

/-- Modelled from the spec: `DNSStoreQueryInState` is not part of the file. Per
section 4.2 each question appends a query to a new transaction carrying the
header id, the transaction is pushed onto the list and `transaction_cnt` (a
`uint16_t`) is incremented. -/
def DNSStoreQueryInState (st : DNSState) (fqdn : List Byte) (type qclass tx_id : Nat) :
    DNSState :=
  { st with
    tx_list := st.tx_list ++ [⟨tx_id, [⟨fqdn, type, qclass⟩], [], [], false⟩]
    transaction_cnt := u16 (st.transaction_cnt + 1) }

/-- The octet of the separator `.`. -/
def dot : Byte := 46

/-- The `while (*data != 0)` loop of `DNSRequestParseData`. `data` is the cursor
(an index into `input`), `fqdn` the bytes written to the name buffer so far, so
that `fqdn_offset` is `fqdn.length`. On completion the cursor stands on the
terminating zero octet. -/
def requestLabels (M : Nat) (input : List Byte) (input_len : Nat) :
    Nat → Nat → List Byte → Walk (Nat × List Byte)
  | 0, _, _ => .fuel
  | fuel + 1, data, fqdn =>
    match input[data]? with
    | none => .oob
    | some b =>
      if b.val = 0 then .done (data, fqdn)
      else if b.val > 63 then .insufficient_data
      else
        let length := b.val
        let data1 := data + 1
        if length > 0 then
          if input_len < data1 + length then .insufficient_data
          else if fqdn.length + length + 1 < M then
            if input.length < data1 + length then .oob
            else
              let fqdn1 := fqdn ++ (input.drop data1).take length ++ [dot]
              let data2 := data1 + length
              if input_len < data2 + 1 then .insufficient_data
              else requestLabels M input input_len fuel data2 fqdn1
          else .insufficient_data
        else
          if input_len < data1 + 1 then .insufficient_data
          else requestLabels M input input_len fuel data1 fqdn

/-- The `for (q = 0; q < questions; q++)` loop of `DNSRequestParseData`, with
`n` questions still to go and the cursor at `data`. The state returned holds
what was stored before the loop ended, also when it ended at an exit label. -/
def requestQuestions (env : Env) (input : List Byte) (input_len tx_id : Nat) :
    Nat → Nat → DNSState → Walk Nat × DNSState
  | 0, data, st => (.done data, st)
  | n + 1, data, st =>
    if input_len < data + 1 then (.insufficient_data, st)
    else
      match requestLabels env.DNS_MAX_SIZE input input_len input_len data [] with
      | .done (data1, fqdn) =>
        let fqdn_offset := if fqdn.length ≠ 0 then fqdn.length - 1 else fqdn.length
        let data2 := data1 + 1
        if input_len < data2 + sizeof_DNSQueryTrailer then (.insufficient_data, st)
        else
          match rd16 input data2, rd16 input (data2 + 2) with
          | some type, some qclass =>
            requestQuestions env input input_len tx_id n (data2 + sizeof_DNSQueryTrailer)
              (DNSStoreQueryInState st (fqdn.take fqdn_offset) type qclass tx_id)
          | _, _ => (.oob, st)
      | .bad_data => (.bad_data, st)
      | .insufficient_data => (.insufficient_data, st)
      | .oob => (.oob, st)
      | .fuel => (.fuel, st)

/-- The function `DNSRequestParseData`, called with a state pointer that is not
null (the only way the framer calls it). The result is the C return value and
the state. -/
def DNSRequestParseData (env : Env) (dns_state : DNSState) (input : List Byte)
    (input_len : Nat) : Except Err (Int × DNSState) :=
  match readHeader input with
  | none => .error .oob
  | some dns_header =>
    if env.DNSValidateRequestHeader dns_header = false then .ok (-1, dns_state)
    else
      match requestQuestions env input input_len dns_header.tx_id dns_header.questions
          sizeof_DNSHeader dns_state with
      | (.done _, st) => .ok (1, st)
      | (.bad_data, st) => .ok (-1, st)
      | (.insufficient_data, st) => .ok (-1, st)
      | (.oob, _) => .error .oob
      | (.fuel, _) => .error .fuel

/-- The call `memcpy(buffer + offset, data, len)` on the initialised part of
the staging region; a gap below `offset` would hold indeterminate bytes and is
filled with zeros. -/
def memcpyAt (buffer : List Byte) (offset : Nat) (data : List Byte) (len : Nat) :
    List Byte :=
  buffer.take offset ++ List.replicate (offset - buffer.length) 0 ++ data.take len
    ++ buffer.drop (offset + len)

/-- The last three statements of `BufferData`: the `memcpy` of `len` bytes to
`buffer + offset` and the advance of `offset`. Allocation has been taken to
succeed, so a null `buffer` stands for a fresh region. The copy must stay
inside the source and inside the 0xffff bytes of the region. -/
def bufferCopy (dns_state : DNSState) (data : List Byte) (len : Nat) : Except Err DNSState :=
  if data.length < len then .error .oob
  else if 65535 < dns_state.offset + len then .error .oob
  else
    .ok { dns_state with
          buffer := some (memcpyAt (dns_state.buffer.getD []) dns_state.offset data len)
          offset := u16 (dns_state.offset + len) }

/-- The function `BufferData`. `len` is the argument as the caller computes it;
the parameter is a `uint16_t`. In the branch of `BUG_ON(1)` the model goes on
with the clipped length, as the source does when the assertion is compiled
out. -/
def BufferData (dns_state : DNSState) (data : List Byte) (len : Nat) :
    Except Err DNSState :=
  let st0 := dns_state.note (.buffer_data len dns_state.offset dns_state.record_len)
  if u32 (u16 len) + u32 st0.offset > u32 st0.record_len then
    bufferCopy (st0.note .bug_on) data (sub16 st0.record_len st0.offset)
  else bufferCopy st0 data (u16 len)

/-- The function `BufferReset`. -/
def BufferReset (dns_state : DNSState) : DNSState :=
  { dns_state with record_len := 0, offset := 0 }

/-- How one pass through the body below the label `next_record` ends: with a
`return`, or with `goto next_record` on the rest of the input. -/
inductive Pass where
  | ret (r : Int) (st : DNSState)
  | again (st : DNSState) (input : List Byte) (input_len : Nat)
  deriving DecidableEq, Repr

/-- The loop that `goto next_record` forms around a body `pass`; every pass
uses one unit of fuel. -/
def nextRecordLoop (pass : DNSState → List Byte → Nat → Except Err Pass) :
    Nat → DNSState → List Byte → Nat → Except Err (Int × DNSState)
  | 0, _, _, _ => .error .fuel
  | fuel + 1, st, input, input_len =>
    match pass st input input_len with
    | .error e => .error e
    | .ok (.ret r st1) => .ok (r, st1)
    | .ok (.again st1 input1 input_len1) => nextRecordLoop pass fuel st1 input1 input_len1

/-- The body of `DNSTCPRequestParse` from the label `next_record` to the next
`return` or `goto next_record`. -/
def requestPass (env : Env) (st : DNSState) (input : List Byte) (input_len : Nat) :
    Except Err Pass :=
  let dns_state := st.note (.next_record input_len)
  if dns_state.offset = 0 ∧ input_len < sizeof_DNSTcpHeader then .ok (.ret (-1) dns_state)
  else if dns_state.offset = 0 then
    match rd16 input 0 with
    | none => .error .oob
    | some len =>
      if len < sizeof_DNSHeader then .ok (.ret (-1) dns_state)
      else if len = sub32 input_len 2 then
        match DNSRequestParseData env
            (dns_state.note (.request_data (input.drop 2) (sub32 input_len 2)))
            (input.drop 2) (sub32 input_len 2) with
        | .error e => .error e
        | .ok (r, st1) => if r < 0 then .ok (.ret (-1) st1) else .ok (.ret 1 st1)
      else if sub32 input_len 2 > len then
        match DNSRequestParseData env (dns_state.note (.request_data (input.drop 2) len))
            (input.drop 2) len with
        | .error e => .error e
        | .ok (r, st1) =>
          if r < 0 then .ok (.ret (-1) st1)
          else .ok (.again st1 (input.drop len) (sub32 input_len len))
      else
        match BufferData { dns_state with record_len := len } (input.drop 2)
            (sub32 input_len 2) with
        | .error e => .error e
        | .ok st1 => .ok (.ret 1 st1)
  else if u32 (input_len + dns_state.offset) < dns_state.record_len then
    match BufferData dns_state input input_len with
    | .error e => .error e
    | .ok st1 => .ok (.ret 1 st1)
  else if input_len > sub16to32 dns_state.record_len dns_state.offset then
    let need := sub16 dns_state.record_len dns_state.offset
    match BufferData dns_state input need with
    | .error e => .error e
    | .ok st1 =>
      match st1.buffer with
      | none => .error .oob
      | some buffer =>
        match DNSRequestParseData env (st1.note (.request_data buffer st1.record_len))
            buffer st1.record_len with
        | .error e => .error e
        | .ok (r, st2) =>
          if r < 0 then .ok (.ret (-1) (BufferReset st2))
          else .ok (.again (BufferReset st2) (input.drop need) (sub32 input_len need))
  else
    match BufferData dns_state input input_len with
    | .error e => .error e
    | .ok st1 =>
      match st1.buffer with
      | none => .error .oob
      | some buffer =>
        match DNSRequestParseData env (st1.note (.request_data buffer st1.record_len))
            buffer st1.record_len with
        | .error e => .error e
        | .ok (r, st2) =>
          if r < 0 then .ok (.ret (-1) (BufferReset st2)) else .ok (.ret 1 (BufferReset st2))

/-- The part of `DNSTCPRequestParse` from the label `next_record` on. -/
def requestNextRecord (env : Env) :
    Nat → DNSState → List Byte → Nat → Except Err (Int × DNSState) :=
  nextRecordLoop (requestPass env)

/-- The function `DNSTCPRequestParse` on the chunk `input`, whose length is
`input_len`. `f` is `none` for a null flow pointer. The fuel `input.length + 2`
covers every pass through `next_record`. -/
def DNSTCPRequestParse (env : Env) (f : Option Flow) (dstate : DNSState)
    (input : List Byte) : Except Err (Int × DNSState) :=
  match f with
  | some fl =>
    if fl.proto ≠ IPPROTO_TCP then .ok (-1, dstate)
    else if input.length = 0 then .ok (-1, dstate)
    else requestNextRecord env (input.length + 2) dstate input input.length
  | none =>
    if input.length = 0 then .ok (-1, dstate)
    else requestNextRecord env (input.length + 2) dstate input input.length

/-- The two record lists that `DNSReponseParse` fills. -/
inductive DNSList where
  | DNS_LIST_ANSWER
  | DNS_LIST_AUTHORITY
  deriving DecidableEq, Repr

/-- Modelled from the spec: the state effect of the resource record walker,
which is not part of the file. Per section 4.3 the record is appended to the
answers or authorities of the transaction found by a linear scan for the header
id, and that transaction is marked as replied; without a match nothing is
stored. -/
def storeRR (id : Nat) (list : DNSList) (rr : List Byte) :
    List DNSTransaction → List DNSTransaction
  | [] => []
  | tx :: rest =>
    if tx.tx_id = id then
      (match list with
        | .DNS_LIST_ANSWER => { tx with answers := tx.answers ++ [rr], reply_seen := true }
        | .DNS_LIST_AUTHORITY =>
          { tx with authorities := tx.authorities ++ [rr], reply_seen := true }) :: rest
    else tx :: storeRR id list rr rest

/-- Modelled from the spec: `DNSReponseParse`, the resource record walker of
the shared DNS code, which is not part of the file. Per section 4.3 a call
returns the cursor advanced past one record or a null result, here the value of
`Env.rrWalk`; the bytes walked over are stored with `storeRR`. The index
argument `q` of the source plays no role. -/
def DNSReponseParse (env : Env) (dns_state : DNSState) (dns_header : DNSHeader)
    (list : DNSList) (input : List Byte) (input_len data : Nat) : Option Nat × DNSState :=
  match env.rrWalk input input_len data with
  | none => (none, dns_state)
  | some data1 =>
    (some data1,
      { dns_state with
        tx_list := storeRR dns_header.tx_id list ((input.drop data).take (data1 - data))
          dns_state.tx_list })

/-- The `while (*data != 0)` loop of `DNSReponseParseData`; as in
`requestLabels`, but a length octet above 63 is walked over and a name that
does not fit the buffer is not copied. -/
def responseLabels (M : Nat) (input : List Byte) (input_len : Nat) :
    Nat → Nat → List Byte → Walk (Nat × List Byte)
  | 0, _, _ => .fuel
  | fuel + 1, data, fqdn =>
    match input[data]? with
    | none => .oob
    | some b =>
      if b.val = 0 then .done (data, fqdn)
      else
        let length := b.val
        let data1 := data + 1
        if length > 0 then
          if input_len < data1 + length then .insufficient_data
          else if fqdn.length + length + 1 < M then
            if input.length < data1 + length then .oob
            else
              let fqdn1 := fqdn ++ (input.drop data1).take length ++ [dot]
              let data2 := data1 + length
              if input_len < data2 + 1 then .insufficient_data
              else responseLabels M input input_len fuel data2 fqdn1
          else
            let data2 := data1 + length
            if input_len < data2 + 1 then .insufficient_data
            else responseLabels M input input_len fuel data2 fqdn
        else
          if input_len < data1 + 1 then .insufficient_data
          else responseLabels M input input_len fuel data1 fqdn

/-- The question loop of `DNSReponseParseData`: the names are walked over and
nothing is stored. -/
def responseQuestions (env : Env) (input : List Byte) (input_len : Nat) :
    Nat → Nat → Walk Nat
  | 0, data => .done data
  | n + 1, data =>
    if input_len < data + 1 then .insufficient_data
    else
      match responseLabels env.DNS_MAX_SIZE input input_len input_len data [] with
      | .done (data1, _) =>
        let data2 := data1 + 1
        if input_len < data2 + sizeof_DNSQueryTrailer then .insufficient_data
        else responseQuestions env input input_len n (data2 + sizeof_DNSQueryTrailer)
      | .bad_data => .bad_data
      | .insufficient_data => .insufficient_data
      | .oob => .oob
      | .fuel => .fuel

/-- The answer loop and the authority loop of `DNSReponseParseData`: `n` calls
of `DNSReponseParse` for the list `list`. The cursor is `none` when a call
returned null, and the state holds what was stored up to then. -/
def responseRecords (env : Env) (dns_header : DNSHeader) (list : DNSList)
    (input : List Byte) (input_len : Nat) : Nat → Nat → DNSState → Option Nat × DNSState
  | 0, data, st => (some data, st)
  | n + 1, data, st =>
    match DNSReponseParse env st dns_header list input input_len data with
    | (none, st1) => (none, st1)
    | (some data1, st1) => responseRecords env dns_header list input input_len n data1 st1

/-- The scan `TAILQ_FOREACH` of `DNSReponseParseData` for a transaction with the
given id. -/
def txFound (tx_list : List DNSTransaction) (tx_id : Nat) : Bool :=
  tx_list.any (fun tx => decide (tx.tx_id = tx_id))

/-- The function `DNSReponseParseData`. The result is the C return value and the
state. -/
def DNSReponseParseData (env : Env) (dns_state : DNSState) (input : List Byte)
    (input_len : Nat) : Except Err (Int × DNSState) :=
  match readHeader input with
  | none => .error .oob
  | some dns_header =>
    if env.DNSValidateResponseHeader dns_header = false then .ok (-1, dns_state)
    else
      let st0 :=
        if txFound dns_state.tx_list dns_header.tx_id then dns_state
        else { dns_state with
               events := dns_state.events ++ [DecoderEvent.UNSOLLICITED_RESPONSE] }
      match responseQuestions env input input_len dns_header.questions sizeof_DNSHeader with
      | .bad_data => .ok (-1, st0)
      | .insufficient_data => .ok (-1, st0)
      | .oob => .error .oob
      | .fuel => .error .fuel
      | .done data =>
        match responseRecords env dns_header .DNS_LIST_ANSWER input input_len
            dns_header.answer_rr data st0 with
        | (none, st1) => .ok (-1, st1)
        | (some data1, st1) =>
          match responseRecords env dns_header .DNS_LIST_AUTHORITY input input_len
              dns_header.authority_rr data1 st1 with
          | (none, st2) => .ok (-1, st2)
          | (some _, st2) => .ok (1, st2)

/-- The body of `DNSTCPResponseParse` from the label `next_record` to the next
`return` or `goto next_record`. -/
def responsePass (env : Env) (st : DNSState) (input : List Byte) (input_len : Nat) :
    Except Err Pass :=
  let dns_state := st.note (.next_record input_len)
  if dns_state.offset = 0 ∧ input_len < sizeof_DNSTcpHeader then .ok (.ret (-1) dns_state)
  else if dns_state.offset = 0 then
    match rd16 input 0 with
    | none => .error .oob
    | some len =>
      if len = sub32 input_len 2 then
        match DNSReponseParseData env
            (dns_state.note (.response_data (input.drop 2) (sub32 input_len 2)))
            (input.drop 2) (sub32 input_len 2) with
        | .error e => .error e
        | .ok (r, st1) => if r < 0 then .ok (.ret (-1) st1) else .ok (.ret 1 st1)
      else if sub32 input_len 2 > len then
        match DNSReponseParseData env (dns_state.note (.response_data (input.drop 2) len))
            (input.drop 2) len with
        | .error e => .error e
        | .ok (r, st1) =>
          if r < 0 then .ok (.ret (-1) st1)
          else .ok (.again st1 (input.drop len) (sub32 input_len len))
      else
        match BufferData { dns_state with record_len := len } (input.drop 2)
            (sub32 input_len 2) with
        | .error e => .error e
        | .ok st1 => .ok (.ret 1 st1)
  else if u32 (input_len + dns_state.offset) < dns_state.record_len then
    match BufferData dns_state input input_len with
    | .error e => .error e
    | .ok st1 => .ok (.ret 1 st1)
  else if input_len > sub16to32 dns_state.record_len dns_state.offset then
    let need := sub16 dns_state.record_len dns_state.offset
    match BufferData dns_state input need with
    | .error e => .error e
    | .ok st1 =>
      match st1.buffer with
      | none => .error .oob
      | some buffer =>
        match DNSReponseParseData env (st1.note (.response_data buffer st1.record_len))
            buffer st1.record_len with
        | .error e => .error e
        | .ok (r, st2) =>
          if r < 0 then .ok (.ret (-1) (BufferReset st2))
          else .ok (.again (BufferReset st2) (input.drop need) (sub32 input_len need))
  else
    match BufferData dns_state input input_len with
    | .error e => .error e
    | .ok st1 =>
      match st1.buffer with
      | none => .error .oob
      | some buffer =>
        match DNSReponseParseData env (st1.note (.response_data buffer st1.record_len))
            buffer st1.record_len with
        | .error e => .error e
        | .ok (r, st2) =>
          if r < 0 then .ok (.ret (-1) (BufferReset st2)) else .ok (.ret 1 (BufferReset st2))

/-- The part of `DNSTCPResponseParse` from the label `next_record` on. -/
def responseNextRecord (env : Env) :
    Nat → DNSState → List Byte → Nat → Except Err (Int × DNSState) :=
  nextRecordLoop (responsePass env)

/-- The function `DNSTCPResponseParse` on the chunk `input`, whose length is
`input_len`. The source has no bound on the passes through `next_record`, so
the number allowed is the argument `fuel`. -/
def DNSTCPResponseParse (env : Env) (fuel : Nat) (f : Option Flow) (dstate : DNSState)
    (input : List Byte) : Except Err (Int × DNSState) :=
  match f with
  | some fl =>
    if fl.proto ≠ IPPROTO_TCP then .ok (-1, dstate)
    else if input.length = 0 then .ok (-1, dstate)
    else responseNextRecord env fuel dstate input input.length
  | none =>
    if input.length = 0 then .ok (-1, dstate)
    else responseNextRecord env fuel dstate input input.length

/-- The common shape of `requestPass` and `responsePass`: the two bodies differ
in the test of the declared length against the header size (`check`), in the
message parser they call (`parse`) and in how that call is logged (`mk`). Only
used to state lemmas once for both directions. -/
def recordPass (check : Bool)
    (parse : DNSState → List Byte → Nat → Except Err (Int × DNSState))
    (mk : List Byte → Nat → Call) (st : DNSState) (input : List Byte) (input_len : Nat) :
    Except Err Pass :=
  let dns_state := st.note (.next_record input_len)
  if dns_state.offset = 0 ∧ input_len < sizeof_DNSTcpHeader then .ok (.ret (-1) dns_state)
  else if dns_state.offset = 0 then
    match rd16 input 0 with
    | none => .error .oob
    | some len =>
      if check = true ∧ len < sizeof_DNSHeader then .ok (.ret (-1) dns_state)
      else if len = sub32 input_len 2 then
        match parse (dns_state.note (mk (input.drop 2) (sub32 input_len 2)))
            (input.drop 2) (sub32 input_len 2) with
        | .error e => .error e
        | .ok (r, st1) => if r < 0 then .ok (.ret (-1) st1) else .ok (.ret 1 st1)
      else if sub32 input_len 2 > len then
        match parse (dns_state.note (mk (input.drop 2) len)) (input.drop 2) len with
        | .error e => .error e
        | .ok (r, st1) =>
          if r < 0 then .ok (.ret (-1) st1)
          else .ok (.again st1 (input.drop len) (sub32 input_len len))
      else
        match BufferData { dns_state with record_len := len } (input.drop 2)
            (sub32 input_len 2) with
        | .error e => .error e
        | .ok st1 => .ok (.ret 1 st1)
  else if u32 (input_len + dns_state.offset) < dns_state.record_len then
    match BufferData dns_state input input_len with
    | .error e => .error e
    | .ok st1 => .ok (.ret 1 st1)
  else if input_len > sub16to32 dns_state.record_len dns_state.offset then
    let need := sub16 dns_state.record_len dns_state.offset
    match BufferData dns_state input need with
    | .error e => .error e
    | .ok st1 =>
      match st1.buffer with
      | none => .error .oob
      | some buffer =>
        match parse (st1.note (mk buffer st1.record_len)) buffer st1.record_len with
        | .error e => .error e
        | .ok (r, st2) =>
          if r < 0 then .ok (.ret (-1) (BufferReset st2))
          else .ok (.again (BufferReset st2) (input.drop need) (sub32 input_len need))
  else
    match BufferData dns_state input input_len with
    | .error e => .error e
    | .ok st1 =>
      match st1.buffer with
      | none => .error .oob
      | some buffer =>
        match parse (st1.note (mk buffer st1.record_len)) buffer st1.record_len with
        | .error e => .error e
        | .ok (r, st2) =>
          if r < 0 then .ok (.ret (-1) (BufferReset st2)) else .ok (.ret 1 (BufferReset st2))

/-- The length that `BufferData` copies: the clipped one in the branch of
`BUG_ON(1)`, the converted argument otherwise. -/
def bufferLen (st : DNSState) (len : Nat) : Nat :=
  if u16 len + st.offset > st.record_len then sub16 st.record_len st.offset else u16 len

/-- The paths through `recordPass` that end in a result `p`, one constructor
for each path, with the tests passed on the way and the calls made. `st0` is
the state after the pass has been logged. -/
inductive PassCase (check : Bool)
    (parse : DNSState → List Byte → Nat → Except Err (Int × DNSState))
    (mk : List Byte → Nat → Call) (st : DNSState) (input : List Byte) (input_len : Nat)
    (p : Pass) : Prop where
  /-- a record starts and the chunk is shorter than `DNSTcpHeader` -/
  | short (h0 : st.offset = 0) (hs : input_len < 14)
      (hp : p = .ret (-1) (st.note (.next_record input_len)))
  /-- a record starts and declares less than a DNS header -/
  | bogus (len : Nat) (h0 : st.offset = 0) (hs : 14 ≤ input_len)
      (hl : rd16 input 0 = some len) (hc : check = true) (hb : len < 12)
      (hp : p = .ret (-1) (st.note (.next_record input_len)))
  /-- a record starts and ends with the chunk -/
  | whole (len : Nat) (r : Int) (st1 : DNSState) (h0 : st.offset = 0) (hs : 14 ≤ input_len)
      (hl : rd16 input 0 = some len) (hc : ¬ (check = true ∧ len < 12))
      (he : len = sub32 input_len 2)
      (hparse : parse ((st.note (.next_record input_len)).note
        (mk (input.drop 2) (sub32 input_len 2))) (input.drop 2) (sub32 input_len 2)
          = .ok (r, st1))
      (hp : p = if r < 0 then .ret (-1) st1 else .ret 1 st1)
  /-- a record starts and ends inside the chunk -/
  | more (len : Nat) (r : Int) (st1 : DNSState) (h0 : st.offset = 0) (hs : 14 ≤ input_len)
      (hl : rd16 input 0 = some len) (hc : ¬ (check = true ∧ len < 12))
      (he : len ≠ sub32 input_len 2) (hg : sub32 input_len 2 > len)
      (hparse : parse ((st.note (.next_record input_len)).note (mk (input.drop 2) len))
        (input.drop 2) len = .ok (r, st1))
      (hp : p = if r < 0 then .ret (-1) st1
        else .again st1 (input.drop len) (sub32 input_len len))
  /-- a record starts and the chunk holds only a part of it -/
  | start (len : Nat) (st1 : DNSState) (h0 : st.offset = 0) (hs : 14 ≤ input_len)
      (hl : rd16 input 0 = some len) (hc : ¬ (check = true ∧ len < 12))
      (hg : sub32 input_len 2 < len)
      (hbuf : BufferData { st.note (.next_record input_len) with record_len := len }
        (input.drop 2) (sub32 input_len 2) = .ok st1)
      (hp : p = .ret 1 st1)
  /-- a record is in progress and the chunk does not complete it -/
  | mid_less (st1 : DNSState) (h0 : st.offset ≠ 0)
      (hlt : u32 (input_len + st.offset) < st.record_len)
      (hbuf : BufferData (st.note (.next_record input_len)) input input_len = .ok st1)
      (hp : p = .ret 1 st1)
  /-- a record is in progress and ends inside the chunk -/
  | mid_more (st1 st2 : DNSState) (buffer : List Byte) (r : Int) (h0 : st.offset ≠ 0)
      (hlt : ¬ u32 (input_len + st.offset) < st.record_len)
      (hg : input_len > sub16to32 st.record_len st.offset)
      (hbuf : BufferData (st.note (.next_record input_len)) input
        (sub16 st.record_len st.offset) = .ok st1)
      (hb : st1.buffer = some buffer)
      (hparse : parse (st1.note (mk buffer st1.record_len)) buffer st1.record_len
        = .ok (r, st2))
      (hp : p = if r < 0 then .ret (-1) (BufferReset st2)
        else .again (BufferReset st2) (input.drop (sub16 st.record_len st.offset))
          (sub32 input_len (sub16 st.record_len st.offset)))
  /-- a record is in progress and ends with the chunk -/
  | mid_exact (st1 st2 : DNSState) (buffer : List Byte) (r : Int) (h0 : st.offset ≠ 0)
      (hlt : ¬ u32 (input_len + st.offset) < st.record_len)
      (hg : ¬ input_len > sub16to32 st.record_len st.offset)
      (hbuf : BufferData (st.note (.next_record input_len)) input input_len = .ok st1)
      (hb : st1.buffer = some buffer)
      (hparse : parse (st1.note (mk buffer st1.record_len)) buffer st1.record_len
        = .ok (r, st2))
      (hp : p = if r < 0 then .ret (-1) (BufferReset st2) else .ret 1 (BufferReset st2))

/-- The fields that only the framers write agree in two states. -/
def SameFrame (st st1 : DNSState) : Prop :=
  st1.buffer = st.buffer ∧ st1.record_len = st.record_len ∧ st1.offset = st.offset ∧
    st1.calls = st.calls ∧ st1.transaction_done = st.transaction_done

/-- What identifies a transaction and is fixed when it is created: the id and
the queries. -/
def txKey (tx : DNSTransaction) : Nat × List DNSQueryEntry := (tx.tx_id, tx.queries)

/-- What the lemmas on `recordPass` ask of the message parser: it leaves the
fields of the framer alone, keeps the transactions and the events that are
there, and returns 1 or -1. -/
def ParseFrame (parse : DNSState → List Byte → Nat → Except Err (Int × DNSState)) : Prop :=
  ∀ st mem n r st1, parse st mem n = .ok (r, st1) →
    SameFrame st st1 ∧ st.tx_list.map txKey <+: st1.tx_list.map txKey ∧
      st.events <+: st1.events ∧ (r = 1 ∨ r = -1)

/-- The state that a pass hands on. -/
def Pass.state : Pass → DNSState
  | .ret _ st => st
  | .again st _ _ => st

/-- The bounds on the reassembly fields. -/
def Bounded (st : DNSState) : Prop := st.offset ≤ st.record_len ∧ st.record_len ≤ 65535

/-- The states of a flow: the zero-initialised state and every state in which
a call of one of the two framers returns, on a chunk whose length fits
`uint32_t`, from a state of the flow. -/
inductive Reachable (env : Env) : DNSState → Prop where
  | init : Reachable env DNSState.init
  | request (f : Option Flow) (st : DNSState) (input : List Byte) (r : Int) (st1 : DNSState)
      (hst : Reachable env st) (hlen : input.length < 4294967296)
      (hcall : DNSTCPRequestParse env f st input = .ok (r, st1)) : Reachable env st1
  | response (fuel : Nat) (f : Option Flow) (st : DNSState) (input : List Byte) (r : Int)
      (st1 : DNSState) (hst : Reachable env st) (hlen : input.length < 4294967296)
      (hcall : DNSTCPResponseParse env fuel f st input = .ok (r, st1)) : Reachable env st1

/-! ## A concrete environment and concrete inputs -/

/-- Modelled from the spec: `DNSValidateRequestHeader` is not part of the file.
Section 4.2 rejects a header whose QR flag marks a response, whose opcode is
reserved (the assigned ones are 0, 1, 2, 4 and 5), or whose question count is
zero. -/
def specValidateRequestHeader (h : DNSHeader) : Bool :=
  decide (h.flags / 32768 % 2 = 0) &&
    decide (h.flags / 2048 % 16 ≤ 5 ∧ h.flags / 2048 % 16 ≠ 3) && decide (h.questions ≠ 0)

/-- Modelled from the spec: `DNSValidateResponseHeader` is not part of the file.
Section 4.3 rejects a header whose QR flag marks a query or whose response code
is outside the defined range (0 to 10). -/
def specValidateResponseHeader (h : DNSHeader) : Bool :=
  decide (h.flags / 32768 % 2 = 1) && decide (h.flags % 16 ≤ 10)

/-- The end of a name in a resource record: labels up to a zero octet, or a
two octet compression pointer. -/
def specNameEnd (input : List Byte) (input_len : Nat) : Nat → Nat → Option Nat
  | 0, _ => none
  | fuel + 1, pos =>
    if input_len < pos + 1 then none
    else
      match input[pos]? with
      | none => none
      | some b =>
        if b.val = 0 then some (pos + 1)
        else if 192 ≤ b.val then (if input_len < pos + 2 then none else some (pos + 2))
        else specNameEnd input input_len fuel (pos + 1 + b.val)

/-- Modelled from the spec: the cursor of the resource record walker, which is
not part of the file. Section 6 gives a record as name, type, class, TTL,
2-byte rdlength and rdlength bytes of data; section 4.3 has the walker fail on
insufficient data. -/
def specRRWalk (input : List Byte) (input_len data : Nat) : Option Nat :=
  match specNameEnd input input_len input_len data with
  | none => none
  | some p =>
    if input_len < p + 10 then none
    else
      match rd16 input (p + 8) with
      | none => none
      | some rdlength => if input_len < p + 10 + rdlength then none else some (p + 10 + rdlength)

/-- The environment with a name buffer of 256 bytes and the collaborators as
the spec describes them. -/
def specEnv : Env :=
  ⟨256, by decide, specValidateRequestHeader, specValidateResponseHeader, specRRWalk⟩

/-- A TCP flow. -/
def tcp : Option Flow := some ⟨IPPROTO_TCP⟩

/-- The bytes of scenario 1 of the spec, section 8: 35 bytes, of which the
first two declare a record of 0x1d = 29 bytes. -/
def scenario1 : List Byte :=
  [0x00, 0x1d, 0x12, 0x34, 0x01, 0x00, 0x00, 0x01, 0x00, 0x00, 0x00, 0x00, 0x00, 0x00,
   0x03, 0x77, 0x77, 0x77, 0x07, 0x65, 0x78, 0x61, 0x6d, 0x70, 0x6c, 0x65, 0x03, 0x63,
   0x6f, 0x6d, 0x00, 0x00, 0x01, 0x00, 0x01]

/-- The 33 byte query of scenario 1 for `www.example.com`, type 1, class 1, id
0x1234. -/
def queryMessage : List Byte := scenario1.drop 2

/-- The query of scenario 1 as a well-formed record: the 33 message bytes
behind the length 0x21 = 33. -/
def queryRecord : List Byte := [0x00, 0x21] ++ queryMessage

/-- The name `www.example.com`. -/
def wwwExampleCom : List Byte :=
  [119, 119, 119, 46, 101, 120, 97, 109, 112, 108, 101, 46, 99, 111, 109]

/-- The transaction that the query of scenario 1 creates. -/
def queryTx : DNSTransaction := ⟨0x1234, [⟨wwwExampleCom, 1, 1⟩], [], [], false⟩

/-- The state in which a call returned, or the given state if it did not. -/
def stateAfter (dflt : DNSState) (x : Except Err (Int × DNSState)) : DNSState :=
  match x with
  | .ok (_, st) => st
  | .error _ => dflt

/-- The C return value of a call, if it returned. -/
def retOf (x : Except Err (Int × DNSState)) : Option Int :=
  match x with
  | .ok (r, _) => some r
  | .error _ => none

/-- The state after the first 20 bytes of `queryRecord` arrived on a new flow:
18 bytes of a record of 33 are buffered. -/
def midRequest : DNSState :=
  stateAfter DNSState.init (DNSTCPRequestParse specEnv tcp DNSState.init (queryRecord.take 20))

/-- A response chunk of 19 bytes whose first two bytes declare a record of 5
bytes; behind them a response header with id 0x1234, flags 0x8001 and no
questions or records. -/
def shortResponse : List Byte :=
  [0x00, 0x05, 0x12, 0x34, 0x80, 0x01, 0x00, 0x00, 0x00, 0x00, 0x00, 0x00, 0x00, 0x00,
   0x00, 0x00, 0x00, 0x00, 0x00]

/-- A pass result meets `Q` if it is a return and `A` if it is a re-entry. -/
def Pass.sat (Q : Int → DNSState → Prop) (A : DNSState → List Byte → Nat → Prop) :
    Pass → Prop
  | .ret r st => Q r st
  | .again st input input_len => A st input input_len

/-- Every call of the request parser in the log declares at least the header
size and no more than the memory it is given holds. -/
def GoodCalls (st : DNSState) : Prop :=
  ∀ mem n, Call.request_data mem n ∈ st.calls → 12 ≤ n ∧ n ≤ mem.length

/-- The invariant behind the memory safety of the framers: the bounds, a record
in progress is at least as long as a DNS header, and the calls logged so far
are good. -/
def Safe (st : DNSState) : Prop :=
  Bounded st ∧ (st.offset ≠ 0 → 12 ≤ st.record_len) ∧ GoodCalls st

/-- The measure that goes down with every `goto next_record` of the request
framer: the bytes left, plus one while a record is in progress. -/
def passMeasure (st : DNSState) (input_len : Nat) : Nat :=
  input_len + (if st.offset ≠ 0 then 1 else 0)

/-- The state after `queryRecord` arrived in one chunk on a new flow. -/
def afterQuery : DNSState :=
  stateAfter DNSState.init (DNSTCPRequestParse specEnv tcp DNSState.init queryRecord)

/-- The cursor after `n` resource records from `data` on, as `Env.rrWalk` gives
it: the part of `responseRecords` that does not depend on the state. -/
def recordsCursor (env : Env) (input : List Byte) (input_len : Nat) : Nat → Nat → Option Nat
  | 0, data => some data
  | n + 1, data =>
    match env.rrWalk input input_len data with
    | none => none
    | some data1 => recordsCursor env input input_len n data1

/-- The octet with value `n % 256`. -/
def byteOf (n : Nat) : Byte := Fin.ofNat n

/-- Labels on the wire: each label behind its length octet. -/
def encodeLabels : List (List Byte) → List Byte
  | [] => []
  | l :: ls => byteOf l.length :: (l ++ encodeLabels ls)

/-- The labels, each followed by a `.`: the content of the name buffer after
the walk. -/
def withDots : List (List Byte) → List Byte
  | [] => []
  | l :: ls => l ++ dot :: withDots ls

/-- The labels joined with `.` separators, without a trailing dot. -/
def dottedName : List (List Byte) → List Byte
  | [] => []
  | [l] => l
  | l :: l2 :: ls => l ++ dot :: dottedName (l2 :: ls)

/-- A question: the labels of its name, the type and the class. -/
structure Question where
  labels : List (List Byte)
  qtype : Nat
  qclass : Nat
  deriving DecidableEq, Repr

/-- A question on the wire: the labels, the terminating zero octet, and the
trailer with type and class in big-endian order. -/
def encodeQuestion (q : Question) : List Byte :=
  encodeLabels q.labels ++
    [0, byteOf (q.qtype / 256), byteOf q.qtype, byteOf (q.qclass / 256), byteOf q.qclass]

/-- A question section on the wire. -/
def encodeQuestions : List Question → List Byte
  | [] => []
  | q :: qs => encodeQuestion q ++ encodeQuestions qs

/-- A question that the request parser walks to its end when the name buffer
has `M` bytes: every label has 1 to 63 octets, the dotted name and one more
octet (the dot written behind the last label) stay below `M`, type and class
fit 16 bits. -/
def Question.WellFormed (M : Nat) (q : Question) : Prop :=
  (∀ l ∈ q.labels, 1 ≤ l.length ∧ l.length ≤ 63) ∧
    (q.labels ≠ [] → (dottedName q.labels).length + 1 < M) ∧
    q.qtype < 65536 ∧ q.qclass < 65536

/-- The store calls for a list of questions under one id, in order. -/
def storeQuestions (tx_id : Nat) (st : DNSState) (qs : List Question) : DNSState :=
  qs.foldl (fun s q => DNSStoreQueryInState s (dottedName q.labels) q.qtype q.qclass tx_id) st

/-- The transaction that the store creates for a question. -/
def txOfQuestion (tx_id : Nat) (q : Question) : DNSTransaction :=
  ⟨tx_id, [⟨dottedName q.labels, q.qtype, q.qclass⟩], [], [], false⟩

/-- The header bytes of the query of scenario 1. -/
def queryHeaderBytes : List Byte := queryMessage.take 12

/-- The header of the query of scenario 1: id 0x1234, flags 0x0100, one
question. -/
def queryHeader : DNSHeader := ⟨0x1234, 0x0100, 1, 0, 0, 0⟩

/-- The question of scenario 1: `www.example.com`, type 1, class 1. -/
def queryQuestion : Question :=
  ⟨[[119, 119, 119], [101, 120, 97, 109, 112, 108, 101], [99, 111, 109]], 1, 1⟩

/-- A label of 63 octets `a`. -/
def label63 : List Byte := List.replicate 63 97

/-- A question whose name has four labels of 63 octets: a dotted name of 255
octets. -/
def longNameQuestion : Question := ⟨[label63, label63, label63, label63], 1, 1⟩

/-- The record of 273 message bytes made of the header of scenario 1 and
`longNameQuestion`, behind the length 0x0111 = 273. -/
def longNameRecord : List Byte :=
  0x01 :: 0x11 :: (queryHeaderBytes ++ encodeQuestions [longNameQuestion])

/-- A record with two questions, 40 message bytes behind the length 0x28: the
header of scenario 1 with a question count of 2, the question of scenario 1,
and a second question whose first label length octet is 0x40. -/
def twoQuestionRecord : List Byte :=
  [0x00, 0x28, 0x12, 0x34, 0x01, 0x00, 0x00, 0x02, 0x00, 0x00, 0x00, 0x00, 0x00, 0x00] ++
    encodeQuestion queryQuestion ++ [0x40, 0x61, 0x00, 0x00, 0x01, 0x00, 0x01]

/-- Scenario 5: the record of scenario 1 with its first label length octet
changed to 0x40. -/
def malformedRecord : List Byte :=
  0x00 :: 0x21 :: (queryHeaderBytes ++ encodeQuestions [] ++ encodeLabels [] ++
    0x40 :: queryMessage.drop 13)

/-- The state after a response chunk of one byte arrived while 18 of the 33
bytes of the request record were buffered. -/
def midRequestAfterResponse : DNSState :=
  stateAfter midRequest (DNSTCPResponseParse specEnv 1 tcp midRequest [0xaa])

/-! ## Streams of request records and their splits into chunks -/

/-- A request record in its parts: the two octets of the length field, the
twelve header octets with the header they encode, the questions, and what
follows the question section. -/
structure QueryRecord where
  hi : Byte
  lo : Byte
  hdrBytes : List Byte
  hdr : DNSHeader
  qs : List Question
  rest : List Byte

/-- The DNS message of a record. -/
def QueryRecord.message (r : QueryRecord) : List Byte :=
  r.hdrBytes ++ encodeQuestions r.qs ++ r.rest

/-- A well-formed request record: the length field gives the length of the
message, the header bytes encode a header that passes validation and counts the
questions, and the questions are well-formed. -/
def QueryRecord.WellFormed (env : Env) (r : QueryRecord) : Prop :=
  r.hdrBytes.length = 12 ∧ readHeader r.hdrBytes = some r.hdr ∧
    env.DNSValidateRequestHeader r.hdr = true ∧ r.hdr.questions = r.qs.length ∧
    (∀ q ∈ r.qs, q.WellFormed env.DNS_MAX_SIZE) ∧ ntohs r.hi r.lo = r.message.length

/-- A message of 82 bytes whose one question has a name of a single label of 64
octets `a` (length octet 0x40): the header bytes of scenario 1, the label, the
terminating zero octet and the trailer. -/
def longLabelMessage : List Byte :=
  queryHeaderBytes ++ (0x40 :: List.replicate 64 97) ++ [0x00, 0x00, 0x01, 0x00, 0x01]


/-! ## The probing parser -/

/-- The protocol values that `DNSTcpProbingParser` returns. Their numbers are
given in `app-layer-protos.h`, which is not part of the file; only that the
three differ is used. -/
inductive AppProto where
  | ALPROTO_UNKNOWN
  | ALPROTO_FAILED
  | ALPROTO_DNS_TCP
  deriving DecidableEq, Repr

/-- The `while (*data != 0)` loop of `DNSTCPRequestParseProbe`. There is no name
buffer: `fqdn_offset` is advanced by the length of each label (no separator is
counted) and no label byte is read. The cursor `fqdn_offset` is a `uint16_t`
that stays below `DNS_MAX_SIZE`. -/
def probeLabels (M : Nat) (input : List Byte) (input_len : Nat) :
    Nat → Nat → Nat → Walk (Nat × Nat)
  | 0, _, _ => .fuel
  | fuel + 1, data, fqdn_offset =>
    match input[data]? with
    | none => .oob
    | some b =>
      if b.val = 0 then .done (data, fqdn_offset)
      else if b.val > 63 then .bad_data
      else
        let length := b.val
        let data1 := data + 1
        if length > 0 then
          if input_len < data1 + length then .insufficient_data
          else if fqdn_offset + length + 1 < M then
            let fqdn_offset1 := fqdn_offset + length
            let data2 := data1 + length
            if input_len < data2 + 1 then .insufficient_data
            else probeLabels M input input_len fuel data2 fqdn_offset1
          else .bad_data
        else
          if input_len < data1 + 1 then .insufficient_data
          else probeLabels M input input_len fuel data1 fqdn_offset

/-- The question loop of `DNSTCPRequestParseProbe`. The value of `fqdn_offset`
behind a name is not used, and the trailer is stepped over without a read (the
only use of its fields is a debug message). -/
def probeQuestions (env : Env) (input : List Byte) (input_len : Nat) : Nat → Nat → Walk Nat
  | 0, data => .done data
  | n + 1, data =>
    if input_len < data + 1 then .insufficient_data
    else
      match probeLabels env.DNS_MAX_SIZE input input_len input_len data 0 with
      | .done (data1, _) =>
        let data2 := data1 + 1
        if input_len < data2 + sizeof_DNSQueryTrailer then .insufficient_data
        else probeQuestions env input input_len n (data2 + sizeof_DNSQueryTrailer)
      | .bad_data => .bad_data
      | .insufficient_data => .insufficient_data
      | .oob => .oob
      | .fuel => .fuel

/-- The function `DNSTCPRequestParseProbe` (without the `BUG_ON` of debug
builds): 1 at the end of the walk, 0 at the label `insufficient_data`, -1 at
`bad_data`. `input` is the memory from the length field on. -/
def DNSTCPRequestParseProbe (env : Env) (input : List Byte) (input_len : Nat) :
    Except Err Int :=
  match rd16 input 0 with
  | none => .error .oob
  | some len =>
    if len < sizeof_DNSHeader then .ok (-1)
    else if len ≥ input_len then .ok 0
    else
      match rd16 (input.drop 2) 4 with
      | none => .error .oob
      | some questions =>
        match probeQuestions env (input.drop 2) (sub32 input_len 2) questions
            sizeof_DNSHeader with
        | .done _ => .ok 1
        | .insufficient_data => .ok 0
        | .bad_data => .ok (-1)
        | .oob => .error .oob
        | .fuel => .error .fuel

/-- The function `DNSTcpProbingParser` on the memory `input` with the length
argument `ilen`. -/
def DNSTcpProbingParser (env : Env) (input : List Byte) (ilen : Nat) : Except Err AppProto :=
  if ilen = 0 ∨ ilen < sizeof_DNSTcpHeader then .ok .ALPROTO_UNKNOWN
  else
    match rd16 input 0 with
    | none => .error .oob
    | some len =>
      if len < sizeof_DNSHeader then .ok .ALPROTO_FAILED
      else if len > ilen then
        match DNSTCPRequestParseProbe env input ilen with
        | .error e => .error e
        | .ok r =>
          if r = -1 then .ok .ALPROTO_FAILED
          else if ilen > 512 then .ok .ALPROTO_DNS_TCP
          else .ok .ALPROTO_UNKNOWN
      else
        match DNSTCPRequestParseProbe env input ilen with
        | .error e => .error e
        | .ok r => if r ≠ 1 then .ok .ALPROTO_FAILED else .ok .ALPROTO_DNS_TCP

/-- The question loop of `DNSRequestParseData` when `dns_state` is a null
pointer: the walk of `requestQuestions` without the store call, whose
arguments are the only reads of the trailer. -/
def requestQuestionsNull (env : Env) (input : List Byte) (input_len : Nat) :
    Nat → Nat → Walk Nat
  | 0, data => .done data
  | n + 1, data =>
    if input_len < data + 1 then .insufficient_data
    else
      match requestLabels env.DNS_MAX_SIZE input input_len input_len data [] with
      | .done (data1, _) =>
        let data2 := data1 + 1
        if input_len < data2 + sizeof_DNSQueryTrailer then .insufficient_data
        else requestQuestionsNull env input input_len n (data2 + sizeof_DNSQueryTrailer)
      | .bad_data => .bad_data
      | .insufficient_data => .insufficient_data
      | .oob => .oob
      | .fuel => .fuel

/-- The function `DNSRequestParseData` called with a null `dns_state`: the dry
run, which writes no state. The result is the C return value. -/
def DNSRequestParseDataNull (env : Env) (input : List Byte) (input_len : Nat) :
    Except Err Int :=
  match readHeader input with
  | none => .error .oob
  | some dns_header =>
    if env.DNSValidateRequestHeader dns_header = false then .ok (-1)
    else
      match requestQuestionsNull env input input_len dns_header.questions sizeof_DNSHeader with
      | .done _ => .ok 1
      | .bad_data => .ok (-1)
      | .insufficient_data => .ok (-1)
      | .oob => .error .oob
      | .fuel => .error .fuel

/-- The verdict of a probe, if it returned. -/
def verdictOf (x : Except Err AppProto) : Option AppProto :=
  match x with
  | .ok v => some v
  | .error _ => none

/-- The C return value of a dry run or of the probing walk, if it returned. -/
def intOf (x : Except Err Int) : Option Int :=
  match x with
  | .ok r => some r
  | .error _ => none

/-- The first 20 bytes of `malformedRecord`: the length field declares 33
message bytes, 18 are there, and the first label length octet is 0x40. -/
def truncatedMalformed : List Byte :=
  [0x00, 0x21, 0x12, 0x34, 0x01, 0x00, 0x00, 0x01, 0x00, 0x00, 0x00, 0x00, 0x00, 0x00,
   0x40, 0x77, 0x77, 0x77, 0x07, 0x65]

/-- The query of scenario 1 behind a length field that declares 12 bytes, the
header alone: 35 bytes. -/
def headerOnlyDeclared : List Byte := [0x00, 0x0c] ++ queryMessage

/-- The bytes of `headerOnlyDeclared` with the first label length octet, which
lies behind the 12 declared bytes, changed to 0x40. -/
def headerOnlyDeclaredBad : List Byte := [0x00, 0x0c] ++ malformedRecord.drop 2

/-! ## The transaction id callbacks -/

/-- The function `DNSStateUpdateTransactionId`: the state and the value behind
the pointer `id` when it returns. Both `*id` and `transaction_cnt` are printed
as `uint16_t`, so the assignment converts nothing. -/
def DNSStateUpdateTransactionId (state : DNSState) (id : Nat) : DNSState × Nat :=
  if state.transaction_cnt > id then (state, state.transaction_cnt) else (state, id)

/-- The function `DNSStateTransactionFree`. -/
def DNSStateTransactionFree (state : DNSState) (id : Nat) : DNSState :=
  { state with transaction_done := id }

/-- One call on a flow: a chunk for one of the two framers, or the cleanup
callback with an id. -/
inductive FlowCall where
  | request (f : Option Flow) (input : List Byte)
  | response (fuel : Nat) (f : Option Flow) (input : List Byte)
  | mark_done (id : Nat)
  deriving DecidableEq, Repr

/-- The state after one call on a flow. -/
def FlowCall.run (env : Env) (st : DNSState) : FlowCall → Except Err DNSState
  | .request f input =>
    match DNSTCPRequestParse env f st input with
    | .error e => .error e
    | .ok (_, st1) => .ok st1
  | .response fuel f input =>
    match DNSTCPResponseParse env fuel f st input with
    | .error e => .error e
    | .ok (_, st1) => .ok st1
  | .mark_done id => .ok (DNSStateTransactionFree st id)

/-- The states that a sequence of calls passes through, the first state
included. -/
def flowTrace (env : Env) : DNSState → List FlowCall → Except Err (List DNSState)
  | st, [] => .ok [st]
  | st, c :: cs =>
    match c.run env st with
    | .error e => .error e
    | .ok st1 =>
      match flowTrace env st1 cs with
      | .error e => .error e
      | .ok tr => .ok (st :: tr)

/-- Every cleanup call of the sequence comes with an id that is at least the
value of `transaction_done` at that moment, `d` at the start: the framers do
not write the field, so that value is the id of the cleanup call before. -/
def IdsAscend : Nat → List FlowCall → Prop
  | _, [] => True
  | d, .mark_done id :: cs => d ≤ id ∧ IdsAscend id cs
  | d, .request _ _ :: cs => IdsAscend d cs
  | d, .response _ _ _ :: cs => IdsAscend d cs

/-- The counter `transaction_cnt` of `st1` is that of `st` advanced, in 16 bit
arithmetic, by the number of transactions that `st1` has more. -/
def CntAdvance (st st1 : DNSState) : Prop :=
  ∃ k, st1.tx_list.length = st.tx_list.length + k ∧
    st1.transaction_cnt = if k = 0 then st.transaction_cnt else u16 (st.transaction_cnt + k)

/-- The values of `transaction_done` along a trace, if all calls returned. -/
def donesOf (x : Except Err (List DNSState)) : Option (List Nat) :=
  match x with
  | .ok tr => some (tr.map DNSState.transaction_done)
  | .error _ => none

/-! ## The packet queue handler (src/tmqh-simple.c) -/

/-- A packet pointer, known by its address. -/
abbrev Packet := Nat

/-- What a queue handler does to the queue, in order. Never read by the code. -/
inductive QueueEvent where
  | lock
  | wait
  | enqueue (p : Packet)
  | dequeue
  | signal
  | unlock
  deriving DecidableEq, Repr

/-- A `PacketQueue` in a sequential model: the packets in the queue with the
oldest first, the field `len`, whether `mutex_q` is held, and the log of the
operations made on the queue. -/
structure PacketQueue where
  pkts : List Packet
  len : Nat
  mutex_q : Bool
  log : List QueueEvent
  deriving DecidableEq, Repr

/-- Modelled from the spec: `SCMutexLock` on the mutex of the queue, which is
held afterwards. -/
def SCMutexLock (q : PacketQueue) : PacketQueue :=
  { q with mutex_q := true, log := q.log ++ [.lock] }

/-- Modelled from the spec: `SCMutexUnlock` on the mutex of the queue. -/
def SCMutexUnlock (q : PacketQueue) : PacketQueue :=
  { q with mutex_q := false, log := q.log ++ [.unlock] }

/-- Modelled from the spec: `SCondWait` gives the mutex up, blocks and returns
with the mutex held; in between other threads may have changed the queue.
`woken` is the content of the queue when the wait returns. -/
def SCondWait (woken : List Packet) (q : PacketQueue) : PacketQueue :=
  { q with pkts := woken, len := woken.length, mutex_q := true, log := q.log ++ [.wait] }

/-- Modelled from the spec: `PacketDequeue` takes the oldest packet out of the
queue (section 4.6: dequeue is FIFO) and returns it, null for an empty queue. -/
def PacketDequeue (q : PacketQueue) : Option Packet × PacketQueue :=
  match q.pkts with
  | [] => (none, { q with log := q.log ++ [.dequeue] })
  | p :: rest => (some p, { q with pkts := rest, len := q.len - 1, log := q.log ++ [.dequeue] })

/-- Modelled from the spec: `PacketEnqueue` puts the packet behind the packets
in the queue. -/
def PacketEnqueue (q : PacketQueue) (p : Packet) : PacketQueue :=
  { q with pkts := q.pkts ++ [p], len := q.len + 1, log := q.log ++ [.enqueue p] }

/-- Modelled from the spec: `SCCondSignal` wakes a waiting thread and leaves
the queue as it is. -/
def SCCondSignal (q : PacketQueue) : PacketQueue :=
  { q with log := q.log ++ [.signal] }

/-- The function `TmqhInputSimple` on the input queue `q` of the thread: the
packet returned (`none` for null) and the queue afterwards. The update of the
performance counters between the wait and the test of `len` does not touch the
queue and is left out. -/
def TmqhInputSimple (woken : List Packet) (q : PacketQueue) : Option Packet × PacketQueue :=
  let q1 := SCMutexLock q
  let q2 := if q1.len = 0 then SCondWait woken q1 else q1
  if q2.len > 0 then
    match PacketDequeue q2 with
    | (p, q3) => (p, SCMutexUnlock q3)
  else (none, SCMutexUnlock q2)

/-- The function `TmqhOutputSimple` on the output queue `q` of the thread. -/
def TmqhOutputSimple (q : PacketQueue) (p : Packet) : PacketQueue :=
  SCMutexUnlock (SCCondSignal (PacketEnqueue (SCMutexLock q) p))

/-- An empty queue with the mutex free. -/
def PacketQueue.empty : PacketQueue := ⟨[], 0, false, []⟩

/-- The states of a trace, if all calls returned, and no state otherwise. -/
def traceAfter (x : Except Err (List DNSState)) : List DNSState :=
  match x with
  | .ok tr => tr
  | .error _ => []

/-- Three calls on a new flow: the query of scenario 1, then the cleanup
callback with the ids 1 and 4. -/
def sampleCalls : List FlowCall := [.request tcp queryRecord, .mark_done 1, .mark_done 4]

/-- A response chunk of 14 bytes whose length field declares 0 bytes; behind it
a header with id 0x1234, flags 0x8000 and all counts 0. -/
def zeroLengthResponse : List Byte :=
  [0x00, 0x00, 0x12, 0x34, 0x80, 0x00, 0x00, 0x00, 0x00, 0x00, 0x00, 0x00, 0x00, 0x00]

/-- The header behind the length field of `zeroLengthResponse`. -/
def zeroLengthHeader : DNSHeader := ⟨0x1234, 0x8000, 0, 0, 0, 0⟩

/-- Whether a run ended because the passes allowed were used up. -/
def outOfFuel (x : Except Err (Int × DNSState)) : Bool :=
  match x with
  | .error .fuel => true
  | _ => false

/-- A bound on the passes through `next_record` that the request framer still
makes behind the current one: one for every 12 bytes left, and one more while a
record is in progress. -/
def passBound (st : DNSState) (input_len : Nat) : Nat :=
  input_len / 12 + (if st.offset ≠ 0 then 1 else 0)

/-- A piece of the log without an entry for the branch of `BUG_ON(1)`, in which
every call of `BufferData` came with a length that is unchanged by the
conversion to `uint16_t` and fits the record: `len + offset ≤ record_len`. -/
def NoClip (log : List Call) : Prop :=
  Call.bug_on ∉ log ∧
    ∀ len offset record_len, Call.buffer_data len offset record_len ∈ log →
      u16 len = len ∧ len + offset ≤ record_len

/-- The bound on the length of a chunk below which `input_len + offset` does
not wrap around in `uint32_t` arithmetic: 2^32 - 65535. -/
def chunkBound : Nat := 4294967296 - 65535

/-- The strict form of the invariant on the reassembly fields: idle with both
fields zero, or a record in progress of which at least 12 bytes and not all
bytes are buffered. -/
def Strict (st : DNSState) : Prop :=
  (st.offset = 0 ∧ st.record_len = 0) ∨ (12 ≤ st.offset ∧ st.offset < st.record_len)

/-- The states of a flow on which every chunk is shorter than `chunkBound`: the
zero-initialised state and every state in which a call of one of the two
framers on such a chunk returns. -/
inductive ReachableShort (env : Env) : DNSState → Prop where
  | init : ReachableShort env DNSState.init
  | request (f : Option Flow) (st : DNSState) (input : List Byte) (r : Int) (st1 : DNSState)
      (hst : ReachableShort env st) (hlen : input.length < chunkBound)
      (hcall : DNSTCPRequestParse env f st input = .ok (r, st1)) : ReachableShort env st1
  | response (fuel : Nat) (f : Option Flow) (st : DNSState) (input : List Byte) (r : Int)
      (st1 : DNSState) (hst : ReachableShort env st) (hlen : input.length < chunkBound)
      (hcall : DNSTCPResponseParse env fuel f st input = .ok (r, st1)) :
      ReachableShort env st1

/-- A chunk of 2^32 - 18 zero bytes. -/
def hugeChunk : List Byte := List.replicate 4294967278 0

/-! ## Lemmas on the helpers and on one pass of a framer -/

theorem rd16_le {mem : List Byte} {i v : Nat} (h : rd16 mem i = some v) : v ≤ 65535 := by
  unfold rd16 at h
  split at h
  · rename_i hi lo _ _
    simp only [Option.some.injEq] at h
    have h1 := hi.isLt
    have h2 := lo.isLt
    unfold ntohs at h
    omega
  · simp at h

theorem BufferData_spec {st st1 : DNSState} {data : List Byte} {len : Nat}
    (h : BufferData st data len = .ok st1) (h1 : st.offset ≤ 65535)
    (h2 : st.record_len ≤ 65535) :
    st1.record_len = st.record_len ∧ st1.offset = u16 (st.offset + bufferLen st len) ∧
    st1.buffer = some (memcpyAt (st.buffer.getD []) st.offset data (bufferLen st len)) ∧
    st1.tx_list = st.tx_list ∧ st1.transaction_cnt = st.transaction_cnt ∧
    st1.transaction_done = st.transaction_done ∧ st1.events = st.events ∧
    bufferLen st len ≤ data.length ∧ st.offset + bufferLen st len ≤ 65535 := by
  have hc : (u32 (u16 len) + u32 st.offset > u32 st.record_len) ↔
      (u16 len + st.offset > st.record_len) := by
    unfold u32 u16; omega
  unfold BufferData at h
  simp only [DNSState.note, hc] at h
  unfold bufferLen
  split at h <;> rename_i hclip <;> simp only [hclip, if_true, if_false] <;>
    unfold bufferCopy at h <;> split at h
  · simp at h
  · split at h
    · simp at h
    · simp only [Except.ok.injEq] at h
      subst h
      dsimp only at *
      simp only [u16, u32, sub16] at *
      refine ⟨?_, ?_, ?_, ?_, ?_, ?_, ?_, ?_, ?_⟩ <;> first | rfl | trivial | omega
  · simp at h
  · split at h
    · simp at h
    · simp only [Except.ok.injEq] at h
      subst h
      dsimp only at *
      simp only [u16, u32, sub16] at *
      refine ⟨?_, ?_, ?_, ?_, ?_, ?_, ?_, ?_, ?_⟩ <;> first | rfl | trivial | omega


theorem requestPass_eq (env : Env) :
    requestPass env = recordPass true (DNSRequestParseData env) Call.request_data := by
  funext st input input_len
  simp only [requestPass, recordPass, true_and]

theorem responsePass_eq (env : Env) :
    responsePass env = recordPass false (DNSReponseParseData env) Call.response_data := by
  funext st input input_len
  simp [responsePass, recordPass]

theorem recordPass_cases {check : Bool}
    {parse : DNSState → List Byte → Nat → Except Err (Int × DNSState)}
    {mk : List Byte → Nat → Call} {st : DNSState} {input : List Byte} {input_len : Nat}
    {p : Pass} (h : recordPass check parse mk st input input_len = .ok p) :
    PassCase check parse mk st input input_len p := by
  unfold recordPass at h
  simp only [DNSState.note, sizeof_DNSTcpHeader, sizeof_DNSHeader] at h
  split at h
  · rename_i hc
    simp only [Except.ok.injEq] at h
    exact .short hc.1 hc.2 h.symm
  · rename_i hc
    split at h
    · rename_i h0
      have hs : 14 ≤ input_len := by
        by_contra hcon
        exact hc ⟨h0, by omega⟩
      split at h
      · simp at h
      · rename_i len hl
        split at h
        · rename_i hb
          simp only [Except.ok.injEq] at h
          exact .bogus len h0 hs hl hb.1 hb.2 h.symm
        · rename_i hb
          split at h
          · rename_i he
            split at h
            · simp at h
            · rename_i r st1 hparse
              refine .whole len r st1 h0 hs hl hb he hparse ?_
              split at h <;> rename_i hr <;> simp only [Except.ok.injEq] at h <;>
                simp [hr, h]
          · rename_i he
            split at h
            · rename_i hg
              split at h
              · simp at h
              · rename_i r st1 hparse
                refine .more len r st1 h0 hs hl hb he hg hparse ?_
                split at h <;> rename_i hr <;> simp only [Except.ok.injEq] at h <;>
                  simp [hr, h]
            · rename_i hg
              split at h
              · simp at h
              · rename_i st1 hbuf
                simp only [Except.ok.injEq] at h
                exact .start len st1 h0 hs hl hb (by omega) hbuf h.symm
    · rename_i h0
      split at h
      · rename_i hlt
        split at h
        · simp at h
        · rename_i st1 hbuf
          simp only [Except.ok.injEq] at h
          exact .mid_less st1 h0 hlt hbuf h.symm
      · rename_i hlt
        split at h
        · rename_i hg
          split at h
          · simp at h
          · rename_i st1 hbuf
            split at h
            · simp at h
            · rename_i buffer hb
              split at h
              · simp at h
              · rename_i r st2 hparse
                refine .mid_more st1 st2 buffer r h0 hlt hg hbuf hb hparse ?_
                split at h <;> rename_i hr <;> simp only [Except.ok.injEq] at h <;>
                  simp [hr, h]
        · rename_i hg
          split at h
          · simp at h
          · rename_i st1 hbuf
            split at h
            · simp at h
            · rename_i buffer hb
              split at h
              · simp at h
              · rename_i r st2 hparse
                refine .mid_exact st1 st2 buffer r h0 hlt hg hbuf hb hparse ?_
                split at h <;> rename_i hr <;> simp only [Except.ok.injEq] at h <;>
                  simp [hr, h]

theorem SameFrame.trans {a b c : DNSState} (h1 : SameFrame a b) (h2 : SameFrame b c) :
    SameFrame a c := by
  obtain ⟨a1, a2, a3, a4, a5⟩ := h1
  obtain ⟨b1, b2, b3, b4, b5⟩ := h2
  exact ⟨b1.trans a1, b2.trans a2, b3.trans a3, b4.trans a4, b5.trans a5⟩

theorem SameFrame.refl (a : DNSState) : SameFrame a a := ⟨rfl, rfl, rfl, rfl, rfl⟩

/-! ## What the message parsers leave unchanged -/

theorem DNSStoreQueryInState_frame (st : DNSState) (fqdn : List Byte) (t c id : Nat) :
    SameFrame st (DNSStoreQueryInState st fqdn t c id) ∧
    (DNSStoreQueryInState st fqdn t c id).events = st.events := by
  simp [SameFrame, DNSStoreQueryInState]

theorem requestQuestions_frame (env : Env) (input : List Byte) (input_len tx_id : Nat) :
    ∀ (n data : Nat) (st : DNSState),
      SameFrame st (requestQuestions env input input_len tx_id n data st).2 ∧
      (requestQuestions env input input_len tx_id n data st).2.events = st.events ∧
      st.tx_list <+: (requestQuestions env input input_len tx_id n data st).2.tx_list := by
  intro n
  induction n with
  | zero => intro data st; simp [requestQuestions, SameFrame]
  | succ n ih =>
    intro data st
    unfold requestQuestions
    split
    · simp [SameFrame]
    · split
      · dsimp only
        split
        · simp [SameFrame]
        · split
          · refine ⟨SameFrame.trans (DNSStoreQueryInState_frame _ _ _ _ _).1 (ih _ _).1, ?_, ?_⟩
            · rw [(ih _ _).2.1]; rfl
            · exact List.IsPrefix.trans (by simp [DNSStoreQueryInState]) (ih _ _).2.2
          · simp [SameFrame]
      all_goals simp [SameFrame]

theorem DNSRequestParseData_frame {env : Env} {st st1 : DNSState} {mem : List Byte}
    {n : Nat} {r : Int} (h : DNSRequestParseData env st mem n = .ok (r, st1)) :
    SameFrame st st1 ∧ st1.events = st.events ∧ st.tx_list <+: st1.tx_list ∧
      (r = 1 ∨ r = -1) := by
  unfold DNSRequestParseData at h
  split at h
  · simp at h
  · split at h
    · simp only [Except.ok.injEq, Prod.mk.injEq] at h
      obtain ⟨h1, h2⟩ := h
      subst h2
      exact ⟨SameFrame.refl _, rfl, List.prefix_refl _, Or.inr h1.symm⟩
    · rename_i hdr _ _
      have hf := requestQuestions_frame env mem n hdr.tx_id hdr.questions sizeof_DNSHeader st
      split at h <;> rename_i heq <;> rw [heq] at hf
      · simp only [Except.ok.injEq, Prod.mk.injEq] at h
        obtain ⟨h1, h2⟩ := h
        subst h2
        exact ⟨hf.1, hf.2.1, hf.2.2, Or.inl h1.symm⟩
      · simp only [Except.ok.injEq, Prod.mk.injEq] at h
        obtain ⟨h1, h2⟩ := h
        subst h2
        exact ⟨hf.1, hf.2.1, hf.2.2, Or.inr h1.symm⟩
      · simp only [Except.ok.injEq, Prod.mk.injEq] at h
        obtain ⟨h1, h2⟩ := h
        subst h2
        exact ⟨hf.1, hf.2.1, hf.2.2, Or.inr h1.symm⟩
      · simp at h
      · simp at h

theorem storeRR_key (id : Nat) (list : DNSList) (rr : List Byte) (l : List DNSTransaction) :
    (storeRR id list rr l).map txKey = l.map txKey := by
  induction l with
  | nil => rfl
  | cons tx rest ih =>
    unfold storeRR
    split
    · cases list <;> simp [txKey]
    · simp [ih]

theorem storeRR_not_found (id : Nat) (list : DNSList) (rr : List Byte)
    (l : List DNSTransaction) (h : txFound l id = false) : storeRR id list rr l = l := by
  induction l with
  | nil => rfl
  | cons tx rest ih =>
    unfold txFound at h
    simp only [List.any_cons, Bool.or_eq_false_iff, decide_eq_false_iff_not] at h
    unfold storeRR
    rw [if_neg h.1, ih h.2]

theorem DNSReponseParse_frame (env : Env) (st : DNSState) (hdr : DNSHeader) (list : DNSList)
    (input : List Byte) (input_len data : Nat) :
    SameFrame st (DNSReponseParse env st hdr list input input_len data).2 ∧
    (DNSReponseParse env st hdr list input input_len data).2.events = st.events ∧
    (DNSReponseParse env st hdr list input input_len data).2.tx_list.map txKey
      = st.tx_list.map txKey ∧
    (txFound st.tx_list hdr.tx_id = false →
      (DNSReponseParse env st hdr list input input_len data).2.tx_list = st.tx_list) ∧
    (DNSReponseParse env st hdr list input input_len data).1 = env.rrWalk input input_len data := by
  unfold DNSReponseParse
  split
  · rename_i h; simp [SameFrame, h]
  · rename_i h
    refine ⟨by simp [SameFrame], rfl, storeRR_key _ _ _ _, fun hnf => ?_, h.symm⟩
    exact storeRR_not_found _ _ _ _ hnf

theorem txFound_key {l1 l2 : List DNSTransaction} (h : l1.map txKey = l2.map txKey)
    (id : Nat) : txFound l1 id = txFound l2 id := by
  have h2 : l1.map (fun tx => tx.tx_id) = l2.map (fun tx => tx.tx_id) := by
    have := congrArg (List.map Prod.fst) h
    simpa [List.map_map, Function.comp, txKey] using this
  have e : ∀ l : List DNSTransaction,
      txFound l id = (l.map (fun tx => tx.tx_id)).any (fun x => decide (x = id)) := by
    intro l
    induction l with
    | nil => rfl
    | cons a t ih => simp only [txFound, List.any_cons, List.map_cons] at ih ⊢; rw [ih]
  rw [e, e, h2]

theorem responseRecords_frame (env : Env) (hdr : DNSHeader) (list : DNSList)
    (input : List Byte) (input_len : Nat) :
    ∀ (n data : Nat) (st : DNSState),
      SameFrame st (responseRecords env hdr list input input_len n data st).2 ∧
      (responseRecords env hdr list input input_len n data st).2.events = st.events ∧
      (responseRecords env hdr list input input_len n data st).2.tx_list.map txKey
        = st.tx_list.map txKey ∧
      (txFound st.tx_list hdr.tx_id = false →
        (responseRecords env hdr list input input_len n data st).2.tx_list = st.tx_list) := by
  intro n
  induction n with
  | zero => intro data st; simp [responseRecords, SameFrame]
  | succ n ih =>
    intro data st
    have hp := DNSReponseParse_frame env st hdr list input input_len data
    unfold responseRecords
    split
    · rename_i st1 heq
      rw [heq] at hp
      exact ⟨hp.1, hp.2.1, hp.2.2.1, hp.2.2.2.1⟩
    · rename_i data1 st1 heq
      rw [heq] at hp
      obtain ⟨i1, i2, i3, i4⟩ := ih data1 st1
      refine ⟨SameFrame.trans hp.1 i1, i2.trans hp.2.1, i3.trans hp.2.2.1, fun hnf => ?_⟩
      have e1 := hp.2.2.2.1 hnf
      dsimp only at e1
      rw [i4 (by rw [e1]; exact hnf), e1]

theorem DNSReponseParseData_frame {env : Env} {st st1 : DNSState} {mem : List Byte}
    {n : Nat} {r : Int} (h : DNSReponseParseData env st mem n = .ok (r, st1)) :
    SameFrame st st1 ∧ st.events <+: st1.events ∧
      st1.tx_list.map txKey = st.tx_list.map txKey ∧ (r = 1 ∨ r = -1) := by
  unfold DNSReponseParseData at h
  split at h
  · simp at h
  · rename_i hdr _
    split at h
    · simp only [Except.ok.injEq, Prod.mk.injEq] at h
      obtain ⟨h1, h2⟩ := h
      subst h2
      exact ⟨SameFrame.refl _, List.prefix_refl _, rfl, Or.inr h1.symm⟩
    · dsimp only at h
      generalize hst0 : (if txFound st.tx_list hdr.tx_id = true then st
        else { st with events := st.events ++ [DecoderEvent.UNSOLLICITED_RESPONSE] }) = st0 at h
      have h0 : SameFrame st st0 ∧ st.events <+: st0.events ∧ st0.tx_list = st.tx_list := by
        subst hst0
        split <;> simp [SameFrame]
      obtain ⟨f0, e0, t0⟩ := h0
      split at h
      · simp only [Except.ok.injEq, Prod.mk.injEq] at h
        obtain ⟨h1, h2⟩ := h
        subst h2
        exact ⟨f0, e0, by rw [t0], Or.inr h1.symm⟩
      · simp only [Except.ok.injEq, Prod.mk.injEq] at h
        obtain ⟨h1, h2⟩ := h
        subst h2
        exact ⟨f0, e0, by rw [t0], Or.inr h1.symm⟩
      · simp at h
      · simp at h
      · rename_i data _
        have ha := responseRecords_frame env hdr .DNS_LIST_ANSWER mem n hdr.answer_rr data st0
        split at h
        · rename_i sta heq
          rw [heq] at ha
          simp only [Except.ok.injEq, Prod.mk.injEq] at h
          obtain ⟨h1, h2⟩ := h
          subst h2
          exact ⟨SameFrame.trans f0 ha.1, by rw [ha.2.1]; exact e0, by rw [ha.2.2.1, t0],
            Or.inr h1.symm⟩
        · rename_i data1 sta heq
          rw [heq] at ha
          have hb := responseRecords_frame env hdr .DNS_LIST_AUTHORITY mem n hdr.authority_rr
            data1 sta
          split at h <;> rename_i heq2 <;> rw [heq2] at hb <;>
            simp only [Except.ok.injEq, Prod.mk.injEq] at h <;> obtain ⟨h1, h2⟩ := h <;>
            subst h2
          · exact ⟨SameFrame.trans f0 (SameFrame.trans ha.1 hb.1),
              by rw [hb.2.1, ha.2.1]; exact e0, by rw [hb.2.2.1, ha.2.2.1, t0], Or.inr h1.symm⟩
          · exact ⟨SameFrame.trans f0 (SameFrame.trans ha.1 hb.1),
              by rw [hb.2.1, ha.2.1]; exact e0, by rw [hb.2.2.1, ha.2.2.1, t0], Or.inl h1.symm⟩

theorem DNSRequestParseData_parseFrame (env : Env) : ParseFrame (DNSRequestParseData env) := by
  intro st mem n r st1 h
  obtain ⟨h1, h2, h3, h4⟩ := DNSRequestParseData_frame h
  exact ⟨h1, List.IsPrefix.map _ h3, by rw [h2], h4⟩

theorem DNSReponseParseData_parseFrame (env : Env) : ParseFrame (DNSReponseParseData env) := by
  intro st mem n r st1 h
  obtain ⟨h1, h2, h3, h4⟩ := DNSReponseParseData_frame h
  exact ⟨h1, by rw [h3], h2, h4⟩

/-! ## The loop around the passes -/

theorem nextRecordLoop_induct {pass : DNSState → List Byte → Nat → Except Err Pass}
    (I : DNSState → List Byte → Nat → Prop) (Q : Int → DNSState → Prop)
    (hret : ∀ st input l r st1, I st input l → pass st input l = .ok (.ret r st1) → Q r st1)
    (hagain : ∀ st input l st1 input1 l1, I st input l →
      pass st input l = .ok (.again st1 input1 l1) → I st1 input1 l1) :
    ∀ (fuel : Nat) (st : DNSState) (input : List Byte) (l : Nat) (r : Int) (st1 : DNSState),
      I st input l → nextRecordLoop pass fuel st input l = .ok (r, st1) → Q r st1 := by
  intro fuel
  induction fuel with
  | zero => intro st input l r st1 _ h; simp [nextRecordLoop] at h
  | succ fuel ih =>
    intro st input l r st1 hI h
    unfold nextRecordLoop at h
    split at h
    · simp at h
    · rename_i r0 st0 heq
      simp only [Except.ok.injEq, Prod.mk.injEq] at h
      obtain ⟨h1, h2⟩ := h
      subst h1 h2
      exact hret _ _ _ _ _ hI heq
    · rename_i st0 input0 l0 heq
      exact ih _ _ _ _ _ (hagain _ _ _ _ _ _ hI heq) h

theorem DNSTCPRequestParse_cases {env : Env} {f : Option Flow} {st st1 : DNSState}
    {input : List Byte} {r : Int} (h : DNSTCPRequestParse env f st input = .ok (r, st1)) :
    (r = -1 ∧ st1 = st ∧ (input.length = 0 ∨ ∃ fl, f = some fl ∧ fl.proto ≠ IPPROTO_TCP)) ∨
    (input.length ≠ 0 ∧ (∀ fl, f = some fl → fl.proto = IPPROTO_TCP) ∧
      requestNextRecord env (input.length + 2) st input input.length = .ok (r, st1)) := by
  unfold DNSTCPRequestParse at h
  split at h
  · rename_i fl
    split at h
    · rename_i hp
      simp only [Except.ok.injEq, Prod.mk.injEq] at h
      exact Or.inl ⟨h.1.symm, h.2.symm, Or.inr ⟨fl, rfl, hp⟩⟩
    · rename_i hp
      split at h
      · rename_i hl
        simp only [Except.ok.injEq, Prod.mk.injEq] at h
        exact Or.inl ⟨h.1.symm, h.2.symm, Or.inl hl⟩
      · rename_i hl
        refine Or.inr ⟨hl, fun fl1 e => ?_, h⟩
        simp only [Option.some.injEq] at e
        subst e
        exact not_not.mp hp
  · split at h
    · rename_i hl
      simp only [Except.ok.injEq, Prod.mk.injEq] at h
      exact Or.inl ⟨h.1.symm, h.2.symm, Or.inl hl⟩
    · rename_i hl
      exact Or.inr ⟨hl, fun fl1 e => by simp at e, h⟩

theorem DNSTCPResponseParse_cases {env : Env} {fuel : Nat} {f : Option Flow}
    {st st1 : DNSState} {input : List Byte} {r : Int}
    (h : DNSTCPResponseParse env fuel f st input = .ok (r, st1)) :
    (r = -1 ∧ st1 = st ∧ (input.length = 0 ∨ ∃ fl, f = some fl ∧ fl.proto ≠ IPPROTO_TCP)) ∨
    (input.length ≠ 0 ∧ (∀ fl, f = some fl → fl.proto = IPPROTO_TCP) ∧
      responseNextRecord env fuel st input input.length = .ok (r, st1)) := by
  unfold DNSTCPResponseParse at h
  split at h
  · rename_i fl
    split at h
    · rename_i hp
      simp only [Except.ok.injEq, Prod.mk.injEq] at h
      exact Or.inl ⟨h.1.symm, h.2.symm, Or.inr ⟨fl, rfl, hp⟩⟩
    · rename_i hp
      split at h
      · rename_i hl
        simp only [Except.ok.injEq, Prod.mk.injEq] at h
        exact Or.inl ⟨h.1.symm, h.2.symm, Or.inl hl⟩
      · rename_i hl
        refine Or.inr ⟨hl, fun fl1 e => ?_, h⟩
        simp only [Option.some.injEq] at e
        subst e
        exact not_not.mp hp
  · split at h
    · rename_i hl
      simp only [Except.ok.injEq, Prod.mk.injEq] at h
      exact Or.inl ⟨h.1.symm, h.2.symm, Or.inl hl⟩
    · rename_i hl
      exact Or.inr ⟨hl, fun fl1 e => by simp at e, h⟩

/-! ## Boundedness of the reassembly fields -/

theorem BufferData_bounded {st st1 : DNSState} {data : List Byte} {len : Nat}
    (h : BufferData st data len = .ok st1) (hb : Bounded st) :
    Bounded st1 ∧ st1.record_len = st.record_len := by
  obtain ⟨b1, b2⟩ := hb
  obtain ⟨s1, s2, -⟩ := BufferData_spec h (by omega) b2
  refine ⟨⟨?_, by omega⟩, s1⟩
  rw [s1, s2]
  unfold bufferLen u16 sub16
  split <;> omega

theorem recordPass_bounded {check : Bool}
    {parse : DNSState → List Byte → Nat → Except Err (Int × DNSState)}
    {mk : List Byte → Nat → Call} (hparse : ParseFrame parse) {st : DNSState}
    {input : List Byte} {input_len : Nat} {p : Pass} (hb : Bounded st)
    (h : recordPass check parse mk st input input_len = .ok p) : Bounded p.state := by
  have hnote : ∀ c, Bounded (st.note c) := fun c => hb
  cases recordPass_cases h with
  | short h0 hs hp => subst hp; exact hb
  | bogus len h0 hs hl hc hb1 hp => subst hp; exact hb
  | whole len r st1 h0 hs hl hc he hpar hp =>
    obtain ⟨⟨-, f2, f3, -⟩, -⟩ := hparse _ _ _ _ _ hpar
    have : Bounded st1 := by
      unfold Bounded; rw [f2, f3]; exact hb
    subst hp; split <;> exact this
  | more len r st1 h0 hs hl hc he hg hpar hp =>
    obtain ⟨⟨-, f2, f3, -⟩, -⟩ := hparse _ _ _ _ _ hpar
    have : Bounded st1 := by
      unfold Bounded; rw [f2, f3]; exact hb
    subst hp; split <;> exact this
  | start len st1 h0 hs hl hc hg hbuf hp =>
    subst hp
    have hle := rd16_le hl
    refine (BufferData_bounded hbuf ?_).1
    unfold Bounded
    simp only [DNSState.note]
    omega
  | mid_less st1 h0 hlt hbuf hp =>
    subst hp
    exact (BufferData_bounded hbuf (hnote _)).1
  | mid_more st1 st2 buffer r h0 hlt hg hbuf hb1 hpar hp =>
    subst hp
    split <;> simp [Pass.state, BufferReset, Bounded]
  | mid_exact st1 st2 buffer r h0 hlt hg hbuf hb1 hpar hp =>
    subst hp
    split <;> simp [Pass.state, BufferReset, Bounded]

theorem nextRecordLoop_bounded {check : Bool}
    {parse : DNSState → List Byte → Nat → Except Err (Int × DNSState)}
    {mk : List Byte → Nat → Call} (hparse : ParseFrame parse) {fuel : Nat} {st st1 : DNSState}
    {input : List Byte} {input_len : Nat} {r : Int} (hb : Bounded st)
    (h : nextRecordLoop (recordPass check parse mk) fuel st input input_len = .ok (r, st1)) :
    Bounded st1 :=
  nextRecordLoop_induct (fun st _ _ => Bounded st) (fun _ st => Bounded st)
    (fun _ _ _ _ _ hI hp => recordPass_bounded hparse hI hp)
    (fun _ _ _ _ _ _ hI hp => recordPass_bounded hparse hI hp) fuel st input input_len r st1 hb h

theorem DNSTCPRequestParse_bounded {env : Env} {f : Option Flow} {st st1 : DNSState}
    {input : List Byte} {r : Int} (hb : Bounded st)
    (h : DNSTCPRequestParse env f st input = .ok (r, st1)) : Bounded st1 := by
  rcases DNSTCPRequestParse_cases h with ⟨-, e, -⟩ | ⟨-, -, hl⟩
  · rw [e]; exact hb
  · unfold requestNextRecord at hl
    rw [requestPass_eq] at hl
    exact nextRecordLoop_bounded (DNSRequestParseData_parseFrame env) hb hl

theorem DNSTCPResponseParse_bounded {env : Env} {fuel : Nat} {f : Option Flow}
    {st st1 : DNSState} {input : List Byte} {r : Int} (hb : Bounded st)
    (h : DNSTCPResponseParse env fuel f st input = .ok (r, st1)) : Bounded st1 := by
  rcases DNSTCPResponseParse_cases h with ⟨-, e, -⟩ | ⟨-, -, hl⟩
  · rw [e]; exact hb
  · unfold responseNextRecord at hl
    rw [responsePass_eq] at hl
    exact nextRecordLoop_bounded (DNSReponseParseData_parseFrame env) hb hl

/-! ## Reset after a failure -/

theorem BufferData_frame {st st1 : DNSState} {data : List Byte} {len : Nat}
    (h : BufferData st data len = .ok st1) :
    st1.record_len = st.record_len ∧ st1.tx_list = st.tx_list ∧ st1.events = st.events ∧
      st1.transaction_cnt = st.transaction_cnt ∧
      st1.transaction_done = st.transaction_done := by
  unfold BufferData at h
  simp only [DNSState.note] at h
  split at h <;> unfold bufferCopy at h <;> split at h
  · simp at h
  · split at h
    · simp at h
    · simp only [Except.ok.injEq] at h
      subst h
      simp
  · simp at h
  · split at h
    · simp at h
    · simp only [Except.ok.injEq] at h
      subst h
      simp

theorem Pass.sat_ite {Q : Int → DNSState → Prop} {A : DNSState → List Byte → Nat → Prop}
    {c : Prop} [Decidable c] {p1 p2 : Pass} (h1 : c → Pass.sat Q A p1)
    (h2 : ¬ c → Pass.sat Q A p2) : Pass.sat Q A (if c then p1 else p2) := by
  split
  · exact h1 ‹_›
  · exact h2 ‹_›

theorem nextRecordLoop_sat {pass : DNSState → List Byte → Nat → Except Err Pass}
    (I : DNSState → List Byte → Nat → Prop) (Q : Int → DNSState → Prop)
    (hstep : ∀ st input l p, I st input l → pass st input l = .ok p → p.sat Q I)
    (fuel : Nat) (st : DNSState) (input : List Byte) (l : Nat) (r : Int) (st1 : DNSState)
    (hI : I st input l) (h : nextRecordLoop pass fuel st input l = .ok (r, st1)) : Q r st1 :=
  nextRecordLoop_induct I Q (fun _ _ _ _ _ hI hp => hstep _ _ _ _ hI hp)
    (fun _ _ _ _ _ _ hI hp => hstep _ _ _ _ hI hp) fuel st input l r st1 hI h

theorem recordPass_reset {check : Bool}
    {parse : DNSState → List Byte → Nat → Except Err (Int × DNSState)}
    {mk : List Byte → Nat → Call} (hparse : ParseFrame parse) {st : DNSState}
    {input : List Byte} {input_len : Nat} {p : Pass} (keys : List (Nat × List DNSQueryEntry))
    (hI : (st.offset = 0 → st.record_len = 0) ∧ keys <+: st.tx_list.map txKey)
    (h : recordPass check parse mk st input input_len = .ok p) :
    p.sat
      (fun r st1 =>
        (r < 0 → st1.offset = 0 ∧ st1.record_len = 0) ∧ keys <+: st1.tx_list.map txKey)
      (fun st1 _ _ =>
        (st1.offset = 0 → st1.record_len = 0) ∧ keys <+: st1.tx_list.map txKey) := by
  obtain ⟨hi1, hi2⟩ := hI
  cases recordPass_cases h with
  | short h0 hs hp => subst hp; exact ⟨fun _ => ⟨h0, hi1 h0⟩, hi2⟩
  | bogus len h0 hs hl hc hb1 hp => subst hp; exact ⟨fun _ => ⟨h0, hi1 h0⟩, hi2⟩
  | whole len r st1 h0 hs hl hc he hpar hp =>
    obtain ⟨⟨-, f2, f3, -⟩, f4, -⟩ := hparse _ _ _ _ _ hpar
    simp only [DNSState.note] at f2 f3 f4
    subst hp
    exact Pass.sat_ite (fun _ => ⟨fun _ => ⟨f3.trans h0, f2.trans (hi1 h0)⟩, hi2.trans f4⟩)
      (fun _ => ⟨fun _ => ⟨f3.trans h0, f2.trans (hi1 h0)⟩, hi2.trans f4⟩)
  | more len r st1 h0 hs hl hc he hg hpar hp =>
    obtain ⟨⟨-, f2, f3, -⟩, f4, -⟩ := hparse _ _ _ _ _ hpar
    simp only [DNSState.note] at f2 f3 f4
    subst hp
    exact Pass.sat_ite (fun _ => ⟨fun _ => ⟨f3.trans h0, f2.trans (hi1 h0)⟩, hi2.trans f4⟩)
      (fun _ => ⟨fun _ => f2.trans (hi1 h0), hi2.trans f4⟩)
  | start len st1 h0 hs hl hc hg hbuf hp =>
    subst hp
    obtain ⟨-, b2, -⟩ := BufferData_frame hbuf
    refine ⟨fun hr => absurd hr (by decide), ?_⟩
    rw [b2]; exact hi2
  | mid_less st1 h0 hlt hbuf hp =>
    subst hp
    obtain ⟨-, b2, -⟩ := BufferData_frame hbuf
    refine ⟨fun hr => absurd hr (by decide), ?_⟩
    rw [b2]; exact hi2
  | mid_more st1 st2 buffer r h0 hlt hg hbuf hb1 hpar hp =>
    obtain ⟨-, b2, -⟩ := BufferData_frame hbuf
    obtain ⟨-, f4, -⟩ := hparse _ _ _ _ _ hpar
    simp only [DNSState.note, b2] at f4
    subst hp
    exact Pass.sat_ite (fun _ => ⟨fun _ => ⟨rfl, rfl⟩, hi2.trans f4⟩)
      (fun _ => ⟨fun _ => rfl, hi2.trans f4⟩)
  | mid_exact st1 st2 buffer r h0 hlt hg hbuf hb1 hpar hp =>
    obtain ⟨-, b2, -⟩ := BufferData_frame hbuf
    obtain ⟨-, f4, -⟩ := hparse _ _ _ _ _ hpar
    simp only [DNSState.note, b2] at f4
    subst hp
    exact Pass.sat_ite (fun _ => ⟨fun _ => ⟨rfl, rfl⟩, hi2.trans f4⟩)
      (fun _ => ⟨fun _ => ⟨rfl, rfl⟩, hi2.trans f4⟩)

theorem nextRecordLoop_reset {check : Bool}
    {parse : DNSState → List Byte → Nat → Except Err (Int × DNSState)}
    {mk : List Byte → Nat → Call} (hparse : ParseFrame parse) {fuel : Nat} {st st1 : DNSState}
    {input : List Byte} {input_len : Nat} {r : Int} (h0 : st.offset = 0 → st.record_len = 0)
    (h : nextRecordLoop (recordPass check parse mk) fuel st input input_len = .ok (r, st1)) :
    (r < 0 → st1.offset = 0 ∧ st1.record_len = 0) ∧
      st.tx_list.map txKey <+: st1.tx_list.map txKey :=
  nextRecordLoop_sat
    (fun s _ _ => (s.offset = 0 → s.record_len = 0) ∧ st.tx_list.map txKey <+: s.tx_list.map txKey)
    (fun r s => (r < 0 → s.offset = 0 ∧ s.record_len = 0) ∧
      st.tx_list.map txKey <+: s.tx_list.map txKey)
    (fun _ _ _ _ hI hp => recordPass_reset hparse _ hI hp)
    fuel st input input_len r st1 ⟨h0, List.prefix_refl _⟩ h

/-! ## The label walks stay inside the declared length -/

theorem take_drop_take (input : List Byte) (n data len : Nat) (h : data + len ≤ n) :
    ((input.take n).drop data).take len = (input.drop data).take len := by
  rw [List.drop_take, List.take_take, Nat.min_eq_left (by omega)]

theorem requestLabels_take (M : Nat) (input : List Byte) (input_len : Nat)
    (hlen : input_len ≤ input.length) :
    ∀ (fuel data : Nat) (fqdn : List Byte), data < input_len →
      requestLabels M (input.take input_len) input_len fuel data fqdn
        = requestLabels M input input_len fuel data fqdn := by
  intro fuel
  induction fuel with
  | zero => intro data fqdn _; rfl
  | succ fuel ih =>
    intro data fqdn hd
    unfold requestLabels
    rw [List.getElem?_take_of_lt hd]
    split
    · rfl
    · rename_i b _
      dsimp only
      by_cases h0 : b.val = 0
      · simp only [h0, if_true]
      · simp only [h0, if_false]
        by_cases h63 : b.val > 63
        · simp only [h63, if_true]
        · simp only [h63, if_false]
          have hpos : b.val > 0 := by omega
          simp only [hpos, if_true]
          by_cases hin : input_len < data + 1 + b.val
          · simp only [hin, if_true]
          · simp only [hin, if_false]
            by_cases hfit : fqdn.length + b.val + 1 < M
            · simp only [hfit, if_true]
              have e1 : ¬ (input.take input_len).length < data + 1 + b.val := by
                rw [List.length_take_of_le hlen]; exact hin
              have e2 : ¬ input.length < data + 1 + b.val := by omega
              simp only [e1, e2, if_false]
              rw [take_drop_take input input_len (data + 1) b.val (by omega)]
              by_cases hnext : input_len < data + 1 + b.val + 1
              · simp only [hnext, if_true]
              · simp only [hnext, if_false]
                exact ih _ _ (by omega)
            · simp only [hfit, if_false]

theorem getElem?_some_of_lt (input : List Byte) (i : Nat) (h : i < input.length) :
    ∃ b, input[i]? = some b := by
  cases hb : input[i]? with
  | none => rw [List.getElem?_eq_none_iff] at hb; omega
  | some b => exact ⟨b, rfl⟩

theorem requestLabels_ok (M : Nat) (input : List Byte) (input_len : Nat)
    (hlen : input_len ≤ input.length) :
    ∀ (fuel data : Nat) (fqdn : List Byte), data < input_len → input_len ≤ data + fuel →
      requestLabels M input input_len fuel data fqdn ≠ .oob ∧
      requestLabels M input input_len fuel data fqdn ≠ .fuel ∧
      requestLabels M input input_len fuel data fqdn ≠ .bad_data ∧
      ∀ d fq, requestLabels M input input_len fuel data fqdn = .done (d, fq) →
        data ≤ d ∧ d < input_len := by
  intro fuel
  induction fuel with
  | zero => intro data fqdn h1 h2; omega
  | succ fuel ih =>
    intro data fqdn hd hf
    unfold requestLabels
    obtain ⟨b, hsome⟩ := getElem?_some_of_lt input data (by omega)
    rw [hsome]
    dsimp only
    by_cases h0 : b.val = 0
    · simp only [h0, if_true]
      refine ⟨by simp, by simp, by simp, fun d fq e => ?_⟩
      simp only [Walk.done.injEq, Prod.mk.injEq] at e
      omega
    · simp only [h0, if_false]
      by_cases h63 : b.val > 63
      · simp only [h63, if_true]
        simp
      · simp only [h63, if_false]
        have hpos : b.val > 0 := by omega
        simp only [hpos, if_true]
        by_cases hin : input_len < data + 1 + b.val
        · simp only [hin, if_true]; simp
        · simp only [hin, if_false]
          by_cases hfit : fqdn.length + b.val + 1 < M
          · simp only [hfit, if_true]
            have e2 : ¬ input.length < data + 1 + b.val := by omega
            simp only [e2, if_false]
            by_cases hnext : input_len < data + 1 + b.val + 1
            · simp only [hnext, if_true]; simp
            · simp only [hnext, if_false]
              obtain ⟨i1, i2, i3, i4⟩ := ih (data + 1 + b.val)
                (fqdn ++ List.take b.val (List.drop (data + 1) input) ++ [dot])
                (by omega) (by omega)
              refine ⟨i1, i2, i3, fun d fq e => ?_⟩
              have := i4 d fq e
              omega
          · simp only [hfit, if_false]; simp

theorem rd16_take {input : List Byte} {n i : Nat} (h : i + 1 < n) :
    rd16 (input.take n) i = rd16 input i := by
  unfold rd16
  rw [List.getElem?_take_of_lt (by omega), List.getElem?_take_of_lt h]

theorem rd16_some (input : List Byte) (i : Nat) (h : i + 1 < input.length) :
    ∃ v, rd16 input i = some v := by
  unfold rd16
  rw [List.getElem?_eq_getElem (by omega), List.getElem?_eq_getElem h]
  exact ⟨_, rfl⟩

theorem requestQuestions_take (env : Env) (input : List Byte) (input_len tx_id : Nat)
    (hlen : input_len ≤ input.length) :
    ∀ (n data : Nat) (st : DNSState),
      requestQuestions env (input.take input_len) input_len tx_id n data st
        = requestQuestions env input input_len tx_id n data st := by
  intro n
  induction n with
  | zero => intro data st; rfl
  | succ n ih =>
    intro data st
    unfold requestQuestions
    by_cases hd : input_len < data + 1
    · simp only [hd, if_true]
    · simp only [hd, if_false]
      rw [requestLabels_take _ _ _ hlen _ _ _ (by omega)]
      have hok := (requestLabels_ok env.DNS_MAX_SIZE input input_len hlen input_len data []
        (by omega) (by omega)).2.2.2
      split
      · rename_i d fq heq
        have hb := hok d fq heq
        by_cases ht : input_len < d + 1 + sizeof_DNSQueryTrailer
        · simp only [ht, if_true]
        · simp only [ht, if_false]
          unfold sizeof_DNSQueryTrailer at ht
          rw [rd16_take (by omega), rd16_take (by omega)]
          simp only [ih]
      all_goals rfl

theorem requestQuestions_ok (env : Env) (input : List Byte) (input_len tx_id : Nat)
    (hlen : input_len ≤ input.length) :
    ∀ (n data : Nat) (st : DNSState),
      (requestQuestions env input input_len tx_id n data st).1 ≠ .oob ∧
      (requestQuestions env input input_len tx_id n data st).1 ≠ .fuel := by
  intro n
  induction n with
  | zero => intro data st; simp [requestQuestions]
  | succ n ih =>
    intro data st
    unfold requestQuestions
    by_cases hd : input_len < data + 1
    · simp only [hd, if_true]; simp
    · simp only [hd, if_false]
      obtain ⟨o1, o2, o3, o4⟩ := requestLabels_ok env.DNS_MAX_SIZE input input_len hlen
        input_len data [] (by omega) (by omega)
      split
      · rename_i d fq heq
        have hb := o4 d fq heq
        by_cases ht : input_len < d + 1 + sizeof_DNSQueryTrailer
        · simp only [ht, if_true]; simp
        · simp only [ht, if_false]
          unfold sizeof_DNSQueryTrailer at ht
          obtain ⟨v1, e1⟩ := rd16_some input (d + 1) (by omega)
          obtain ⟨v2, e2⟩ := rd16_some input (d + 1 + 2) (by omega)
          rw [e1, e2]
          exact ih _ _
      · simp
      · simp
      · rename_i heq; exact absurd heq o1
      · rename_i heq; exact absurd heq o2

theorem readHeader_take {input : List Byte} {n : Nat} (h : 12 ≤ n) :
    readHeader (input.take n) = readHeader input := by
  unfold readHeader
  rw [rd16_take (by omega), rd16_take (by omega), rd16_take (by omega), rd16_take (by omega),
    rd16_take (by omega), rd16_take (by omega)]

theorem readHeader_some (input : List Byte) (h : 12 ≤ input.length) :
    ∃ hdr, readHeader input = some hdr := by
  unfold readHeader
  obtain ⟨v0, e0⟩ := rd16_some input (0) (by omega)
  obtain ⟨v1, e1⟩ := rd16_some input (2) (by omega)
  obtain ⟨v2, e2⟩ := rd16_some input (4) (by omega)
  obtain ⟨v3, e3⟩ := rd16_some input (6) (by omega)
  obtain ⟨v4, e4⟩ := rd16_some input (8) (by omega)
  obtain ⟨v5, e5⟩ := rd16_some input (10) (by omega)
  rw [e0, e1, e2, e3, e4, e5]
  exact ⟨_, rfl⟩

/-- The request parser reads below the declared length only: it gives the same
result on the memory cut at that length. -/
theorem DNSRequestParseData_take (env : Env) (st : DNSState) (mem : List Byte) (n : Nat)
    (h12 : 12 ≤ n) (hlen : n ≤ mem.length) :
    DNSRequestParseData env st (mem.take n) n = DNSRequestParseData env st mem n := by
  unfold DNSRequestParseData
  rw [readHeader_take h12]
  split
  · rfl
  · rename_i hdr _
    simp only [requestQuestions_take env mem n _ hlen]

/-- The request parser returns when the memory holds the declared length, which
is at least the size of the header. -/
theorem DNSRequestParseData_ok (env : Env) (st : DNSState) (mem : List Byte) (n : Nat)
    (h12 : 12 ≤ n) (hlen : n ≤ mem.length) :
    ∃ r st1, DNSRequestParseData env st mem n = .ok (r, st1) := by
  unfold DNSRequestParseData
  obtain ⟨hdr, e⟩ := readHeader_some mem (by omega)
  rw [e]
  dsimp only
  split
  · exact ⟨_, _, rfl⟩
  · have hq := requestQuestions_ok env mem n hdr.tx_id hlen hdr.questions sizeof_DNSHeader st
    split
    · exact ⟨_, _, rfl⟩
    · exact ⟨_, _, rfl⟩
    · exact ⟨_, _, rfl⟩
    · rename_i heq; rw [heq] at hq; exact absurd rfl hq.1
    · rename_i heq; rw [heq] at hq; exact absurd rfl hq.2

/-! ## Memory safety and termination of the passes -/

theorem memcpyAt_length (buffer data : List Byte) (offset len : Nat) (h : len ≤ data.length) :
    offset + len ≤ (memcpyAt buffer offset data len).length := by
  unfold memcpyAt
  simp only [List.length_append, List.length_take, List.length_replicate, List.length_drop]
  omega

theorem BufferData_calls {st st1 : DNSState} {data : List Byte} {len : Nat}
    (h : BufferData st data len = .ok st1) (mem : List Byte) (n : Nat)
    (hm : Call.request_data mem n ∈ st1.calls) : Call.request_data mem n ∈ st.calls := by
  unfold BufferData at h
  simp only [DNSState.note] at h
  split at h <;> unfold bufferCopy at h <;> split at h
  · simp at h
  · split at h
    · simp at h
    · simp only [Except.ok.injEq] at h
      subst h
      simpa using hm
  · simp at h
  · split at h
    · simp at h
    · simp only [Except.ok.injEq] at h
      subst h
      simpa using hm

theorem BufferData_ok {st : DNSState} (data : List Byte) (len : Nat) (hb : Bounded st)
    (h1 : u16 len ≤ data.length) :
    ∃ st1, BufferData st data len = .ok st1 := by
  obtain ⟨b1, b2⟩ := hb
  unfold BufferData
  simp only [DNSState.note, u16, u32, sub16] at *
  split <;> unfold bufferCopy <;> dsimp only
  · rw [if_neg (by omega), if_neg (by omega)]
    exact ⟨_, rfl⟩
  · rw [if_neg (by omega), if_neg (by omega)]
    exact ⟨_, rfl⟩

theorem recordPass_safe {check : Bool}
    {parse : DNSState → List Byte → Nat → Except Err (Int × DNSState)}
    {mk : List Byte → Nat → Call} (hparse : ParseFrame parse)
    (hmk : ∀ mem n m k, mk mem n = Call.request_data m k → m = mem ∧ k = n ∧ check = true)
    {st : DNSState} {input : List Byte} {input_len : Nat} {p : Pass}
    (hI : Safe st ∧ input_len = input.length ∧ input_len < 4294967296)
    (h : recordPass check parse mk st input input_len = .ok p) :
    p.sat (fun _ st1 => Safe st1)
      (fun st1 input1 l1 => (Safe st1 ∧ l1 = input1.length ∧ l1 < 4294967296) ∧
        (check = true → passMeasure st1 l1 < passMeasure st input_len)) := by
  obtain ⟨⟨hb, h12, hg⟩, hl, h32⟩ := hI
  have hb0 := hb
  obtain ⟨b1, b2⟩ := hb
  have hnote : ∀ c, (∀ m k, c ≠ Call.request_data m k) → Safe (st.note c) := by
    intro c hc
    refine ⟨hb0, h12, fun mem n hm => ?_⟩
    simp only [DNSState.note, List.mem_append, List.mem_singleton] at hm
    rcases hm with hm | hm
    · exact hg _ _ hm
    · exact absurd hm.symm (hc _ _)
  have hnr : Safe (st.note (.next_record input_len)) := hnote _ (by intro m k e; cases e)
  -- a logged parser call on top of a safe state
  have hcall : ∀ (s : DNSState) (mem : List Byte) (n : Nat), Safe s →
      (check = true → 12 ≤ n) → n ≤ mem.length → GoodCalls (s.note (mk mem n)) := by
    intro s mem n hs hn hle m k hm
    simp only [DNSState.note, List.mem_append, List.mem_singleton] at hm
    rcases hm with hm | hm
    · exact hs.2.2 _ _ hm
    · obtain ⟨e1, e2, e3⟩ := hmk _ _ _ _ hm.symm
      subst e1 e2
      exact ⟨hn e3, hle⟩
  cases recordPass_cases h with
  | short h0 hs hp => subst hp; exact hnr
  | bogus len h0 hs hl1 hc hb1 hp => subst hp; exact hnr
  | whole len r st1 h0 hs hl1 hc he hpar hp =>
    obtain ⟨⟨-, f2, f3, f4, -⟩, -⟩ := hparse _ _ _ _ _ hpar
    have hgc := hcall (st.note (.next_record input_len)) (input.drop 2) (sub32 input_len 2) hnr
      (by intro _; unfold sub32; omega) (by simp only [List.length_drop]; unfold sub32; omega)
    have hs1 : Safe st1 := by
      refine ⟨?_, ?_, ?_⟩
      · unfold Bounded; rw [f2, f3]; exact hb0
      · rw [f2, f3]; exact h12
      · intro m k hm; rw [f4] at hm; exact hgc _ _ hm
    subst hp
    exact Pass.sat_ite (fun _ => hs1) (fun _ => hs1)
  | more len r st1 h0 hs hl1 hc he hg1 hpar hp =>
    obtain ⟨⟨-, f2, f3, f4, -⟩, -⟩ := hparse _ _ _ _ _ hpar
    have hgc := hcall (st.note (.next_record input_len)) (input.drop 2) len hnr
      (by intro hc1; by_contra hcon; exact hc ⟨hc1, by omega⟩)
      (by simp only [List.length_drop]; unfold sub32 at hg1; omega)
    have hs1 : Safe st1 := by
      refine ⟨?_, ?_, ?_⟩
      · unfold Bounded; rw [f2, f3]; exact hb0
      · rw [f2, f3]; exact h12
      · intro m k hm; rw [f4] at hm; exact hgc _ _ hm
    subst hp
    refine Pass.sat_ite (fun _ => hs1) (fun _ => ⟨⟨hs1, ?_, ?_⟩, fun hc1 => ?_⟩)
    · simp only [List.length_drop]; unfold sub32 at hg1 ⊢; omega
    · unfold sub32 at hg1 ⊢; omega
    · have h12l : 12 ≤ len := by
        by_contra hcon; exact hc ⟨hc1, by omega⟩
      have e3 : st1.offset = 0 := by rw [f3]; exact h0
      unfold passMeasure
      rw [if_neg (by simp [e3]), if_neg (by simp [h0])]
      unfold sub32 at hg1 ⊢; omega
  | start len st1 h0 hs hl1 hc hg1 hbuf hp =>
    subst hp
    have hle := rd16_le hl1
    have hbd : Bounded { st.note (.next_record input_len) with record_len := len } := by
      unfold Bounded; simp only [DNSState.note]; omega
    obtain ⟨hb1, hr1⟩ := BufferData_bounded hbuf hbd
    refine ⟨hb1, fun _ => ?_, fun m k hm => ?_⟩
    · rw [hr1]; dsimp only; unfold sub32 at hg1; omega
    · have := BufferData_calls hbuf m k hm
      exact hnr.2.2 _ _ this
  | mid_less st1 h0 hlt hbuf hp =>
    subst hp
    obtain ⟨hb1, hr1⟩ := BufferData_bounded hbuf hnr.1
    refine ⟨hb1, fun _ => ?_, fun m k hm => ?_⟩
    · rw [hr1]; exact h12 h0
    · exact hnr.2.2 _ _ (BufferData_calls hbuf m k hm)
  | mid_more st1 st2 buffer r h0 hlt hg1 hbuf hb1 hpar hp =>
    obtain ⟨hbd1, hr1⟩ := BufferData_bounded hbuf hnr.1
    obtain ⟨s1, s2, s3, -, -, -, -, s8, s9⟩ := BufferData_spec hbuf
      (by simp only [DNSState.note]; omega) (by simp only [DNSState.note]; omega)
    simp only [DNSState.note] at s1 s2 s3 s8 s9 hr1
    have hneed : sub16 st.record_len st.offset = st.record_len - st.offset := by
      unfold sub16; omega
    have hbl : bufferLen { st with calls := st.calls ++ [Call.next_record input_len] }
        (sub16 st.record_len st.offset) = st.record_len - st.offset := by
      unfold bufferLen u16; dsimp only; rw [hneed]
      rw [if_neg (by omega)]; omega
    rw [hbl] at s2 s3 s8
    have hbuflen : st1.record_len ≤ buffer.length := by
      rw [hb1] at s3
      simp only [Option.some.injEq] at s3
      have := memcpyAt_length (st.buffer.getD []) input st.offset
        (st.record_len - st.offset) s8
      rw [s3, s1]; omega
    have hs1 : Safe st1 := by
      refine ⟨hbd1, fun _ => ?_, fun m k hm => hnr.2.2 _ _ (BufferData_calls hbuf m k hm)⟩
      rw [s1]; exact h12 h0
    have hgc := hcall st1 buffer st1.record_len hs1 (fun _ => by rw [s1]; exact h12 h0) hbuflen
    obtain ⟨⟨-, f2, f3, f4, -⟩, -⟩ := hparse _ _ _ _ _ hpar
    have hs3 : Safe (BufferReset st2) := by
      refine ⟨?_, ?_, ?_⟩
      · simp [Bounded, BufferReset]
      · simp [BufferReset]
      · intro m k hm
        have : Call.request_data m k ∈ st2.calls := hm
        rw [f4] at this
        exact hgc _ _ this
    subst hp
    refine Pass.sat_ite (fun _ => hs3) (fun _ => ⟨⟨hs3, ?_, ?_⟩, fun _ => ?_⟩)
    · simp only [List.length_drop]
      unfold sub32 sub16to32 at *
      rw [hneed]; omega
    · unfold sub32 sub16to32 at *
      rw [hneed]; omega
    · unfold passMeasure
      rw [if_neg (by simp [BufferReset]), if_pos h0]
      unfold sub32 sub16to32 at *
      rw [hneed]; omega
  | mid_exact st1 st2 buffer r h0 hlt hg1 hbuf hb1 hpar hp =>
    obtain ⟨hbd1, hr1⟩ := BufferData_bounded hbuf hnr.1
    obtain ⟨s1, s2, s3, -, -, -, -, s8, s9⟩ := BufferData_spec hbuf
      (by simp only [DNSState.note]; omega) (by simp only [DNSState.note]; omega)
    simp only [DNSState.note] at s1 s2 s3 s8 s9 hr1
    have hil : input_len = st.record_len - st.offset := by
      unfold u32 sub16to32 at *; omega
    have hbl : bufferLen { st with calls := st.calls ++ [Call.next_record input_len] }
        input_len = st.record_len - st.offset := by
      unfold bufferLen u16; dsimp only
      rw [if_neg (by omega)]; omega
    rw [hbl] at s2 s3 s8
    have hbuflen : st1.record_len ≤ buffer.length := by
      rw [hb1] at s3
      simp only [Option.some.injEq] at s3
      have := memcpyAt_length (st.buffer.getD []) input st.offset
        (st.record_len - st.offset) s8
      rw [s3, s1]; omega
    have hs1 : Safe st1 := by
      refine ⟨hbd1, fun _ => ?_, fun m k hm => hnr.2.2 _ _ (BufferData_calls hbuf m k hm)⟩
      rw [s1]; exact h12 h0
    have hgc := hcall st1 buffer st1.record_len hs1 (fun _ => by rw [s1]; exact h12 h0) hbuflen
    obtain ⟨⟨-, f2, f3, f4, -⟩, -⟩ := hparse _ _ _ _ _ hpar
    have hs3 : Safe (BufferReset st2) := by
      refine ⟨?_, ?_, ?_⟩
      · simp [Bounded, BufferReset]
      · simp [BufferReset]
      · intro m k hm
        have : Call.request_data m k ∈ st2.calls := hm
        rw [f4] at this
        exact hgc _ _ this
    subst hp
    exact Pass.sat_ite (fun _ => hs3) (fun _ => hs3)

/-- One pass of a framer ends, at a `return` or at `goto next_record`, from a
state that keeps the bounds and in which a record in progress declares at least
12 bytes, when the message parser returns on every call that gives it 12 bytes
of memory and a declared length within the memory. -/
theorem recordPass_returns {check : Bool}
    {parse : DNSState → List Byte → Nat → Except Err (Int × DNSState)}
    (mk : List Byte → Nat → Call)
    (hpt : ∀ st mem n, (check = true → 12 ≤ n) → 12 ≤ mem.length → n ≤ mem.length →
      ∃ r st1, parse st mem n = .ok (r, st1))
    {st : DNSState} {input : List Byte} {input_len : Nat}
    (hb : Bounded st) (h12 : st.offset ≠ 0 → 12 ≤ st.record_len)
    (hl : input_len = input.length) (h32 : input_len < 4294967296) :
    ∃ p, recordPass check parse mk st input input_len = .ok p := by
  have hbn : Bounded (st.note (.next_record input_len)) := hb
  have h12n : (st.note (.next_record input_len)).offset ≠ 0 →
      12 ≤ (st.note (.next_record input_len)).record_len := h12
  unfold recordPass
  simp only [sizeof_DNSTcpHeader, sizeof_DNSHeader]
  generalize st.note (.next_record input_len) = s0 at hbn h12n ⊢
  clear hb h12 st
  obtain ⟨b1, b2⟩ := hbn
  have hbn : Bounded s0 := ⟨b1, b2⟩
  by_cases hc1 : s0.offset = 0 ∧ input_len < 14
  · rw [if_pos hc1]; exact ⟨_, rfl⟩
  · rw [if_neg hc1]
    by_cases h0 : s0.offset = 0
    · rw [if_pos h0]
      have hs : 14 ≤ input_len := by
        by_contra hcon; exact hc1 ⟨h0, by omega⟩
      obtain ⟨len, hlen⟩ := rd16_some input (0) (by omega)
      have hle := rd16_le hlen
      rw [hlen]
      dsimp only
      have hsub : sub32 input_len 2 = input_len - 2 := by unfold sub32; omega
      by_cases hc2 : check = true ∧ len < 12
      · rw [if_pos hc2]; exact ⟨_, rfl⟩
      · rw [if_neg hc2]
        by_cases he : len = sub32 input_len 2
        · rw [if_pos he]
          obtain ⟨r, st1, e⟩ := hpt (s0.note (mk (input.drop 2) (sub32 input_len 2)))
            (input.drop 2) (sub32 input_len 2)
            (by intro _; omega) (by simp only [List.length_drop]; omega)
            (by simp only [List.length_drop]; omega)
          rw [e]
          dsimp only
          split <;> exact ⟨_, rfl⟩
        · rw [if_neg he]
          by_cases hg1 : sub32 input_len 2 > len
          · rw [if_pos hg1]
            obtain ⟨r, st1, e⟩ := hpt (s0.note (mk (input.drop 2) len)) (input.drop 2) len
              (by intro hc; by_contra hcon; exact hc2 ⟨hc, by omega⟩)
              (by simp only [List.length_drop]; omega)
              (by simp only [List.length_drop]; omega)
            rw [e]
            dsimp only
            split <;> exact ⟨_, rfl⟩
          · rw [if_neg hg1]
            have hbd : Bounded { s0 with record_len := len } := by
              unfold Bounded; dsimp only; omega
            obtain ⟨st1, e⟩ := BufferData_ok (input.drop 2) (sub32 input_len 2)
              hbd (by simp only [List.length_drop]; unfold u16; omega)
            rw [e]
            exact ⟨_, rfl⟩
    · rw [if_neg h0]
      by_cases hlt : u32 (input_len + s0.offset) < s0.record_len
      · rw [if_pos hlt]
        obtain ⟨st1, e⟩ := BufferData_ok input input_len hbn
          (by unfold u16; omega)
        rw [e]
        exact ⟨_, rfl⟩
      · rw [if_neg hlt]
        have hneed : sub16 s0.record_len s0.offset = s0.record_len - s0.offset := by
          unfold sub16; omega
        have hfin : ∀ (len : Nat), u16 len ≤ input.length →
            bufferLen s0 len = s0.record_len - s0.offset →
            (∃ p, (match BufferData s0 input len with
              | .error e => .error e
              | .ok st1 =>
                match st1.buffer with
                | none => .error .oob
                | some buffer =>
                  match parse (st1.note (mk buffer st1.record_len)) buffer st1.record_len with
                  | .error e => .error e
                  | .ok (r, st2) =>
                    if r < 0 then .ok (.ret (-1) (BufferReset st2))
                    else .ok (.ret 1 (BufferReset st2)) : Except Err Pass) = Except.ok p) ∧
            ∀ (i1 : List Byte) (l1 : Nat),
              ∃ p, (match BufferData s0 input len with
              | .error e => .error e
              | .ok st1 =>
                match st1.buffer with
                | none => .error .oob
                | some buffer =>
                  match parse (st1.note (mk buffer st1.record_len)) buffer st1.record_len with
                  | .error e => .error e
                  | .ok (r, st2) =>
                    if r < 0 then .ok (.ret (-1) (BufferReset st2))
                    else .ok (.again (BufferReset st2) i1 l1) : Except Err Pass)
                  = Except.ok p := by
          intro len hlen hbl
          obtain ⟨st1, e⟩ := BufferData_ok input len hbn hlen
          obtain ⟨s1, s2, s3, -, -, -, -, s8, s9⟩ := BufferData_spec e (by omega) b2
          rw [hbl] at s3 s8
          have hml := memcpyAt_length (s0.buffer.getD []) input s0.offset
            (s0.record_len - s0.offset) s8
          obtain ⟨r, st2, e2⟩ := hpt (st1.note (mk (memcpyAt (s0.buffer.getD []) s0.offset
              input (s0.record_len - s0.offset)) st1.record_len))
            (memcpyAt (s0.buffer.getD []) s0.offset input (s0.record_len - s0.offset))
            st1.record_len (by intro _; rw [s1]; exact h12n h0)
            (by have := h12n h0; omega) (by rw [s1]; omega)
          rw [e]
          dsimp only
          rw [s3]
          dsimp only
          rw [e2]
          dsimp only
          refine ⟨?_, fun i1 l1 => ?_⟩ <;> split <;> exact ⟨_, rfl⟩
        by_cases hg1 : input_len > sub16to32 s0.record_len s0.offset
        · rw [if_pos hg1]
          have hbl : bufferLen s0 (sub16 s0.record_len s0.offset)
              = s0.record_len - s0.offset := by
            unfold bufferLen u16; rw [hneed]
            rw [if_neg (by omega)]; omega
          exact (hfin _ (by unfold u16 sub16to32 at *; omega) hbl).2 _ _
        · rw [if_neg hg1]
          have hil : input_len = s0.record_len - s0.offset := by
            unfold u32 sub16to32 at *; omega
          have hbl : bufferLen s0 input_len = s0.record_len - s0.offset := by
            unfold bufferLen u16
            rw [if_neg (by omega)]; omega
          exact (hfin _ (by unfold u16; omega) hbl).1

theorem recordPass_total {check : Bool}
    {parse : DNSState → List Byte → Nat → Except Err (Int × DNSState)}
    (mk : List Byte → Nat → Call)
    (hpt : ∀ st mem n, (check = true → 12 ≤ n) → 12 ≤ mem.length → n ≤ mem.length →
      ∃ r st1, parse st mem n = .ok (r, st1))
    {st : DNSState} {input : List Byte} {input_len : Nat}
    (hI : Safe st ∧ input_len = input.length ∧ input_len < 4294967296) :
    ∃ p, recordPass check parse mk st input input_len = .ok p :=
  recordPass_returns mk hpt hI.1.1 hI.1.2.1 hI.2.1 hI.2.2

/-- The loop of the request framer returns: with a test of the declared length
against the header size every re-entry lowers `passMeasure`. -/
theorem nextRecordLoop_total
    {parse : DNSState → List Byte → Nat → Except Err (Int × DNSState)}
    {mk : List Byte → Nat → Call} (hparse : ParseFrame parse)
    (hmk : ∀ mem n m k, mk mem n = Call.request_data m k → m = mem ∧ k = n ∧ true = true)
    (hpt : ∀ st mem n, (true = true → 12 ≤ n) → 12 ≤ mem.length → n ≤ mem.length →
      ∃ r st1, parse st mem n = .ok (r, st1)) :
    ∀ (fuel : Nat) (st : DNSState) (input : List Byte) (input_len : Nat),
      Safe st ∧ input_len = input.length ∧ input_len < 4294967296 →
      passMeasure st input_len < fuel →
      ∃ r st1, nextRecordLoop (recordPass true parse mk) fuel st input input_len
        = .ok (r, st1) := by
  intro fuel
  induction fuel with
  | zero => intro st input l _ h; omega
  | succ fuel ih =>
    intro st input l hI hm
    obtain ⟨p, hp⟩ := recordPass_total mk hpt hI
    have hs := recordPass_safe hparse hmk hI hp
    unfold nextRecordLoop
    rw [hp]
    cases p with
    | ret r st1 => exact ⟨_, _, rfl⟩
    | again st1 input1 l1 =>
      dsimp only
      obtain ⟨hI1, hdec⟩ := hs
      exact ih st1 input1 l1 hI1 (by have := hdec rfl; omega)

theorem DNSTCPRequestParse_safe {env : Env} {f : Option Flow} {st st1 : DNSState}
    {input : List Byte} {r : Int} (hs : Safe st) (hlen : input.length < 4294967296)
    (h : DNSTCPRequestParse env f st input = .ok (r, st1)) : Safe st1 := by
  rcases DNSTCPRequestParse_cases h with ⟨-, e, -⟩ | ⟨-, -, hl⟩
  · rw [e]; exact hs
  · unfold requestNextRecord at hl
    rw [requestPass_eq] at hl
    exact nextRecordLoop_sat
      (fun s i l => (Safe s ∧ l = i.length ∧ l < 4294967296)) (fun _ s => Safe s)
      (fun s i l p hI hp => by
        have := recordPass_safe (DNSRequestParseData_parseFrame env)
          (by intro mem n m k e; cases e; exact ⟨rfl, rfl, rfl⟩) hI hp
        cases p with
        | ret r s1 => exact this
        | again s1 i1 l1 => exact this.1)
      _ _ _ _ _ _ ⟨hs, rfl, hlen⟩ hl

theorem DNSTCPResponseParse_safe {env : Env} {fuel : Nat} {f : Option Flow}
    {st st1 : DNSState} {input : List Byte} {r : Int} (hs : Safe st)
    (hlen : input.length < 4294967296)
    (h : DNSTCPResponseParse env fuel f st input = .ok (r, st1)) : Safe st1 := by
  rcases DNSTCPResponseParse_cases h with ⟨-, e, -⟩ | ⟨-, -, hl⟩
  · rw [e]; exact hs
  · unfold responseNextRecord at hl
    rw [responsePass_eq] at hl
    exact nextRecordLoop_sat
      (fun s i l => (Safe s ∧ l = i.length ∧ l < 4294967296)) (fun _ s => Safe s)
      (fun s i l p hI hp => by
        have := recordPass_safe (DNSReponseParseData_parseFrame env)
          (by intro mem n m k e; cases e) hI hp
        cases p with
        | ret r s1 => exact this
        | again s1 i1 l1 => exact this.1)
      _ _ _ _ _ _ ⟨hs, rfl, hlen⟩ hl

theorem Reachable.safe {env : Env} {st : DNSState} (h : Reachable env st) : Safe st := by
  induction h with
  | init =>
    refine ⟨⟨Nat.le_refl _, by decide⟩, fun h => absurd rfl h, fun mem n hm => ?_⟩
    simp [DNSState.init] at hm
  | request f st input r st1 _ hlen hcall ih => exact DNSTCPRequestParse_safe ih hlen hcall
  | response fuel f st input r st1 _ hlen hcall ih =>
    exact DNSTCPResponseParse_safe ih hlen hcall

/-- From a safe state the request framer returns on every chunk. -/
theorem DNSTCPRequestParse_total (env : Env) (f : Option Flow) (st : DNSState)
    (input : List Byte) (hs : Safe st) (hlen : input.length < 4294967296) :
    ∃ r st1, DNSTCPRequestParse env f st input = .ok (r, st1) := by
  have hloop : ∃ r st1, requestNextRecord env (input.length + 2) st input input.length
      = .ok (r, st1) := by
    unfold requestNextRecord
    rw [requestPass_eq]
    refine nextRecordLoop_total (DNSRequestParseData_parseFrame env)
      (by intro mem n m k e; cases e; exact ⟨rfl, rfl, rfl⟩)
      (fun s mem n h1 _ h3 => DNSRequestParseData_ok env s mem n (h1 rfl) h3)
      _ _ _ _ ⟨hs, rfl, hlen⟩ ?_
    unfold passMeasure
    split <;> omega
  unfold DNSTCPRequestParse
  split
  · split
    · exact ⟨_, _, rfl⟩
    · split
      · exact ⟨_, _, rfl⟩
      · exact hloop
  · split
    · exact ⟨_, _, rfl⟩
    · exact hloop

/-! ## The response parser -/

theorem responseRecords_cursor (env : Env) (hdr : DNSHeader) (list : DNSList)
    (input : List Byte) (input_len : Nat) :
    ∀ (n data : Nat) (st : DNSState),
      (responseRecords env hdr list input input_len n data st).1
        = recordsCursor env input input_len n data := by
  intro n
  induction n with
  | zero => intro data st; rfl
  | succ n ih =>
    intro data st
    have hp := (DNSReponseParse_frame env st hdr list input input_len data).2.2.2.2
    unfold responseRecords recordsCursor
    split
    · rename_i st1 heq
      rw [heq] at hp
      dsimp only at hp
      rw [← hp]
    · rename_i data1 st1 heq
      rw [heq] at hp
      dsimp only at hp
      rw [← hp]
      exact ih _ _

/-- The return value of the response parser, read off the message alone. -/
theorem DNSReponseParseData_ret (env : Env) (st : DNSState) (input : List Byte)
    (input_len : Nat) (hdr : DNSHeader) (hh : readHeader input = some hdr) (r : Int)
    (st1 : DNSState) (h : DNSReponseParseData env st input input_len = .ok (r, st1)) :
    (r = 1 ↔ env.DNSValidateResponseHeader hdr = true ∧
      ∃ data data1 data2,
        responseQuestions env input input_len hdr.questions sizeof_DNSHeader = .done data ∧
        recordsCursor env input input_len hdr.answer_rr data = some data1 ∧
        recordsCursor env input input_len hdr.authority_rr data1 = some data2) ∧
    (r = 1 ∨ r = -1) := by
  unfold DNSReponseParseData at h
  rw [hh] at h
  dsimp only at h
  split at h
  · rename_i hv
    simp only [Except.ok.injEq, Prod.mk.injEq] at h
    refine ⟨⟨fun e => ?_, fun e => ?_⟩, Or.inr h.1.symm⟩
    · omega
    · rw [hv] at e; exact absurd e.1 (by decide)
  · rename_i hv
    have hv1 : env.DNSValidateResponseHeader hdr = true := by
      cases hvv : env.DNSValidateResponseHeader hdr
      · exact absurd hvv hv
      · rfl
    split at h
    · rename_i hq
      simp only [Except.ok.injEq, Prod.mk.injEq] at h
      refine ⟨⟨fun e => by omega, fun ⟨_, data, _, _, e, _⟩ => ?_⟩, Or.inr h.1.symm⟩
      rw [hq] at e; cases e
    · rename_i hq
      simp only [Except.ok.injEq, Prod.mk.injEq] at h
      refine ⟨⟨fun e => by omega, fun ⟨_, data, _, _, e, _⟩ => ?_⟩, Or.inr h.1.symm⟩
      rw [hq] at e; cases e
    · simp at h
    · simp at h
    · rename_i data hq
      split at h
      · rename_i sta heq
        have hc := responseRecords_cursor env hdr .DNS_LIST_ANSWER input input_len
          hdr.answer_rr data
          (if txFound st.tx_list hdr.tx_id = true then st
            else { st with events := st.events ++ [DecoderEvent.UNSOLLICITED_RESPONSE] })
        rw [heq] at hc
        simp only [Except.ok.injEq, Prod.mk.injEq] at h
        refine ⟨⟨fun e => by omega, fun ⟨_, d, d1, _, e, e1, _⟩ => ?_⟩, Or.inr h.1.symm⟩
        rw [hq] at e
        simp only [Walk.done.injEq] at e
        subst e
        rw [← hc] at e1
        cases e1
      · rename_i data1 sta heq
        have hc := responseRecords_cursor env hdr .DNS_LIST_ANSWER input input_len
          hdr.answer_rr data
          (if txFound st.tx_list hdr.tx_id = true then st
            else { st with events := st.events ++ [DecoderEvent.UNSOLLICITED_RESPONSE] })
        rw [heq] at hc
        have hc2 := responseRecords_cursor env hdr .DNS_LIST_AUTHORITY input input_len
          hdr.authority_rr data1 sta
        split at h
        · rename_i stb heq2
          rw [heq2] at hc2
          simp only [Except.ok.injEq, Prod.mk.injEq] at h
          refine ⟨⟨fun e => by omega, fun ⟨_, d, d1, _, e, e1, e2⟩ => ?_⟩, Or.inr h.1.symm⟩
          rw [hq] at e
          simp only [Walk.done.injEq] at e
          subst e
          rw [← hc] at e1
          simp only [Option.some.injEq] at e1
          subst e1
          rw [← hc2] at e2
          cases e2
        · rename_i data2 stb heq2
          rw [heq2] at hc2
          simp only [Except.ok.injEq, Prod.mk.injEq] at h
          exact ⟨⟨fun _ => ⟨hv1, data, data1, data2, hq, hc.symm, hc2.symm⟩, fun _ => h.1.symm⟩,
            Or.inl h.1.symm⟩

theorem byteOf_val (n : Nat) : (byteOf n).val = n % 256 := rfl

theorem getElem?_of_drop {input : List Byte} {data : Nat} {b : Byte} {t : List Byte}
    (h : input.drop data = b :: t) : input[data]? = some b ∧ input.drop (data + 1) = t := by
  constructor
  · have := List.getElem?_drop input data 0
    rw [h] at this
    simpa using this.symm
  · have := List.drop_drop 1 data input
    rw [h] at this
    simpa using this.symm

theorem drop_append_of_drop {input : List Byte} {data : Nat} {a t : List Byte}
    (h : input.drop data = a ++ t) :
    (input.drop data).take a.length = a ∧ input.drop (data + a.length) = t := by
  constructor
  · rw [h]; simp
  · have := List.drop_drop a.length data input
    rw [h] at this
    simpa using this.symm

theorem length_of_drop {input : List Byte} {data : Nat} {t : List Byte}
    (h : input.drop data = t) (ht : t ≠ []) : data + t.length = input.length := by
  have h1 : (input.drop data).length = t.length := by rw [h]
  rw [List.length_drop] at h1
  have h2 : 0 < t.length := List.length_pos.mpr ht
  omega

theorem withDots_length_cons (l : List Byte) (ls : List (List Byte)) :
    (withDots (l :: ls)).length = l.length + 1 + (withDots ls).length := by
  simp [withDots]; omega

theorem withDots_eq (ls : List (List Byte)) (h : ls ≠ []) :
    withDots ls = dottedName ls ++ [dot] := by
  induction ls with
  | nil => exact absurd rfl h
  | cons l t ih =>
    cases t with
    | nil => simp [withDots, dottedName]
    | cons l2 t2 =>
      have := ih (by simp)
      simp only [withDots, dottedName] at this ⊢
      rw [this]
      simp

/-- The name handed to the store: the buffer without its last octet. -/
theorem stored_name (ls : List (List Byte)) :
    (withDots ls).take
        (if (withDots ls).length ≠ 0 then (withDots ls).length - 1 else (withDots ls).length)
      = dottedName ls := by
  cases ls with
  | nil => simp [withDots, dottedName]
  | cons l t =>
    rw [withDots_eq (l :: t) (by simp)]
    simp

theorem encodeLabels_length_ge (ls : List (List Byte)) :
    ls.length ≤ (encodeLabels ls).length := by
  induction ls with
  | nil => simp [encodeLabels]
  | cons l t ih => simp only [encodeLabels, List.length_cons, List.length_append]; omega

theorem requestLabels_wellFormed (M : Nat) (input : List Byte) (input_len : Nat)
    (hlen : input_len ≤ input.length) :
    ∀ (ls : List (List Byte)) (fuel data : Nat) (acc post : List Byte),
      input.drop data = encodeLabels ls ++ 0 :: post →
      (∀ l ∈ ls, 1 ≤ l.length ∧ l.length ≤ 63) →
      (ls ≠ [] → acc.length + (withDots ls).length < M) →
      data + (encodeLabels ls).length + 1 ≤ input_len → ls.length < fuel →
      requestLabels M input input_len fuel data acc
        = .done (data + (encodeLabels ls).length, acc ++ withDots ls) := by
  intro ls
  induction ls with
  | nil =>
    intro fuel data acc post hd _ _ _ hf
    obtain ⟨fuel, rfl⟩ : ∃ k, fuel = k + 1 := ⟨fuel - 1, by simp at hf; omega⟩
    simp only [encodeLabels, List.nil_append] at hd
    obtain ⟨h1, -⟩ := getElem?_of_drop hd
    unfold requestLabels
    rw [h1]
    simp [encodeLabels, withDots]
  | cons l t ih =>
    intro fuel data acc post hd hwf hfit hin hf
    obtain ⟨fuel, rfl⟩ : ∃ k, fuel = k + 1 := ⟨fuel - 1, by simp at hf; omega⟩
    have hl := hwf l (by simp)
    simp only [encodeLabels, List.cons_append, List.append_assoc] at hd
    obtain ⟨h1, h2⟩ := getElem?_of_drop hd
    obtain ⟨h3, h4⟩ := drop_append_of_drop h2
    have hv : (byteOf l.length).val = l.length := by rw [byteOf_val]; omega
    have hfit0 := hfit (by simp)
    rw [withDots_length_cons] at hfit0
    simp only [encodeLabels, List.length_cons, List.length_append] at hin
    unfold requestLabels
    rw [h1]
    dsimp only
    rw [hv]
    rw [if_neg (by omega), if_neg (by omega), if_pos (by omega), if_neg (by omega),
      if_pos (by omega), if_neg (by omega), h3, if_neg (by omega)]
    have := ih fuel (data + 1 + l.length) (acc ++ l ++ [dot]) post h4
      (fun x hx => hwf x (by simp [hx]))
      (fun _ => by simp only [List.length_append, List.length_singleton]; omega)
      (by omega) (by simp at hf; omega)
    rw [this]
    simp only [encodeLabels, withDots, List.length_cons, List.length_append, List.append_assoc,
      List.singleton_append, Walk.done.injEq, Prod.mk.injEq, and_true]
    omega

theorem rd16_of_drop {input : List Byte} {data : Nat} {a b : Byte} {t : List Byte}
    (h : input.drop data = a :: b :: t) : rd16 input data = some (ntohs a b) := by
  obtain ⟨h1, h2⟩ := getElem?_of_drop h
  obtain ⟨h3, -⟩ := getElem?_of_drop h2
  unfold rd16
  rw [h1, h3]

theorem ntohs_byteOf (n : Nat) (h : n < 65536) : ntohs (byteOf (n / 256)) (byteOf n) = n := by
  unfold ntohs
  rw [byteOf_val, byteOf_val]
  omega

theorem encodeQuestion_length (q : Question) :
    (encodeQuestion q).length = (encodeLabels q.labels).length + 5 := by
  simp [encodeQuestion]

theorem requestQuestions_wellFormed (env : Env) (input : List Byte) (input_len tx_id : Nat)
    (hlen : input_len ≤ input.length) :
    ∀ (qs : List Question) (data : Nat) (st : DNSState) (post : List Byte),
      input.drop data = encodeQuestions qs ++ post →
      (∀ q ∈ qs, q.WellFormed env.DNS_MAX_SIZE) →
      data + (encodeQuestions qs).length ≤ input_len →
      requestQuestions env input input_len tx_id qs.length data st
        = (.done (data + (encodeQuestions qs).length), storeQuestions tx_id st qs) := by
  intro qs
  induction qs with
  | nil => intro data st post _ _ _; simp [requestQuestions, encodeQuestions, storeQuestions]
  | cons q t ih =>
    intro data st post hd hwf hin
    obtain ⟨w1, w2, w3, w4⟩ := hwf q (by simp)
    simp only [encodeQuestions, List.length_append, encodeQuestion_length] at hin
    simp only [encodeQuestions, encodeQuestion, List.append_assoc, List.cons_append,
      List.nil_append] at hd
    have hlab := requestLabels_wellFormed env.DNS_MAX_SIZE input input_len hlen q.labels
      input_len data [] _ hd w1
      (fun hne => by
        have := w2 hne
        rw [withDots_eq _ hne]
        simp only [List.length_nil, List.length_append, List.length_singleton]
        omega)
      (by omega) (by have := encodeLabels_length_ge q.labels; omega)
    obtain ⟨-, h4⟩ := drop_append_of_drop hd
    obtain ⟨-, h5⟩ := getElem?_of_drop h4
    have ht := rd16_of_drop h5
    obtain ⟨-, h6⟩ := getElem?_of_drop h5
    obtain ⟨-, h7⟩ := getElem?_of_drop h6
    have hc := rd16_of_drop h7
    obtain ⟨-, h8⟩ := getElem?_of_drop h7
    obtain ⟨-, h9⟩ := getElem?_of_drop h8
    rw [ntohs_byteOf _ w3] at ht
    rw [ntohs_byteOf _ w4] at hc
    simp only [List.length_cons]
    unfold requestQuestions
    rw [if_neg (by omega), hlab]
    dsimp only
    rw [if_neg (by unfold sizeof_DNSQueryTrailer; omega)]
    rw [show data + (encodeLabels q.labels).length + 1 + 2
      = data + (encodeLabels q.labels).length + 1 + 1 + 1 from rfl, ht, hc]
    dsimp only
    rw [List.nil_append, stored_name]
    have := ih (data + (encodeLabels q.labels).length + 1 + sizeof_DNSQueryTrailer)
      (DNSStoreQueryInState st (dottedName q.labels) q.qtype q.qclass tx_id) post
      (by unfold sizeof_DNSQueryTrailer; exact h9)
      (fun x hx => hwf x (by simp [hx]))
      (by unfold sizeof_DNSQueryTrailer; omega)
    rw [this]
    simp only [storeQuestions, List.foldl_cons, encodeQuestions, List.length_append,
      encodeQuestion_length, sizeof_DNSQueryTrailer, Prod.mk.injEq, Walk.done.injEq, and_true]
    omega

/-! ## Forward evaluation of the request framer -/

theorem DNSTCPRequestParse_eq (env : Env) (f : Option Flow) (st : DNSState)
    (input : List Byte) (hf : ∀ fl, f = some fl → fl.proto = IPPROTO_TCP) (hne : input ≠ []) :
    DNSTCPRequestParse env f st input
      = requestNextRecord env (input.length + 2) st input input.length := by
  have hl : input.length ≠ 0 := fun h => hne (List.length_eq_zero.mp h)
  unfold DNSTCPRequestParse
  cases f with
  | none => simp only [if_neg hl]
  | some fl => simp only [if_neg hl, hf fl rfl, ne_eq, not_true_eq_false, if_false]

theorem storeQuestions_frame (tx_id : Nat) (qs : List Question) :
    ∀ st : DNSState, SameFrame st (storeQuestions tx_id st qs) ∧
      (storeQuestions tx_id st qs).events = st.events ∧
      (storeQuestions tx_id st qs).tx_list = st.tx_list ++ qs.map (txOfQuestion tx_id) := by
  induction qs with
  | nil => intro st; simp [storeQuestions, SameFrame]
  | cons q t ih =>
    intro st
    obtain ⟨h1, h2, h3⟩ := ih (DNSStoreQueryInState st (dottedName q.labels) q.qtype q.qclass
      tx_id)
    simp only [storeQuestions, List.foldl_cons] at h1 h2 h3 ⊢
    refine ⟨SameFrame.trans (DNSStoreQueryInState_frame _ _ _ _ _).1 h1, ?_, ?_⟩
    · rw [h2]; rfl
    · rw [h3]; simp [DNSStoreQueryInState, txOfQuestion]

/-- The request parser on a message made of a valid header and well-formed
questions: it returns 1 after one store call for each question. -/
theorem DNSRequestParseData_wellFormed (env : Env) (st : DNSState)
    (hdrBytes : List Byte) (hdr : DNSHeader) (qs : List Question) (rest : List Byte)
    (hhl : hdrBytes.length = 12) (hh : readHeader hdrBytes = some hdr)
    (hval : env.DNSValidateRequestHeader hdr = true) (hq : hdr.questions = qs.length)
    (hwf : ∀ q ∈ qs, q.WellFormed env.DNS_MAX_SIZE) :
    DNSRequestParseData env st (hdrBytes ++ encodeQuestions qs ++ rest)
        (hdrBytes ++ encodeQuestions qs ++ rest).length
      = .ok (1, storeQuestions hdr.tx_id st qs) := by
  have htake : (hdrBytes ++ encodeQuestions qs ++ rest).take 12 = hdrBytes := by
    rw [List.append_assoc, ← hhl, List.take_left]
  have hhead : readHeader (hdrBytes ++ encodeQuestions qs ++ rest) = some hdr := by
    rw [← readHeader_take (n := 12) (Nat.le_refl _), htake, hh]
  have hdrop : (hdrBytes ++ encodeQuestions qs ++ rest).drop 12 = encodeQuestions qs ++ rest := by
    rw [List.append_assoc, ← hhl, List.drop_left]
  have hqs := requestQuestions_wellFormed env (hdrBytes ++ encodeQuestions qs ++ rest)
    (hdrBytes ++ encodeQuestions qs ++ rest).length hdr.tx_id (Nat.le_refl _) qs 12 st rest
    hdrop hwf (by simp only [List.length_append]; omega)
  unfold DNSRequestParseData
  rw [hhead]
  dsimp only
  rw [if_neg (by rw [hval]; decide), hq]
  unfold sizeof_DNSHeader
  rw [hqs]

theorem requestPass_whole (env : Env) (st : DNSState) (input : List Byte) (len : Nat)
    (h0 : st.offset = 0) (hs : 14 ≤ input.length) (h32 : input.length < 4294967296)
    (hl : rd16 input 0 = some len) (h12 : 12 ≤ len) (he : len = input.length - 2) :
    requestPass env st input input.length =
      match DNSRequestParseData env
          ((st.note (.next_record input.length)).note (.request_data (input.drop 2) len))
          (input.drop 2) len with
      | .error e => .error e
      | .ok (r, st1) => if r < 0 then .ok (.ret (-1) st1) else .ok (.ret 1 st1) := by
  have hsub : sub32 input.length 2 = len := by unfold sub32; omega
  unfold requestPass
  simp only [DNSState.note, h0, sizeof_DNSTcpHeader, sizeof_DNSHeader, hl, hsub]
  rw [if_neg (by omega), if_pos (by trivial), if_neg (by omega), if_pos (by trivial)]

theorem nextRecordLoop_succ (pass : DNSState → List Byte → Nat → Except Err Pass)
    (fuel : Nat) (st : DNSState) (input : List Byte) (l : Nat) :
    nextRecordLoop pass (fuel + 1) st input l =
      match pass st input l with
      | .error e => .error e
      | .ok (.ret r st1) => .ok (r, st1)
      | .ok (.again st1 input1 l1) => nextRecordLoop pass fuel st1 input1 l1 := rfl

/-! ## The request parser on a label length above 63 -/

theorem requestLabels_malformed (M : Nat) (input : List Byte) (input_len : Nat) (b : Byte)
    (hb : 63 < b.val) :
    ∀ (ls : List (List Byte)) (fuel data : Nat) (acc post : List Byte),
      input.drop data = encodeLabels ls ++ b :: post →
      (∀ l ∈ ls, 1 ≤ l.length ∧ l.length ≤ 63) → ls.length < fuel →
      requestLabels M input input_len fuel data acc = .insufficient_data := by
  intro ls
  induction ls with
  | nil =>
    intro fuel data acc post hd _ hf
    obtain ⟨fuel, rfl⟩ : ∃ k, fuel = k + 1 := ⟨fuel - 1, by simp at hf; omega⟩
    simp only [encodeLabels, List.nil_append] at hd
    obtain ⟨h1, -⟩ := getElem?_of_drop hd
    unfold requestLabels
    rw [h1]
    dsimp only
    rw [if_neg (by omega), if_pos hb]
  | cons l t ih =>
    intro fuel data acc post hd hwf hf
    obtain ⟨fuel, rfl⟩ : ∃ k, fuel = k + 1 := ⟨fuel - 1, by simp at hf; omega⟩
    have hl := hwf l (by simp)
    simp only [encodeLabels, List.cons_append, List.append_assoc] at hd
    have hlen := length_of_drop hd (by simp)
    simp only [List.length_cons, List.length_append] at hlen
    obtain ⟨h1, h2⟩ := getElem?_of_drop hd
    obtain ⟨h3, h4⟩ := drop_append_of_drop h2
    have hv : (byteOf l.length).val = l.length := by rw [byteOf_val]; omega
    unfold requestLabels
    rw [h1]
    dsimp only
    rw [hv, if_neg (by omega), if_neg (by omega), if_pos (by omega)]
    split
    · rfl
    · split
      · rw [if_neg (by omega)]
        split
        · rfl
        · exact ih fuel _ _ post h4 (fun x hx => hwf x (by simp [hx])) (by simp at hf; omega)
      · rfl

theorem requestQuestions_step (env : Env) (input : List Byte) (input_len tx_id : Nat)
    (hlen : input_len ≤ input.length) :
    ∀ (qs : List Question) (k data : Nat) (st : DNSState) (post : List Byte),
      input.drop data = encodeQuestions qs ++ post →
      (∀ q ∈ qs, q.WellFormed env.DNS_MAX_SIZE) →
      data + (encodeQuestions qs).length ≤ input_len →
      requestQuestions env input input_len tx_id (qs.length + k) data st
        = requestQuestions env input input_len tx_id k (data + (encodeQuestions qs).length)
            (storeQuestions tx_id st qs) := by
  intro qs
  induction qs with
  | nil => intro k data st post _ _ _; simp [encodeQuestions, storeQuestions]
  | cons q t ih =>
    intro k data st post hd hwf hin
    obtain ⟨w1, w2, w3, w4⟩ := hwf q (by simp)
    simp only [encodeQuestions, List.length_append, encodeQuestion_length] at hin
    simp only [encodeQuestions, encodeQuestion, List.append_assoc, List.cons_append,
      List.nil_append] at hd
    have hlab := requestLabels_wellFormed env.DNS_MAX_SIZE input input_len hlen q.labels
      input_len data [] _ hd w1
      (fun hne => by
        have := w2 hne
        rw [withDots_eq _ hne]
        simp only [List.length_nil, List.length_append, List.length_singleton]
        omega)
      (by omega) (by have := encodeLabels_length_ge q.labels; omega)
    obtain ⟨-, h4⟩ := drop_append_of_drop hd
    obtain ⟨-, h5⟩ := getElem?_of_drop h4
    have ht := rd16_of_drop h5
    obtain ⟨-, h6⟩ := getElem?_of_drop h5
    obtain ⟨-, h7⟩ := getElem?_of_drop h6
    have hc := rd16_of_drop h7
    obtain ⟨-, h8⟩ := getElem?_of_drop h7
    obtain ⟨-, h9⟩ := getElem?_of_drop h8
    rw [ntohs_byteOf _ w3] at ht
    rw [ntohs_byteOf _ w4] at hc
    rw [show (q :: t).length + k = (t.length + k) + 1 by simp only [List.length_cons]; omega]
    rw [requestQuestions]
    rw [if_neg (by omega), hlab]
    dsimp only
    rw [if_neg (by unfold sizeof_DNSQueryTrailer; omega)]
    rw [show data + (encodeLabels q.labels).length + 1 + 2
      = data + (encodeLabels q.labels).length + 1 + 1 + 1 from rfl, ht, hc]
    dsimp only
    rw [List.nil_append, stored_name]
    have := ih k (data + (encodeLabels q.labels).length + 1 + sizeof_DNSQueryTrailer)
      (DNSStoreQueryInState st (dottedName q.labels) q.qtype q.qclass tx_id) post
      (by unfold sizeof_DNSQueryTrailer; exact h9)
      (fun x hx => hwf x (by simp [hx]))
      (by unfold sizeof_DNSQueryTrailer; omega)
    rw [this]
    simp only [storeQuestions, List.foldl_cons, encodeQuestions, List.length_append,
      encodeQuestion_length, sizeof_DNSQueryTrailer]
    congr 1
    omega

/-- The request parser on a message whose questions are well-formed up to one
that holds a label length above 63: it returns -1 after the store calls for the
questions before that one; with a header that fails validation it stores
nothing. -/
theorem DNSRequestParseData_malformed (env : Env) (st : DNSState)
    (hdrBytes : List Byte) (hdr : DNSHeader) (good : List Question)
    (lead : List (List Byte)) (b : Byte) (rest : List Byte)
    (hhl : hdrBytes.length = 12) (hh : readHeader hdrBytes = some hdr)
    (hq : good.length < hdr.questions)
    (hwf : ∀ q ∈ good, q.WellFormed env.DNS_MAX_SIZE)
    (hlead : ∀ l ∈ lead, 1 ≤ l.length ∧ l.length ≤ 63) (hb : 63 < b.val) :
    DNSRequestParseData env st
        (hdrBytes ++ encodeQuestions good ++ encodeLabels lead ++ b :: rest)
        (hdrBytes ++ encodeQuestions good ++ encodeLabels lead ++ b :: rest).length
      = .ok (-1, if env.DNSValidateRequestHeader hdr = true
          then storeQuestions hdr.tx_id st good else st) := by
  generalize hmsg : hdrBytes ++ encodeQuestions good ++ encodeLabels lead ++ b :: rest = msg
  have hassoc : msg = hdrBytes ++ (encodeQuestions good ++ (encodeLabels lead ++ b :: rest)) := by
    rw [← hmsg]; simp only [List.append_assoc]
  have htake : msg.take 12 = hdrBytes := by
    rw [hassoc, ← hhl, List.take_left]
  have hhead : readHeader msg = some hdr := by
    rw [← readHeader_take (n := 12) (Nat.le_refl _), htake, hh]
  have hdrop : msg.drop 12 = encodeQuestions good ++ (encodeLabels lead ++ b :: rest) := by
    rw [hassoc, ← hhl, List.drop_left]
  have hlen : msg.length = 12 + (encodeQuestions good).length + (encodeLabels lead).length
      + 1 + rest.length := by
    rw [hassoc]; simp only [List.length_append, List.length_cons]; omega
  obtain ⟨k, hk⟩ : ∃ k, hdr.questions = good.length + (k + 1) :=
    ⟨hdr.questions - good.length - 1, by omega⟩
  have hqs := requestQuestions_step env msg msg.length hdr.tx_id (Nat.le_refl _) good (k + 1)
    12 st _ hdrop hwf (by omega)
  obtain ⟨-, hdrop2⟩ := drop_append_of_drop hdrop
  have hbad := requestLabels_malformed env.DNS_MAX_SIZE msg msg.length b hb lead msg.length
    (12 + (encodeQuestions good).length) [] rest hdrop2 hlead
    (by have := encodeLabels_length_ge lead; omega)
  unfold DNSRequestParseData
  rw [hhead]
  dsimp only
  cases hv : env.DNSValidateRequestHeader hdr with
  | false => simp
  | true =>
    simp only [Bool.true_eq_false, if_false, if_true]
    rw [hk]
    unfold sizeof_DNSHeader
    rw [hqs, requestQuestions, if_neg (by omega), hbad]

/-- The request framer on a chunk that holds one record and nothing else, from
a state with nothing buffered: the result is that of the parser on the
message. -/
theorem DNSTCPRequestParse_whole (env : Env) (f : Option Flow) (st : DNSState) (hi lo : Byte)
    (msg : List Byte) (r : Int) (st1 : DNSState)
    (hf : ∀ fl, f = some fl → fl.proto = IPPROTO_TCP) (h0 : st.offset = 0)
    (hL : ntohs hi lo = msg.length) (h12 : 12 ≤ msg.length) (hr : r = 1 ∨ r = -1)
    (hparse : DNSRequestParseData env
      ((st.note (.next_record (msg.length + 2))).note (.request_data msg msg.length))
      msg msg.length = .ok (r, st1)) :
    DNSTCPRequestParse env f st (hi :: lo :: msg) = .ok (r, st1) := by
  have hle : ntohs hi lo ≤ 65535 := by
    have h1 := hi.isLt
    have h2 := lo.isLt
    unfold ntohs; omega
  have hpass := requestPass_whole env st (hi :: lo :: msg) msg.length h0
    (by simp only [List.length_cons]; omega) (by simp only [List.length_cons]; omega)
    (by simp [rd16, hL]) h12 (by simp only [List.length_cons]; omega)
  simp only [List.length_cons, List.drop_succ_cons, List.drop_zero] at hpass
  rw [hparse] at hpass
  rw [DNSTCPRequestParse_eq env f st _ hf (by simp)]
  unfold requestNextRecord
  simp only [List.length_cons]
  rw [nextRecordLoop_succ, hpass]
  rcases hr with rfl | rfl <;> simp

/-! ## A chunk that does not complete the record in progress -/

theorem memcpyAt_take (buffer data : List Byte) (offset len : Nat)
    (h : offset ≤ buffer.length) :
    (memcpyAt buffer offset data len).take offset = buffer.take offset := by
  unfold memcpyAt
  rw [Nat.sub_eq_zero_of_le h]
  simp only [List.replicate_zero, List.append_nil, List.append_assoc]
  rw [List.take_append_of_le_length (by rw [List.length_take]; omega)]
  rw [List.take_take, Nat.min_self]

theorem memcpyAt_drop (buffer data : List Byte) (offset len : Nat)
    (h : offset ≤ buffer.length) (hl : len ≤ data.length) :
    ((memcpyAt buffer offset data len).drop offset).take len = data.take len := by
  unfold memcpyAt
  rw [Nat.sub_eq_zero_of_le h]
  simp only [List.replicate_zero, List.append_nil, List.append_assoc]
  have e : (buffer.take offset).length = offset := by rw [List.length_take]; omega
  rw [List.drop_append_of_le_length (by omega)]
  rw [List.drop_of_length_le (by omega), List.nil_append]
  rw [List.take_append_of_le_length (by rw [List.length_take]; omega)]
  rw [List.take_take, Nat.min_self]

/-- One pass on a chunk that is shorter than what the record in progress still
misses: the chunk is copied behind the buffered bytes and the pass returns 1.
The message parser plays no role. -/
theorem recordPass_mid_less (check : Bool)
    (parse : DNSState → List Byte → Nat → Except Err (Int × DNSState))
    (mk : List Byte → Nat → Call) (st : DNSState) (input : List Byte)
    (h0 : 0 < st.offset) (hlt : input.length + st.offset < st.record_len)
    (hrl : st.record_len ≤ 65535) :
    ∃ st1, recordPass check parse mk st input input.length = .ok (.ret 1 st1) ∧
      st1.record_len = st.record_len ∧ st1.offset = st.offset + input.length ∧
      st1.buffer = some (memcpyAt (st.buffer.getD []) st.offset input input.length) ∧
      st1.tx_list = st.tx_list ∧ st1.events = st.events ∧
      st1.transaction_cnt = st.transaction_cnt ∧
      st1.transaction_done = st.transaction_done := by
  have hb : Bounded (st.note (.next_record input.length)) := by
    unfold Bounded; simp only [DNSState.note]; omega
  obtain ⟨st1, e⟩ := BufferData_ok input input.length hb (by unfold u16; omega)
  obtain ⟨s1, s2, s3, s4, s5, s6, s7, -, -⟩ := BufferData_spec e
    (by simp only [DNSState.note]; omega) (by simp only [DNSState.note]; omega)
  have hbl : bufferLen (st.note (.next_record input.length)) input.length = input.length := by
    unfold bufferLen u16; simp only [DNSState.note]
    rw [if_neg (by omega)]; omega
  rw [hbl] at s2 s3
  refine ⟨st1, ?_, s1, ?_, s3, s4, s7, s5, s6⟩
  · unfold recordPass
    simp only [sizeof_DNSTcpHeader]
    have eo : (st.note (.next_record input.length)).offset = st.offset := rfl
    have er : (st.note (.next_record input.length)).record_len = st.record_len := rfl
    rw [eo, er, if_neg (by omega), if_neg (by omega),
      if_pos (by unfold u32; omega), e]
  · rw [s2]; simp only [DNSState.note]; unfold u16; omega

/-! ## Forward evaluation of the passes that buffer -/

theorem nextRecordLoop_mono (pass : DNSState → List Byte → Nat → Except Err Pass) :
    ∀ (fuel fuel1 : Nat) (st : DNSState) (input : List Byte) (l : Nat)
      (x : Int × DNSState), fuel ≤ fuel1 →
      nextRecordLoop pass fuel st input l = .ok x →
      nextRecordLoop pass fuel1 st input l = .ok x := by
  intro fuel
  induction fuel with
  | zero => intro fuel1 st input l x _ h; simp [nextRecordLoop] at h
  | succ fuel ih =>
    intro fuel1 st input l x hle h
    obtain ⟨k, rfl⟩ : ∃ k, fuel1 = k + 1 := ⟨fuel1 - 1, by omega⟩
    rw [nextRecordLoop_succ] at h ⊢
    split at h
    · simp at h
    · exact h
    · exact ih k _ _ _ _ (by omega) h

/-! ## Feeding a stream of records in chunks -/

theorem requestLabels_response (M : Nat) (input : List Byte) (input_len : Nat) :
    ∀ (fuel data : Nat) (fqdn : List Byte) (x : Nat × List Byte),
      requestLabels M input input_len fuel data fqdn = .done x →
      responseLabels M input input_len fuel data fqdn = .done x := by
  intro fuel
  induction fuel with
  | zero => intro data fqdn x h; simp [requestLabels] at h
  | succ fuel ih =>
    intro data fqdn x h
    unfold requestLabels at h
    unfold responseLabels
    split at h
    · simp at h
    · rename_i b hb
      dsimp only at h ⊢
      split at h
      · rename_i h0
        rw [if_pos h0]; exact h
      · rename_i h0
        rw [if_neg h0]
        split at h
        · simp at h
        · split at h
          · rename_i hpos
            rw [if_pos hpos]
            split at h
            · simp at h
            · rename_i h1
              rw [if_neg h1]
              split at h
              · rename_i hfit
                rw [if_pos hfit]
                split at h
                · simp at h
                · rename_i h2
                  rw [if_neg h2]
                  split at h
                  · simp at h
                  · rename_i h3
                    rw [if_neg h3]
                    exact ih _ _ _ h
              · simp at h
          · rename_i hpos
            rw [if_neg hpos]
            split at h
            · simp at h
            · rename_i h1
              rw [if_neg h1]
              exact ih _ _ _ h

theorem requestQuestions_response (env : Env) (input : List Byte) (input_len tx_id : Nat) :
    ∀ (n data : Nat) (st : DNSState) (d : Nat),
      (requestQuestions env input input_len tx_id n data st).1 = .done d →
      responseQuestions env input input_len n data = .done d := by
  intro n
  induction n with
  | zero =>
    intro data st d h
    simpa [requestQuestions, responseQuestions] using h
  | succ n ih =>
    intro data st d h
    unfold requestQuestions at h
    unfold responseQuestions
    split at h
    · simp at h
    · rename_i h1
      rw [if_neg h1]
      split at h
      · rename_i data1 fqdn hl
        rw [requestLabels_response _ _ _ _ _ _ _ hl]
        dsimp only at h ⊢
        split at h
        · simp at h
        · rename_i h2
          rw [if_neg h2]
          split at h
          · exact ih _ _ _ h
          · simp at h
      · simp at h
      · simp at h
      · simp at h
      · simp at h

theorem responseLabels_step (M : Nat) (input : List Byte) (input_len fuel data : Nat)
    (fqdn : List Byte) (b : Byte) (hb : input[data]? = some b) (h0 : b.val ≠ 0)
    (hin : data + 1 + b.val + 1 ≤ input_len) (hmem : input_len ≤ input.length) :
    responseLabels M input input_len (fuel + 1) data fqdn =
      responseLabels M input input_len fuel (data + 1 + b.val)
        (if fqdn.length + b.val + 1 < M then
          fqdn ++ (input.drop (data + 1)).take b.val ++ [dot] else fqdn) := by
  rw [responseLabels, hb]
  dsimp only
  rw [if_neg h0, if_pos (by omega), if_neg (by omega)]
  split
  · rw [if_neg (by omega), if_neg (by omega)]
  · rw [if_neg (by omega)]

theorem DNSRequestParseData_questions {env : Env} {st st1 : DNSState} {input : List Byte}
    {input_len : Nat} {hdr : DNSHeader} (hh : readHeader input = some hdr)
    (h : DNSRequestParseData env st input input_len = .ok (1, st1)) :
    env.DNSValidateRequestHeader hdr = true ∧
    ∃ d, requestQuestions env input input_len hdr.tx_id hdr.questions sizeof_DNSHeader st
      = (.done d, st1) := by
  unfold DNSRequestParseData at h
  rw [hh] at h
  dsimp only at h
  split at h
  · simp at h
  · rename_i hv
    refine ⟨by simpa using hv, ?_⟩
    split at h
    · rename_i d s e
      simp only [Except.ok.injEq, Prod.mk.injEq, true_and] at h
      exact ⟨d, by rw [e, h]⟩
    · simp at h
    · simp at h
    · simp at h
    · simp at h

/-! ## The probing walk -/

theorem probeLabels_ok (M : Nat) (input : List Byte) (input_len : Nat)
    (hlen : input_len ≤ input.length) :
    ∀ (fuel data off : Nat), data < input_len → input_len ≤ data + fuel →
      probeLabels M input input_len fuel data off ≠ .oob ∧
      probeLabels M input input_len fuel data off ≠ .fuel ∧
      ∀ d o, probeLabels M input input_len fuel data off = .done (d, o) →
        data ≤ d ∧ d < input_len := by
  intro fuel
  induction fuel with
  | zero => intro data off h1 h2; omega
  | succ fuel ih =>
    intro data off hd hf
    unfold probeLabels
    obtain ⟨b, hsome⟩ := getElem?_some_of_lt input data (by omega)
    rw [hsome]
    dsimp only
    by_cases h0 : b.val = 0
    · simp only [h0, if_true]
      refine ⟨by simp, by simp, fun d o e => ?_⟩
      simp only [Walk.done.injEq, Prod.mk.injEq] at e
      omega
    · simp only [h0, if_false]
      by_cases h63 : b.val > 63
      · simp only [h63, if_true]
        simp
      · simp only [h63, if_false]
        have hpos : b.val > 0 := by omega
        simp only [hpos, if_true]
        by_cases hin : input_len < data + 1 + b.val
        · simp only [hin, if_true]; simp
        · simp only [hin, if_false]
          by_cases hfit : off + b.val + 1 < M
          · simp only [hfit, if_true]
            by_cases hnext : input_len < data + 1 + b.val + 1
            · simp only [hnext, if_true]; simp
            · simp only [hnext, if_false]
              obtain ⟨i1, i2, i4⟩ := ih (data + 1 + b.val) (off + b.val) (by omega) (by omega)
              refine ⟨i1, i2, fun d o e => ?_⟩
              have := i4 d o e
              omega
          · simp only [hfit, if_false]; simp

theorem probeQuestions_ok (env : Env) (input : List Byte) (input_len : Nat)
    (hlen : input_len ≤ input.length) :
    ∀ (n data : Nat),
      probeQuestions env input input_len n data ≠ .oob ∧
      probeQuestions env input input_len n data ≠ .fuel := by
  intro n
  induction n with
  | zero => intro data; simp [probeQuestions]
  | succ n ih =>
    intro data
    unfold probeQuestions
    by_cases hd : input_len < data + 1
    · simp only [hd, if_true]; simp
    · simp only [hd, if_false]
      obtain ⟨o1, o2, o4⟩ := probeLabels_ok env.DNS_MAX_SIZE input input_len hlen
        input_len data 0 (by omega) (by omega)
      split
      · rename_i d fq heq
        split
        · simp
        · exact ih _
      · simp
      · simp
      · rename_i heq; exact absurd heq o1
      · rename_i heq; exact absurd heq o2

/-- The probing walk returns 1, 0 or -1 when its length argument is at least
two and lies within the memory. -/
theorem DNSTCPRequestParseProbe_ok (env : Env) (input : List Byte) (input_len : Nat)
    (h2 : 2 ≤ input_len) (hlen : input_len ≤ input.length) (h32 : input_len < 4294967296) :
    ∃ r, DNSTCPRequestParseProbe env input input_len = .ok r ∧
      (r = 1 ∨ r = 0 ∨ r = -1) := by
  unfold DNSTCPRequestParseProbe
  obtain ⟨len, hl⟩ := rd16_some input 0 (by omega)
  rw [hl]
  dsimp only
  split
  · exact ⟨_, rfl, by simp⟩
  · rename_i h12
    split
    · exact ⟨_, rfl, by simp⟩
    · rename_i hge
      unfold sizeof_DNSHeader at h12
      obtain ⟨q, hq⟩ := rd16_some (input.drop 2) 4 (by simp only [List.length_drop]; omega)
      rw [hq]
      dsimp only
      have hs : sub32 input_len 2 = input_len - 2 := by unfold sub32; omega
      have hp := probeQuestions_ok env (input.drop 2) (sub32 input_len 2)
        (by rw [hs]; simp only [List.length_drop]; omega) q sizeof_DNSHeader
      split
      · exact ⟨_, rfl, by simp⟩
      · exact ⟨_, rfl, by simp⟩
      · exact ⟨_, rfl, by simp⟩
      · rename_i heq; exact absurd heq hp.1
      · rename_i heq; exact absurd heq hp.2

/-- The request walk of a name and the probing walk of it: where the first ends
normally, the second does, at the same cursor, also with more bytes declared. -/
theorem requestLabels_probe (M : Nat) (input : List Byte) (n n1 : Nat) (hn : n ≤ n1) :
    ∀ (fuel fuel1 data off : Nat) (fqdn : List Byte) (d : Nat) (fq : List Byte),
      fuel ≤ fuel1 → off ≤ fqdn.length →
      requestLabels M input n fuel data fqdn = .done (d, fq) →
      ∃ o, probeLabels M input n1 fuel1 data off = .done (d, o) := by
  intro fuel
  induction fuel with
  | zero => intro fuel1 data off fqdn d fq _ _ h; simp [requestLabels] at h
  | succ fuel ih =>
    intro fuel1 data off fqdn d fq hf ho h
    obtain ⟨k, rfl⟩ : ∃ k, fuel1 = k + 1 := ⟨fuel1 - 1, by omega⟩
    unfold requestLabels at h
    unfold probeLabels
    split at h
    · simp at h
    · rename_i b hb
      try rw [hb]
      dsimp only at h ⊢
      split at h
      · rename_i h0
        rw [if_pos h0]
        simp only [Walk.done.injEq, Prod.mk.injEq] at h
        exact ⟨off, by rw [h.1]⟩
      · rename_i h0
        rw [if_neg h0]
        split at h
        · simp at h
        · rename_i h63
          rw [if_neg h63]
          split at h
          · rename_i hpos
            rw [if_pos hpos]
            split at h
            · simp at h
            · rename_i h1
              rw [if_neg (by omega)]
              split at h
              · rename_i hfit
                rw [if_pos (by omega)]
                split at h
                · simp at h
                · rename_i hmem
                  split at h
                  · simp at h
                  · rename_i h3
                    rw [if_neg (by omega)]
                    refine ih k _ _ _ _ _ (by omega) ?_ h
                    simp only [List.length_append, List.length_take, List.length_drop,
                      List.length_singleton]
                    omega
              · simp at h
          · rename_i hpos
            omega

theorem requestQuestionsNull_probe (env : Env) (input : List Byte) (n n1 : Nat)
    (hn : n ≤ n1) :
    ∀ (k data d : Nat), requestQuestionsNull env input n k data = .done d →
      probeQuestions env input n1 k data = .done d := by
  intro k
  induction k with
  | zero =>
    intro data d h
    simpa [requestQuestionsNull, probeQuestions] using h
  | succ k ih =>
    intro data d h
    unfold requestQuestionsNull at h
    unfold probeQuestions
    split at h
    · simp at h
    · rename_i h1
      rw [if_neg (by omega)]
      split at h
      · rename_i data1 fqdn hl
        obtain ⟨o, ho⟩ := requestLabels_probe env.DNS_MAX_SIZE input n n1 hn n n1 data 0 []
          data1 fqdn hn (Nat.zero_le _) hl
        rw [ho]
        dsimp only at h ⊢
        unfold sizeof_DNSQueryTrailer at h ⊢
        split at h
        · simp at h
        · rename_i h2
          rw [if_neg (by omega)]
          exact ih _ _ h
      · simp at h
      · simp at h
      · simp at h
      · simp at h

theorem requestQuestionsNull_take (env : Env) (input : List Byte) (input_len : Nat)
    (hlen : input_len ≤ input.length) :
    ∀ (n data : Nat),
      requestQuestionsNull env (input.take input_len) input_len n data
        = requestQuestionsNull env input input_len n data := by
  intro n
  induction n with
  | zero => intro data; rfl
  | succ n ih =>
    intro data
    unfold requestQuestionsNull
    by_cases hd : input_len < data + 1
    · simp only [hd, if_true]
    · simp only [hd, if_false]
      rw [requestLabels_take env.DNS_MAX_SIZE input input_len hlen input_len data []
        (by omega)]
      split
      · split
        · rfl
        · exact ih _
      · rfl
      · rfl
      · rfl
      · rfl

theorem readHeader_questions {mem : List Byte} {hdr : DNSHeader}
    (h : readHeader mem = some hdr) : rd16 mem 4 = some hdr.questions := by
  unfold readHeader at h
  split at h
  · rename_i a b c d e g h1 h2 h3 h4 h5 h6
    simp only [Option.some.injEq] at h
    subst h
    exact h3
  · simp at h

/-- A dry run of the request parser that returns 1 on the first `len` bytes of
a message is followed by the probing walk over any longer part of it. -/
theorem DNSRequestParseDataNull_probe (env : Env) (input : List Byte) (len : Nat)
    (hl : rd16 input 0 = some len) (h12 : 12 ≤ len) (hle : len + 2 ≤ input.length)
    (h32 : input.length < 4294967296)
    (h : DNSRequestParseDataNull env ((input.drop 2).take len) len = .ok 1) :
    DNSTCPRequestParseProbe env input input.length = .ok 1 := by
  unfold DNSRequestParseDataNull at h
  rw [readHeader_take h12] at h
  split at h
  · simp at h
  · rename_i hdr hh
    split at h
    · simp at h
    · rw [requestQuestionsNull_take env (input.drop 2) len
        (by simp only [List.length_drop]; omega)] at h
      split at h
      · rename_i d hd
        have hs : sub32 input.length 2 = input.length - 2 := by unfold sub32; omega
        have hp := requestQuestionsNull_probe env (input.drop 2) len (sub32 input.length 2)
          (by omega) _ _ _ hd
        unfold DNSTCPRequestParseProbe
        rw [hl]
        dsimp only
        unfold sizeof_DNSHeader
        rw [if_neg (by omega), if_neg (by omega), readHeader_questions hh]
        dsimp only
        unfold sizeof_DNSHeader at hp
        rw [hp]
      · simp at h
      · simp at h
      · simp at h
      · simp at h
theorem requestQuestionsNull_eq (env : Env) (input : List Byte) (input_len tx_id : Nat)
    (hlen : input_len ≤ input.length) :
    ∀ (n data : Nat) (st : DNSState),
      requestQuestionsNull env input input_len n data
        = (requestQuestions env input input_len tx_id n data st).1 := by
  intro n
  induction n with
  | zero => intro data st; rfl
  | succ n ih =>
    intro data st
    unfold requestQuestionsNull requestQuestions
    by_cases hd : input_len < data + 1
    · simp only [hd, if_true]
    · simp only [hd, if_false]
      obtain ⟨-, -, -, o4⟩ := requestLabels_ok env.DNS_MAX_SIZE input input_len hlen
        input_len data [] (by omega) (by omega)
      cases hreq : requestLabels env.DNS_MAX_SIZE input input_len input_len data [] with
      | done x =>
        obtain ⟨d, fq⟩ := x
        have hb := o4 d fq hreq
        dsimp only
        by_cases ht : input_len < d + 1 + sizeof_DNSQueryTrailer
        · simp only [ht, if_true]
        · simp only [ht, if_false]
          unfold sizeof_DNSQueryTrailer at ht
          obtain ⟨v1, e1⟩ := rd16_some input (d + 1) (by omega)
          obtain ⟨v2, e2⟩ := rd16_some input (d + 1 + 2) (by omega)
          rw [e1, e2]
          exact ih _ _
      | bad_data => rfl
      | insufficient_data => rfl
      | oob => rfl
      | fuel => rfl

/-- The dry run returns what the parser returns when it is given a state. -/
theorem DNSRequestParseDataNull_eq (env : Env) (st : DNSState) (mem : List Byte) (n : Nat)
    (hlen : n ≤ mem.length) :
    intOf (DNSRequestParseDataNull env mem n) = retOf (DNSRequestParseData env st mem n) := by
  unfold DNSRequestParseDataNull DNSRequestParseData
  cases hh : readHeader mem with
  | none => rfl
  | some hdr =>
    dsimp only
    by_cases hv : env.DNSValidateRequestHeader hdr = false
    · simp only [hv, if_true]; rfl
    · simp only [hv, if_false]
      rw [requestQuestionsNull_eq env mem n hdr.tx_id hlen hdr.questions sizeof_DNSHeader st]
      cases hq : requestQuestions env mem n hdr.tx_id hdr.questions sizeof_DNSHeader st with
      | mk w s =>
        cases w <;> rfl
/-! ## The transaction counters -/

theorem cntAdvance_refl (st : DNSState) : CntAdvance st st := ⟨0, rfl, rfl⟩

theorem CntAdvance.of_eq {st st1 : DNSState} (h1 : st1.tx_list = st.tx_list)
    (h2 : st1.transaction_cnt = st.transaction_cnt) : CntAdvance st st1 :=
  ⟨0, by rw [h1]; rfl, by rw [h2]; rfl⟩

theorem cntAdvance_trans {a b c : DNSState} (h1 : CntAdvance a b) (h2 : CntAdvance b c) :
    CntAdvance a c := by
  obtain ⟨k1, l1, c1⟩ := h1
  obtain ⟨k2, l2, c2⟩ := h2
  refine ⟨k1 + k2, by omega, ?_⟩
  rw [c2, c1]
  unfold u16
  by_cases z1 : k1 = 0 <;> by_cases z2 : k2 = 0
  · simp [z1, z2]
  · simp [z1, z2]
  · simp [z1, z2]
  · rw [if_neg z2, if_neg z1, if_neg (by omega)]
    omega

theorem requestQuestions_cnt (env : Env) (input : List Byte) (input_len tx_id : Nat) :
    ∀ (n data : Nat) (st : DNSState),
      CntAdvance st (requestQuestions env input input_len tx_id n data st).2 := by
  intro n
  induction n with
  | zero => intro data st; exact cntAdvance_refl _
  | succ n ih =>
    intro data st
    unfold requestQuestions
    split
    · exact cntAdvance_refl _
    · split
      · dsimp only
        split
        · exact cntAdvance_refl _
        · split
          · refine cntAdvance_trans ?_ (ih _ _)
            refine ⟨1, by simp [DNSStoreQueryInState], ?_⟩
            simp [DNSStoreQueryInState]
          · exact cntAdvance_refl _
      · exact cntAdvance_refl _
      · exact cntAdvance_refl _
      · exact cntAdvance_refl _
      · exact cntAdvance_refl _

theorem DNSRequestParseData_cnt {env : Env} {st st1 : DNSState} {mem : List Byte}
    {n : Nat} {r : Int} (h : DNSRequestParseData env st mem n = .ok (r, st1)) :
    CntAdvance st st1 := by
  unfold DNSRequestParseData at h
  split at h
  · simp at h
  · rename_i hdr _
    split at h
    · simp only [Except.ok.injEq, Prod.mk.injEq] at h
      rw [← h.2]; exact cntAdvance_refl _
    · have hq := requestQuestions_cnt env mem n hdr.tx_id hdr.questions sizeof_DNSHeader st
      split at h
      all_goals first
        | (rename_i w s heq
           simp only [Except.ok.injEq, Prod.mk.injEq] at h
           rw [heq] at hq
           rw [← h.2]; exact hq)
        | simp at h

theorem responseRecords_cnt (env : Env) (hdr : DNSHeader) (list : DNSList)
    (input : List Byte) (input_len : Nat) :
    ∀ (n data : Nat) (st : DNSState),
      (responseRecords env hdr list input input_len n data st).2.transaction_cnt
        = st.transaction_cnt := by
  intro n
  induction n with
  | zero => intro data st; rfl
  | succ n ih =>
    intro data st
    unfold responseRecords
    have hp : (DNSReponseParse env st hdr list input input_len data).2.transaction_cnt
        = st.transaction_cnt := by
      unfold DNSReponseParse
      split <;> rfl
    split
    · rename_i st1 heq
      rw [heq] at hp
      exact hp
    · rename_i data1 st1 heq
      rw [heq] at hp
      rw [ih, hp]

theorem DNSReponseParseData_cnt {env : Env} {st st1 : DNSState} {mem : List Byte}
    {n : Nat} {r : Int} (h : DNSReponseParseData env st mem n = .ok (r, st1)) :
    st1.transaction_cnt = st.transaction_cnt := by
  unfold DNSReponseParseData at h
  split at h
  · simp at h
  · rename_i hdr _
    split at h
    · simp only [Except.ok.injEq, Prod.mk.injEq] at h
      rw [← h.2]
    · dsimp only at h
      generalize hst0 : (if txFound st.tx_list hdr.tx_id = true then st
        else { st with events := st.events ++ [DecoderEvent.UNSOLLICITED_RESPONSE] }) = st0 at h
      have h0 : st0.transaction_cnt = st.transaction_cnt := by
        subst hst0
        split <;> rfl
      split at h
      · simp only [Except.ok.injEq, Prod.mk.injEq] at h
        rw [← h.2, h0]
      · simp only [Except.ok.injEq, Prod.mk.injEq] at h
        rw [← h.2, h0]
      · simp at h
      · simp at h
      · rename_i data hq
        have c1 := responseRecords_cnt env hdr .DNS_LIST_ANSWER mem n hdr.answer_rr data st0
        split at h
        · rename_i s1 heq
          rw [heq] at c1
          simp only [Except.ok.injEq, Prod.mk.injEq] at h
          rw [← h.2, c1, h0]
        · rename_i data1 s1 heq
          rw [heq] at c1
          have c2 := responseRecords_cnt env hdr .DNS_LIST_AUTHORITY mem n hdr.authority_rr
            data1 s1
          split at h
          · rename_i s2 heq2
            rw [heq2] at c2
            simp only [Except.ok.injEq, Prod.mk.injEq] at h
            rw [← h.2, c2, c1, h0]
          · rename_i d2 s2 heq2
            rw [heq2] at c2
            simp only [Except.ok.injEq, Prod.mk.injEq] at h
            rw [← h.2, c2, c1, h0]

theorem DNSReponseParseData_cntAdvance {env : Env} {st st1 : DNSState} {mem : List Byte}
    {n : Nat} {r : Int} (h : DNSReponseParseData env st mem n = .ok (r, st1)) :
    CntAdvance st st1 := by
  have hk := (DNSReponseParseData_frame h).2.2.1
  have hl := congrArg List.length hk
  simp only [List.length_map] at hl
  exact ⟨0, by omega, by rw [DNSReponseParseData_cnt h]; rfl⟩

/-- One pass of a framer leaves `transaction_done` alone and advances
`transaction_cnt` as the message parser does. -/
theorem recordPass_tx {check : Bool}
    {parse : DNSState → List Byte → Nat → Except Err (Int × DNSState)}
    {mk : List Byte → Nat → Call} (hparse : ParseFrame parse)
    (hcnt : ∀ st mem n r st1, parse st mem n = .ok (r, st1) → CntAdvance st st1)
    {st : DNSState} {input : List Byte} {input_len : Nat} {p : Pass}
    (h : recordPass check parse mk st input input_len = .ok p) :
    p.state.transaction_done = st.transaction_done ∧ CntAdvance st p.state := by
  have hbuf : ∀ (s s1 : DNSState) (data : List Byte) (len : Nat),
      BufferData s data len = .ok s1 →
      s1.transaction_done = s.transaction_done ∧ CntAdvance s s1 := by
    intro s s1 data len hb
    obtain ⟨-, f2, -, f4, f5⟩ := BufferData_frame hb
    exact ⟨f5, CntAdvance.of_eq f2 f4⟩
  have hpar : ∀ (s s1 : DNSState) (mem : List Byte) (n : Nat) (r : Int),
      parse s mem n = .ok (r, s1) →
      s1.transaction_done = s.transaction_done ∧ CntAdvance s s1 := by
    intro s s1 mem n r hp
    exact ⟨(hparse _ _ _ _ _ hp).1.2.2.2.2, hcnt _ _ _ _ _ hp⟩
  cases recordPass_cases h with
  | short h0 hs hp => subst hp; exact ⟨rfl, cntAdvance_refl _⟩
  | bogus len h0 hs hl1 hc hb1 hp => subst hp; exact ⟨rfl, cntAdvance_refl _⟩
  | whole len r st1 h0 hs hl1 hc he hpa hp =>
    have := hpar _ _ _ _ _ hpa
    subst hp
    split <;> exact this
  | more len r st1 h0 hs hl1 hc he hg1 hpa hp =>
    have := hpar _ _ _ _ _ hpa
    subst hp
    split <;> exact this
  | start len st1 h0 hs hl1 hc hg1 hb hp =>
    have := hbuf _ _ _ _ hb
    subst hp; exact this
  | mid_less st1 h0 hlt hb hp =>
    have := hbuf _ _ _ _ hb
    subst hp; exact this
  | mid_more st1 st2 buffer r h0 hlt hg1 hb hb1 hpa hp =>
    obtain ⟨d1, c1⟩ := hbuf _ _ _ _ hb
    obtain ⟨d2, c2⟩ := hpar _ _ _ _ _ hpa
    have : (BufferReset st2).transaction_done = st.transaction_done ∧
        CntAdvance st (BufferReset st2) :=
      ⟨d2.trans d1, cntAdvance_trans c1 c2⟩
    subst hp
    split <;> exact this
  | mid_exact st1 st2 buffer r h0 hlt hg1 hb hb1 hpa hp =>
    obtain ⟨d1, c1⟩ := hbuf _ _ _ _ hb
    obtain ⟨d2, c2⟩ := hpar _ _ _ _ _ hpa
    have : (BufferReset st2).transaction_done = st.transaction_done ∧
        CntAdvance st (BufferReset st2) :=
      ⟨d2.trans d1, cntAdvance_trans c1 c2⟩
    subst hp
    split <;> exact this
theorem nextRecordLoop_tx {check : Bool}
    {parse : DNSState → List Byte → Nat → Except Err (Int × DNSState)}
    {mk : List Byte → Nat → Call} (hparse : ParseFrame parse)
    (hcnt : ∀ st mem n r st1, parse st mem n = .ok (r, st1) → CntAdvance st st1)
    {fuel : Nat} {st st1 : DNSState} {input : List Byte} {input_len : Nat} {r : Int}
    (h : nextRecordLoop (recordPass check parse mk) fuel st input input_len = .ok (r, st1)) :
    st1.transaction_done = st.transaction_done ∧ CntAdvance st st1 :=
  nextRecordLoop_sat
    (fun s _ _ => s.transaction_done = st.transaction_done ∧ CntAdvance st s)
    (fun _ s => s.transaction_done = st.transaction_done ∧ CntAdvance st s)
    (fun s i l p hI hp => by
      have := recordPass_tx hparse hcnt hp
      cases p with
      | ret r s1 => exact ⟨this.1.trans hI.1, cntAdvance_trans hI.2 this.2⟩
      | again s1 i1 l1 => exact ⟨this.1.trans hI.1, cntAdvance_trans hI.2 this.2⟩)
    _ _ _ _ _ _ ⟨rfl, cntAdvance_refl _⟩ h

theorem DNSTCPRequestParse_tx {env : Env} {f : Option Flow} {st st1 : DNSState}
    {input : List Byte} {r : Int} (h : DNSTCPRequestParse env f st input = .ok (r, st1)) :
    st1.transaction_done = st.transaction_done ∧ CntAdvance st st1 := by
  rcases DNSTCPRequestParse_cases h with ⟨-, e, -⟩ | ⟨-, -, hl⟩
  · rw [e]; exact ⟨rfl, cntAdvance_refl _⟩
  · unfold requestNextRecord at hl
    rw [requestPass_eq] at hl
    exact nextRecordLoop_tx (DNSRequestParseData_parseFrame env)
      (fun _ _ _ _ _ hp => DNSRequestParseData_cnt hp) hl

theorem DNSTCPResponseParse_tx {env : Env} {fuel : Nat} {f : Option Flow}
    {st st1 : DNSState} {input : List Byte} {r : Int}
    (h : DNSTCPResponseParse env fuel f st input = .ok (r, st1)) :
    st1.transaction_done = st.transaction_done ∧ st1.transaction_cnt = st.transaction_cnt ∧
      CntAdvance st st1 := by
  rcases DNSTCPResponseParse_cases h with ⟨-, e, -⟩ | ⟨-, -, hl⟩
  · rw [e]; exact ⟨rfl, rfl, cntAdvance_refl _⟩
  · unfold responseNextRecord at hl
    rw [responsePass_eq] at hl
    obtain ⟨h1, k, hk, hc⟩ := nextRecordLoop_tx (DNSReponseParseData_parseFrame env)
      (fun _ _ _ _ _ hp => DNSReponseParseData_cntAdvance hp) hl
    refine ⟨h1, ?_, k, hk, hc⟩
    have hkeys := (nextRecordLoop_sat
      (fun s _ _ => s.tx_list.length = st.tx_list.length)
      (fun _ s => s.tx_list.length = st.tx_list.length)
      (fun s i l p hI hp => by
        have hlen : p.state.tx_list.length = s.tx_list.length := by
          have hb : ∀ (a b : DNSState) (data : List Byte) (len : Nat),
              BufferData a data len = .ok b → b.tx_list.length = a.tx_list.length :=
            fun a b data len hb => by rw [(BufferData_frame hb).2.1]
          have hpa : ∀ (a b : DNSState) (mem : List Byte) (n : Nat) (r : Int),
              DNSReponseParseData env a mem n = .ok (r, b) →
              b.tx_list.length = a.tx_list.length := by
            intro a b mem n r hp
            have := congrArg List.length (DNSReponseParseData_frame hp).2.2.1
            simpa using this
          cases recordPass_cases hp with
          | short h0 hs hp => subst hp; rfl
          | bogus len h0 hs hl1 hc hb1 hp => subst hp; rfl
          | whole len r st1 h0 hs hl1 hc he hpar hp =>
            have := hpa _ _ _ _ _ hpar
            subst hp; split <;> exact this
          | more len r st1 h0 hs hl1 hc he hg1 hpar hp =>
            have := hpa _ _ _ _ _ hpar
            subst hp; split <;> exact this
          | start len st1 h0 hs hl1 hc hg1 hbuf hp =>
            have := hb _ _ _ _ hbuf
            subst hp; exact this
          | mid_less st1 h0 hlt hbuf hp =>
            have := hb _ _ _ _ hbuf
            subst hp; exact this
          | mid_more st1 st2 buffer r h0 hlt hg1 hbuf hb1 hpar hp =>
            have t1 := hb _ _ _ _ hbuf
            have t2 := hpa _ _ _ _ _ hpar
            have : (BufferReset st2).tx_list.length = s.tx_list.length := t2.trans t1
            subst hp; split <;> exact this
          | mid_exact st1 st2 buffer r h0 hlt hg1 hbuf hb1 hpar hp =>
            have t1 := hb _ _ _ _ hbuf
            have t2 := hpa _ _ _ _ _ hpar
            have : (BufferReset st2).tx_list.length = s.tx_list.length := t2.trans t1
            subst hp; split <;> exact this
        cases p with
        | ret r s1 => exact hlen.trans hI
        | again s1 i1 l1 => exact hlen.trans hI)
      _ _ _ _ _ _ rfl hl)
    have hk0 : k = 0 := by omega
    rw [hc, if_pos hk0]

theorem flowTrace_head {env : Env} {st : DNSState} {cs : List FlowCall} {tr : List DNSState}
    (h : flowTrace env st cs = .ok tr) : ∃ t, tr = st :: t := by
  cases cs with
  | nil =>
    simp only [flowTrace, Except.ok.injEq] at h
    exact ⟨[], h.symm⟩
  | cons c cs =>
    unfold flowTrace at h
    split at h
    · simp at h
    · split at h
      · simp at h
      · simp only [Except.ok.injEq] at h
        exact ⟨_, h.symm⟩

/-- One call on a flow: the framers leave `transaction_done` alone, the cleanup
callback sets it to its argument, and the counter advances with the transactions
added. -/
theorem FlowCall.run_tx {env : Env} {st st1 : DNSState} {c : FlowCall}
    (h : c.run env st = .ok st1) :
    (∀ id, c = .mark_done id → st1.transaction_done = id) ∧
    ((∀ id, c ≠ .mark_done id) → st1.transaction_done = st.transaction_done) ∧
    CntAdvance st st1 := by
  cases c with
  | request f input =>
    simp only [FlowCall.run] at h
    split at h
    · simp at h
    · rename_i r s hcall
      simp only [Except.ok.injEq] at h
      subst h
      have := DNSTCPRequestParse_tx hcall
      exact ⟨fun id e => (by cases e), fun _ => this.1, this.2⟩
  | response fuel f input =>
    simp only [FlowCall.run] at h
    split at h
    · simp at h
    · rename_i r s hcall
      simp only [Except.ok.injEq] at h
      subst h
      have := DNSTCPResponseParse_tx hcall
      exact ⟨fun id e => (by cases e), fun _ => this.1, this.2.2⟩
  | mark_done id =>
    simp only [FlowCall.run, Except.ok.injEq] at h
    subst h
    exact ⟨fun id1 e => (by cases e; rfl), fun hne => absurd rfl (hne id),
      CntAdvance.of_eq rfl rfl⟩

theorem flowTrace_chain (env : Env) :
    ∀ (cs : List FlowCall) (st : DNSState) (tr : List DNSState),
      flowTrace env st cs = .ok tr →
      tr.Chain' CntAdvance ∧
      (IdsAscend st.transaction_done cs →
        tr.Chain' (fun a b => a.transaction_done ≤ b.transaction_done)) := by
  intro cs
  induction cs with
  | nil =>
    intro st tr h
    simp only [flowTrace, Except.ok.injEq] at h
    subst h
    exact ⟨List.chain'_singleton _, fun _ => List.chain'_singleton _⟩
  | cons c cs ih =>
    intro st tr h
    unfold flowTrace at h
    split at h
    · simp at h
    · rename_i st1 hrun
      split at h
      · simp at h
      · rename_i tr1 htr
        simp only [Except.ok.injEq] at h
        subst h
        obtain ⟨t, rfl⟩ := flowTrace_head htr
        obtain ⟨i1, i2⟩ := ih st1 _ htr
        obtain ⟨hm, hd, hc⟩ := FlowCall.run_tx hrun
        refine ⟨List.Chain'.cons hc i1, fun hasc => ?_⟩
        cases c with
        | request f input =>
          have hd := hd (fun id e => by cases e)
          exact List.Chain'.cons (by omega) (i2 (by rw [hd]; exact hasc))
        | response fuel f input =>
          have hd := hd (fun id e => by cases e)
          exact List.Chain'.cons (by omega) (i2 (by rw [hd]; exact hasc))
        | mark_done id =>
          have hd := hm id rfl
          obtain ⟨a1, a2⟩ := hasc
          exact List.Chain'.cons (by omega) (i2 (by rw [hd]; exact a2))

theorem CntAdvance.le {a b : DNSState} (h : CntAdvance a b)
    (hw : a.transaction_cnt + (b.tx_list.length - a.tx_list.length) < 65536) :
    a.transaction_cnt ≤ b.transaction_cnt := by
  obtain ⟨k, hk, hc⟩ := h
  rw [hc]
  split
  · exact Nat.le_refl _
  · unfold u16
    rw [hk, Nat.add_sub_cancel_left] at hw
    rw [Nat.mod_eq_of_lt hw]
    omega
theorem DNSReponseParseData_zeroLength (env : Env)
    (hv : env.DNSValidateResponseHeader zeroLengthHeader = true) (s : DNSState) :
    ∃ s1, DNSReponseParseData env s (zeroLengthResponse.drop 2) 0 = .ok (1, s1) ∧
      s1.offset = s.offset := by
  have hh : readHeader (zeroLengthResponse.drop 2) = some zeroLengthHeader := by decide
  unfold DNSReponseParseData
  rw [hh]
  dsimp only
  rw [if_neg (by rw [hv]; decide)]
  have hq : responseQuestions env (zeroLengthResponse.drop 2) 0 zeroLengthHeader.questions
      sizeof_DNSHeader = .done 12 := rfl
  rw [hq]
  dsimp only
  have ha : ∀ (l : DNSList) (d : Nat) (x : DNSState),
      responseRecords env zeroLengthHeader l (zeroLengthResponse.drop 2) 0 0 d x
        = (some d, x) := fun _ _ _ => rfl
  have e1 : zeroLengthHeader.answer_rr = 0 := rfl
  have e2 : zeroLengthHeader.authority_rr = 0 := rfl
  rw [e1, e2, ha]
  dsimp only
  rw [ha]
  dsimp only
  refine ⟨_, rfl, ?_⟩
  split <;> rfl

/-- One pass of the response framer over `zeroLengthResponse` in an idle state
ends at `goto next_record` with all 14 bytes left. -/
theorem responsePass_zeroLength (env : Env)
    (hv : env.DNSValidateResponseHeader zeroLengthHeader = true) (st : DNSState)
    (h0 : st.offset = 0) :
    ∃ st1, responsePass env st zeroLengthResponse 14 = .ok (.again st1 zeroLengthResponse 14) ∧
      st1.offset = 0 := by
  obtain ⟨s1, hp, ho⟩ := DNSReponseParseData_zeroLength env hv
    ((st.note (.next_record 14)).note (.response_data (zeroLengthResponse.drop 2) 0))
  have hrd : rd16 zeroLengthResponse 0 = some 0 := by decide
  have hs : sub32 14 2 = 12 := by decide
  refine ⟨s1, ?_, by rw [ho]; exact h0⟩
  unfold responsePass
  simp only [sizeof_DNSTcpHeader]
  rw [if_neg (by omega),
    if_pos (show (st.note (.next_record 14)).offset = 0 from h0), hrd]
  dsimp only
  rw [hs, if_neg (by decide), if_pos (by decide), hp]
  dsimp only
  rw [if_neg (by decide)]
  rfl

theorem responseNextRecord_zeroLength (env : Env)
    (hv : env.DNSValidateResponseHeader zeroLengthHeader = true) :
    ∀ (fuel : Nat) (st : DNSState), st.offset = 0 →
      responseNextRecord env fuel st zeroLengthResponse 14 = .error .fuel := by
  intro fuel
  induction fuel with
  | zero => intro st _; rfl
  | succ fuel ih =>
    intro st h0
    obtain ⟨st1, hp, h1⟩ := responsePass_zeroLength env hv st h0
    unfold responseNextRecord at ih ⊢
    rw [nextRecordLoop_succ, hp]
    exact ih st1 h1
/-! ## The number of passes of the request framer -/

theorem requestLabels_ne_fuel (M : Nat) (input : List Byte) (input_len : Nat) :
    ∀ (fuel data : Nat) (fqdn : List Byte), data < input_len → input_len ≤ data + fuel →
      requestLabels M input input_len fuel data fqdn ≠ .fuel := by
  intro fuel
  induction fuel with
  | zero => intro data fqdn h1 h2; omega
  | succ fuel ih =>
    intro data fqdn hd hf
    unfold requestLabels
    split
    · simp
    · dsimp only
      split
      · simp
      · split
        · simp
        · split
          · split
            · simp
            · split
              · split
                · simp
                · split
                  · simp
                  · exact ih _ _ (by omega) (by omega)
              · simp
          · split
            · simp
            · exact ih _ _ (by omega) (by omega)

theorem requestQuestions_ne_fuel (env : Env) (input : List Byte) (input_len tx_id : Nat) :
    ∀ (n data : Nat) (st : DNSState),
      (requestQuestions env input input_len tx_id n data st).1 ≠ .fuel := by
  intro n
  induction n with
  | zero => intro data st; simp [requestQuestions]
  | succ n ih =>
    intro data st
    unfold requestQuestions
    split
    · simp
    · have hl := requestLabels_ne_fuel env.DNS_MAX_SIZE input input_len input_len data []
        (by omega) (by omega)
      split
      · dsimp only
        split
        · simp
        · split
          · exact ih _ _
          · simp
      · simp
      · simp
      · simp
      · rename_i heq; exact absurd heq hl

theorem DNSRequestParseData_ne_fuel (env : Env) (st : DNSState) (mem : List Byte) (n : Nat) :
    DNSRequestParseData env st mem n ≠ .error .fuel := by
  unfold DNSRequestParseData
  split
  · simp
  · rename_i hdr _
    split
    · simp
    · have hq := requestQuestions_ne_fuel env mem n hdr.tx_id hdr.questions sizeof_DNSHeader st
      split
      · simp
      · simp
      · simp
      · simp
      · rename_i heq; rw [heq] at hq; exact absurd rfl hq

theorem BufferData_ne_fuel (st : DNSState) (data : List Byte) (len : Nat) :
    BufferData st data len ≠ .error .fuel := by
  unfold BufferData
  dsimp only
  split <;> unfold bufferCopy <;> split
  · simp
  · split <;> simp
  · simp
  · split <;> simp

theorem recordPass_ne_fuel {check : Bool}
    {parse : DNSState → List Byte → Nat → Except Err (Int × DNSState)}
    (mk : List Byte → Nat → Call) (hp : ∀ s mem n, parse s mem n ≠ .error .fuel)
    (st : DNSState) (input : List Byte) (input_len : Nat) :
    recordPass check parse mk st input input_len ≠ .error .fuel := by
  have hfin : ∀ (x : Except Err DNSState) (g : DNSState → Except Err Pass),
      x ≠ .error .fuel → (∀ s, g s ≠ .error .fuel) →
      (match x with
        | .error e => .error e
        | .ok st1 => g st1 : Except Err Pass) ≠ .error .fuel := by
    intro x g hx hg
    cases x with
    | error e => intro h; exact hx (by simpa using h)
    | ok s => exact hg s
  have hpar : ∀ (s : DNSState) (mem : List Byte) (n : Nat) (p1 p2 : DNSState → Pass),
      (match parse s mem n with
        | .error e => .error e
        | .ok (r, st2) => if r < 0 then .ok (p1 st2) else .ok (p2 st2) : Except Err Pass)
        ≠ .error .fuel := by
    intro s mem n p1 p2
    have := hp s mem n
    cases hx : parse s mem n with
    | error e => rw [hx] at this; intro h; exact this (by simpa using h)
    | ok v =>
      obtain ⟨r, s2⟩ := v
      dsimp only
      split <;> simp
  unfold recordPass
  dsimp only
  split
  · simp
  · split
    · split
      · simp
      · split
        · simp
        · split
          · exact hpar _ _ _ (fun s => .ret (-1) s) (fun s => .ret 1 s)
          · split
            · exact hpar _ _ _ (fun s => .ret (-1) s) (fun s => .again s _ _)
            · exact hfin _ (fun s => .ok (.ret 1 s)) (BufferData_ne_fuel _ _ _) (by simp)
    · split
      · exact hfin _ (fun s => .ok (.ret 1 s)) (BufferData_ne_fuel _ _ _) (by simp)
      · split
        · refine hfin _ _ (BufferData_ne_fuel _ _ _) (fun s => ?_)
          split
          · simp
          · exact hpar _ _ _ (fun s => .ret (-1) (BufferReset s))
              (fun s => .again (BufferReset s) _ _)
        · refine hfin _ _ (BufferData_ne_fuel _ _ _) (fun s => ?_)
          split
          · simp
          · exact hpar _ _ _ (fun s => .ret (-1) (BufferReset s))
              (fun s => .ret 1 (BufferReset s))

/-- What a pass of the request framer that ends at `goto next_record` has done:
from an idle state it has stepped over a declared length of at least 12, from a
state with a record in progress over the bytes that the record missed; either
way the state is idle afterwards. -/
theorem recordPass_again {parse : DNSState → List Byte → Nat → Except Err (Int × DNSState)}
    {mk : List Byte → Nat → Call} (hparse : ParseFrame parse) {st st1 : DNSState}
    {input input1 : List Byte} {input_len l1 : Nat} (hb : Bounded st)
    (hl : input_len = input.length) (h32 : input_len < 4294967296)
    (h : recordPass true parse mk st input input_len = .ok (.again st1 input1 l1)) :
    st1.offset = 0 ∧ Bounded st1 ∧ l1 = input1.length ∧
    ((st.offset = 0 ∧ ∃ L, rd16 input 0 = some L ∧ 12 ≤ L ∧ l1 + L = input_len ∧
        input1 = input.drop L) ∨
      (st.offset ≠ 0 ∧ l1 + (st.record_len - st.offset) = input_len ∧
        input1 = input.drop (st.record_len - st.offset))) := by
  obtain ⟨b1, b2⟩ := hb
  cases recordPass_cases h with
  | short h0 hs hp => cases hp
  | bogus len h0 hs hl1 hc hb1 hp => cases hp
  | whole len r s1 h0 hs hl1 hc he hpar hp =>
    split at hp <;> cases hp
  | more len r s1 h0 hs hl1 hc he hg1 hpar hp =>
    obtain ⟨⟨-, f2, f3, -, -⟩, -⟩ := hparse _ _ _ _ _ hpar
    split at hp
    · cases hp
    · simp only [Pass.again.injEq] at hp
      obtain ⟨e1, e2, e3⟩ := hp
      subst e1 e2 e3
      have h12 : 12 ≤ len := by
        by_contra hcon; exact hc ⟨rfl, by omega⟩
      have hle := rd16_le hl1
      unfold sub32 at hg1 ⊢
      refine ⟨by rw [f3]; exact h0, ⟨by rw [f3, f2]; exact b1, by rw [f2]; exact b2⟩, ?_,
        Or.inl ⟨h0, len, hl1, h12, by omega, rfl⟩⟩
      simp only [List.length_drop]
      omega
  | start len s1 h0 hs hl1 hc hg1 hbuf hp => cases hp
  | mid_less s1 h0 hlt hbuf hp => cases hp
  | mid_more s1 s2 buffer r h0 hlt hg1 hbuf hb1 hpar hp =>
    split at hp
    · cases hp
    · simp only [Pass.again.injEq] at hp
      obtain ⟨e1, e2, e3⟩ := hp
      subst e1 e2 e3
      have hneed : sub16 st.record_len st.offset = st.record_len - st.offset := by
        unfold sub16; omega
      unfold sub16to32 at hg1
      unfold sub32
      rw [hneed]
      refine ⟨rfl, ⟨Nat.le_refl _, Nat.zero_le _⟩, ?_, Or.inr ⟨h0, by omega, rfl⟩⟩
      simp only [List.length_drop]
      omega
  | mid_exact s1 s2 buffer r h0 hlt hg1 hbuf hb1 hpar hp =>
    split at hp <;> cases hp
theorem passBound_again (st st1 : DNSState) (input_len l1 : Nat) (h1 : st1.offset = 0)
    (h : (st.offset = 0 ∧ ∃ L, 12 ≤ L ∧ l1 + L = input_len) ∨
      (st.offset ≠ 0 ∧ l1 ≤ input_len)) :
    passBound st1 l1 + 1 ≤ passBound st input_len := by
  unfold passBound
  rw [if_neg (by simp [h1])]
  rcases h with ⟨h0, L, hL, e⟩ | ⟨h0, e⟩
  · rw [if_neg (by simp [h0])]
    omega
  · rw [if_pos h0]
    omega

/-- The loop of the request framer does not use up `passBound + 1` passes,
whatever the message parser returns. -/
theorem requestLoop_ne_fuel
    {parse : DNSState → List Byte → Nat → Except Err (Int × DNSState)}
    {mk : List Byte → Nat → Call} (hparse : ParseFrame parse)
    (hp : ∀ s mem n, parse s mem n ≠ .error .fuel) :
    ∀ (fuel : Nat) (st : DNSState) (input : List Byte) (input_len : Nat),
      Bounded st → input_len = input.length → input_len < 4294967296 →
      passBound st input_len < fuel →
      nextRecordLoop (recordPass true parse mk) fuel st input input_len ≠ .error .fuel := by
  intro fuel
  induction fuel with
  | zero => intro st input l _ _ _ h; omega
  | succ fuel ih =>
    intro st input l hb hl h32 hm
    rw [nextRecordLoop_succ]
    cases hpass : recordPass true parse mk st input l with
    | error e =>
      have : recordPass true parse mk st input l ≠ .error .fuel :=
        recordPass_ne_fuel mk hp st input l
      rw [hpass] at this
      dsimp only
      intro hcon
      cases hcon
      exact this rfl
    | ok p =>
      cases p with
      | ret r st1 => simp
      | again st1 input1 l1 =>
        dsimp only
        obtain ⟨a1, a2, a3, a4⟩ := recordPass_again hparse hb hl h32 hpass
        have hdec := passBound_again st st1 l l1 a1 (by
          rcases a4 with ⟨h0, L, -, hL, e, -⟩ | ⟨h0, e, -⟩
          · exact Or.inl ⟨h0, L, hL, e⟩
          · exact Or.inr ⟨h0, by omega⟩)
        have hl1 : l1 ≤ l := by
          rcases a4 with ⟨-, L, -, -, e, -⟩ | ⟨-, e, -⟩ <;> omega
        exact ih st1 input1 l1 a2 a3 (by omega) (by omega)

/-- The loop of the request framer returns within `passBound + 1` passes from a
state in which a record in progress declares at least 12 bytes. -/
theorem requestLoop_returns
    {parse : DNSState → List Byte → Nat → Except Err (Int × DNSState)}
    (mk : List Byte → Nat → Call) (hparse : ParseFrame parse)
    (hpt : ∀ st mem n, (true = true → 12 ≤ n) → 12 ≤ mem.length → n ≤ mem.length →
      ∃ r st1, parse st mem n = .ok (r, st1)) :
    ∀ (fuel : Nat) (st : DNSState) (input : List Byte) (input_len : Nat),
      Bounded st → (st.offset ≠ 0 → 12 ≤ st.record_len) → input_len = input.length →
      input_len < 4294967296 → passBound st input_len < fuel →
      ∃ r st1, nextRecordLoop (recordPass true parse mk) fuel st input input_len
        = .ok (r, st1) := by
  intro fuel
  induction fuel with
  | zero => intro st input l _ _ _ _ h; omega
  | succ fuel ih =>
    intro st input l hb h12 hl h32 hm
    obtain ⟨p, hpass⟩ := recordPass_returns mk hpt hb h12 hl h32
    rw [nextRecordLoop_succ, hpass]
    cases p with
    | ret r st1 => exact ⟨_, _, rfl⟩
    | again st1 input1 l1 =>
      dsimp only
      obtain ⟨a1, a2, a3, a4⟩ := recordPass_again hparse hb hl h32 hpass
      have hdec := passBound_again st st1 l l1 a1 (by
        rcases a4 with ⟨h0, L, -, hL, e, -⟩ | ⟨h0, e, -⟩
        · exact Or.inl ⟨h0, L, hL, e⟩
        · exact Or.inr ⟨h0, by omega⟩)
      have hl1 : l1 ≤ l := by
        rcases a4 with ⟨-, L, -, -, e, -⟩ | ⟨-, e, -⟩ <;> omega
      exact ih st1 input1 l1 a2 (fun h => absurd a1 h) a3 (by omega) (by omega)
/-! ## The calls of the request parser in the log -/

theorem NoClip.nil : NoClip [] := ⟨by simp, by simp⟩

theorem NoClip.next_record (l : Nat) : NoClip [Call.next_record l] := by
  refine ⟨by simp, fun len off rl hm => ?_⟩
  simp at hm

theorem NoClip.request_data (mem : List Byte) (n : Nat) : NoClip [Call.request_data mem n] := by
  refine ⟨by simp, fun len off rl hm => ?_⟩
  simp at hm

theorem NoClip.response_data (mem : List Byte) (n : Nat) :
    NoClip [Call.response_data mem n] := by
  refine ⟨by simp, fun len off rl hm => ?_⟩
  simp at hm

/-- A call of `BufferData` with a length below 65536 that fits the record does
not enter the branch of `BUG_ON(1)`: it logs the call alone and advances
`offset` by the length. -/
theorem BufferData_log {s s1 : DNSState} {data : List Byte} {len : Nat}
    (hlen : len < 65536) (hfit : len + s.offset ≤ s.record_len) (hr : s.record_len ≤ 65535)
    (h : BufferData s data len = .ok s1) :
    s1.calls = s.calls ++ [Call.buffer_data len s.offset s.record_len] ∧
    s1.offset = s.offset + len ∧ s1.record_len = s.record_len := by
  unfold BufferData at h
  simp only [DNSState.note] at h
  rw [if_neg (by unfold u32 u16; omega)] at h
  unfold bufferCopy at h
  split at h
  · simp at h
  · split at h
    · simp at h
    · simp only [Except.ok.injEq] at h
      subst h
      refine ⟨rfl, ?_, rfl⟩
      show u16 (s.offset + u16 len) = s.offset + len
      unfold u16
      omega

/-- The bytes left at `goto next_record` are not more than before. -/
theorem recordPass_again_le {check : Bool}
    {parse : DNSState → List Byte → Nat → Except Err (Int × DNSState)}
    {mk : List Byte → Nat → Call} {st st1 : DNSState} {input input1 : List Byte}
    {input_len l1 : Nat} (hb : Bounded st) (h32 : input_len < 4294967296)
    (h : recordPass check parse mk st input input_len = .ok (.again st1 input1 l1)) :
    l1 ≤ input_len := by
  obtain ⟨b1, b2⟩ := hb
  cases recordPass_cases h with
  | short h0 hs hp => cases hp
  | bogus len h0 hs hl1 hc hb1 hp => cases hp
  | whole len r s1 h0 hs hl1 hc he hpar hp => split at hp <;> cases hp
  | more len r s1 h0 hs hl1 hc he hg1 hpar hp =>
    split at hp
    · cases hp
    · simp only [Pass.again.injEq] at hp
      obtain ⟨-, -, e3⟩ := hp
      subst e3
      unfold sub32 at hg1 ⊢
      omega
  | start len s1 h0 hs hl1 hc hg1 hbuf hp => cases hp
  | mid_less s1 h0 hlt hbuf hp => cases hp
  | mid_more s1 s2 buffer r h0 hlt hg1 hbuf hb1 hpar hp =>
    split at hp
    · cases hp
    · simp only [Pass.again.injEq] at hp
      obtain ⟨-, -, e3⟩ := hp
      subst e3
      unfold sub16to32 at hg1
      unfold sub32 sub16
      omega
  | mid_exact s1 s2 buffer r h0 hlt hg1 hbuf hb1 hpar hp => split at hp <;> cases hp

theorem strict_bounded {st : DNSState} (h : Strict st) (hr : st.record_len ≤ 65535) :
    Bounded st := by
  rcases h with ⟨h0, h1⟩ | ⟨h0, h1⟩
  · exact ⟨by omega, hr⟩
  · exact ⟨by omega, hr⟩

/-- One pass of a framer on fewer than `chunkBound` bytes keeps the strict
invariant. -/
theorem recordPass_strict {check : Bool}
    {parse : DNSState → List Byte → Nat → Except Err (Int × DNSState)}
    {mk : List Byte → Nat → Call} (hparse : ParseFrame parse) {st : DNSState}
    {input : List Byte} {input_len : Nat} {p : Pass}
    (hI : (Strict st ∧ st.record_len ≤ 65535) ∧ input_len < chunkBound)
    (h : recordPass check parse mk st input input_len = .ok p) :
    p.sat (fun _ st1 => Strict st1 ∧ st1.record_len ≤ 65535)
      (fun st1 _ l1 => (Strict st1 ∧ st1.record_len ≤ 65535) ∧ l1 < chunkBound) := by
  obtain ⟨⟨hs, hr⟩, h32⟩ := hI
  have hbd := strict_bounded hs hr
  have hle : ∀ {s1 : DNSState} {i1 : List Byte} {l1 : Nat}, p = .again s1 i1 l1 →
      l1 < chunkBound := by
    intro s1 i1 l1 e
    rw [e] at h
    have := recordPass_again_le hbd (by unfold chunkBound at h32; omega) h
    omega
  obtain ⟨b1, b2⟩ := hbd
  unfold chunkBound at h32
  have hsame : ∀ s1 : DNSState, s1.offset = st.offset → s1.record_len = st.record_len →
      Strict s1 ∧ s1.record_len ≤ 65535 := by
    intro s1 e1 e2
    unfold Strict
    rw [e1, e2]
    exact ⟨hs, hr⟩
  have hreset : ∀ s : DNSState, Strict (BufferReset s) ∧ (BufferReset s).record_len ≤ 65535 :=
    fun s => ⟨Or.inl ⟨rfl, rfl⟩, Nat.zero_le _⟩
  cases recordPass_cases h with
  | short h0 hs1 hp => subst hp; exact hsame _ rfl rfl
  | bogus len h0 hs1 hl1 hc hb1 hp => subst hp; exact hsame _ rfl rfl
  | whole len r st1 h0 hs1 hl1 hc he hpa hp =>
    obtain ⟨⟨-, f2, f3, -, -⟩, -⟩ := hparse _ _ _ _ _ hpa
    have := hsame st1 f3 f2
    subst hp
    exact Pass.sat_ite (fun _ => this) (fun _ => this)
  | more len r st1 h0 hs1 hl1 hc he hg1 hpa hp =>
    obtain ⟨⟨-, f2, f3, -, -⟩, -⟩ := hparse _ _ _ _ _ hpa
    have := hsame st1 f3 f2
    have hl := @hle st1 (input.drop len) (sub32 input_len len)
    subst hp
    refine Pass.sat_ite (fun _ => this) (fun hr0 => ⟨this, hl ?_⟩)
    rw [if_neg hr0]
  | start len st1 h0 hs1 hl1 hc hg1 hbuf hp =>
    have hlen := rd16_le hl1
    have hsub : sub32 input_len 2 = input_len - 2 := by unfold sub32; omega
    rw [hsub] at hg1 hbuf
    obtain ⟨-, e2, e3⟩ := BufferData_log (by omega)
      (by simp only [DNSState.note]; omega) (by simp only [DNSState.note]; omega) hbuf
    simp only [DNSState.note] at e2 e3
    subst hp
    exact ⟨Or.inr ⟨by rw [e2]; omega, by rw [e2, e3]; omega⟩, by rw [e3]; omega⟩
  | mid_less st1 h0 hlt hbuf hp =>
    have hlt2 : input_len + st.offset < st.record_len := by unfold u32 at hlt; omega
    obtain ⟨-, e2, e3⟩ := BufferData_log (by omega)
      (by simp only [DNSState.note]; omega) (by simp only [DNSState.note]; omega) hbuf
    simp only [DNSState.note] at e2 e3
    have h12 : 12 ≤ st.offset := by
      rcases hs with ⟨z, -⟩ | ⟨z, -⟩
      · exact absurd z h0
      · exact z
    subst hp
    exact ⟨Or.inr ⟨by rw [e2]; omega, by rw [e2, e3]; omega⟩, by rw [e3]; omega⟩
  | mid_more st1 st2 buffer r h0 hlt hg1 hbuf hb1 hpa hp =>
    have hl := @hle (BufferReset st2) (input.drop (sub16 st.record_len st.offset))
      (sub32 input_len (sub16 st.record_len st.offset))
    subst hp
    refine Pass.sat_ite (fun _ => hreset _) (fun hr0 => ⟨hreset _, hl ?_⟩)
    rw [if_neg hr0]
  | mid_exact st1 st2 buffer r h0 hlt hg1 hbuf hb1 hpa hp =>
    subst hp
    exact Pass.sat_ite (fun _ => hreset _) (fun _ => hreset _)

theorem nextRecordLoop_strict {check : Bool}
    {parse : DNSState → List Byte → Nat → Except Err (Int × DNSState)}
    {mk : List Byte → Nat → Call} (hparse : ParseFrame parse) {fuel : Nat} {st st1 : DNSState}
    {input : List Byte} {input_len : Nat} {r : Int}
    (hs : Strict st ∧ st.record_len ≤ 65535) (h32 : input_len < chunkBound)
    (h : nextRecordLoop (recordPass check parse mk) fuel st input input_len = .ok (r, st1)) :
    Strict st1 ∧ st1.record_len ≤ 65535 :=
  nextRecordLoop_sat
    (fun s _ l => (Strict s ∧ s.record_len ≤ 65535) ∧ l < chunkBound)
    (fun _ s => Strict s ∧ s.record_len ≤ 65535)
    (fun _ _ _ _ hI hp => recordPass_strict hparse hI hp)
    _ _ _ _ _ _ ⟨hs, h32⟩ h

theorem ReachableShort.strict {env : Env} {st : DNSState} (h : ReachableShort env st) :
    Strict st ∧ st.record_len ≤ 65535 := by
  induction h with
  | init => exact ⟨Or.inl ⟨rfl, rfl⟩, by decide⟩
  | request f st input r st1 _ hlen hcall ih =>
    rcases DNSTCPRequestParse_cases hcall with ⟨-, e, -⟩ | ⟨-, -, hl⟩
    · rw [e]; exact ih
    · unfold requestNextRecord at hl
      rw [requestPass_eq] at hl
      exact nextRecordLoop_strict (DNSRequestParseData_parseFrame env) ih hlen hl
  | response fuel f st input r st1 _ hlen hcall ih =>
    rcases DNSTCPResponseParse_cases hcall with ⟨-, e, -⟩ | ⟨-, -, hl⟩
    · rw [e]; exact ih
    · unfold responseNextRecord at hl
      rw [responsePass_eq] at hl
      exact nextRecordLoop_strict (DNSReponseParseData_parseFrame env) ih hlen hl

theorem ReachableShort.reachable {env : Env} {st : DNSState} (h : ReachableShort env st) :
    Reachable env st := by
  induction h with
  | init => exact Reachable.init
  | request f st input r st1 _ hlen hcall ih =>
    exact Reachable.request f st input r st1 ih (by unfold chunkBound at hlen; omega) hcall
  | response fuel f st input r st1 _ hlen hcall ih =>
    exact Reachable.response fuel f st input r st1 ih (by unfold chunkBound at hlen; omega)
      hcall

/-- A chunk so long that the 32-bit sum `input_len + offset` wraps below
`record_len` takes the request framer into the clipping branch of
`BufferData`, which fills the record to its end and leaves it unparsed. -/
theorem DNSTCPRequestParse_clip (env : Env) (f : Option Flow) (st : DNSState)
    (input : List Byte) (hf : ∀ fl, f = some fl → fl.proto = IPPROTO_TCP)
    (h0 : st.offset ≠ 0) (hb : st.offset ≤ st.record_len) (hr : st.record_len ≤ 65535)
    (hw : u32 (input.length + st.offset) < st.record_len)
    (hc : st.record_len < u16 input.length + st.offset)
    (hd : st.record_len - st.offset ≤ input.length) :
    ∃ st1, DNSTCPRequestParse env f st input = .ok (1, st1) ∧
      st1.offset = st.record_len ∧ st1.record_len = st.record_len ∧
      st1.calls = st.calls ++ [.next_record input.length,
        .buffer_data input.length st.offset st.record_len, .bug_on] := by
  have hne : input ≠ [] := by
    intro e
    rw [e] at hc
    simp only [List.length_nil, u16] at hc
    omega
  have hclip : u32 (u16 input.length) + u32 st.offset > u32 st.record_len := by
    unfold u32 u16 at *; omega
  have hsub : sub16 st.record_len st.offset = st.record_len - st.offset := by
    unfold sub16; omega
  rw [DNSTCPRequestParse_eq env f st input hf hne]
  unfold requestNextRecord
  rw [show input.length + 2 = (input.length + 1) + 1 from rfl, nextRecordLoop_succ]
  unfold requestPass
  simp only [DNSState.note]
  rw [if_neg (fun h => h0 h.1), if_neg h0, if_pos hw]
  unfold BufferData
  simp only [DNSState.note]
  rw [if_pos hclip, hsub]
  unfold bufferCopy
  dsimp only
  rw [if_neg (by omega), if_neg (by omega)]
  refine ⟨_, rfl, ?_, rfl, ?_⟩
  · show u16 (st.offset + (st.record_len - st.offset)) = st.record_len
    unfold u16; omega
  · simp only [List.append_assoc, List.cons_append, List.nil_append]

/-- On a flow whose chunks are all shorter than `chunkBound` every state is
idle with both fields zero or has `12 ≤ offset < record_len`, and
`DNSTCPRequestParse` returns on every such chunk, again in such a state. -/
theorem reachableShort_invariant (env : Env) (st : DNSState) (h : ReachableShort env st) :
    ((st.offset = 0 ∧ st.record_len = 0) ∨ (12 ≤ st.offset ∧ st.offset < st.record_len)) ∧
    ¬ (st.offset = st.record_len ∧ 0 < st.record_len) ∧
    (st.offset = 0 → st.record_len = 0) ∧
    (∀ (f : Option Flow) (input : List Byte), input.length < 4294967296 - 65535 →
      ∃ r st1, DNSTCPRequestParse env f st input = .ok (r, st1) ∧
        ((st1.offset = 0 ∧ st1.record_len = 0) ∨
          (12 ≤ st1.offset ∧ st1.offset < st1.record_len))) := by
  have hs := h.strict.1
  refine ⟨hs, ?_, ?_, ?_⟩
  · rcases hs with ⟨a, b⟩ | ⟨a, b⟩ <;> omega
  · rcases hs with ⟨a, b⟩ | ⟨a, b⟩ <;> omega
  · intro f input hlen
    obtain ⟨r, st1, hcall⟩ := DNSTCPRequestParse_total env f st input h.reachable.safe
      (by omega)
    exact ⟨r, st1, hcall, (ReachableShort.request f st input r st1 h hlen hcall).strict.1⟩

/-! ## The claims -/

/-- C2 (the code departs from the claim): two copies of the well-formed record
of scenario 1 in one chunk. After the first record the framer goes on at
`input + 33` instead of `input + 35`, reads the length 1 from the last two
bytes of the first record and returns -1; one transaction is stored, not two. -/
theorem C2_two_records_in_one_chunk :
    retOf (DNSTCPRequestParse specEnv tcp DNSState.init (queryRecord ++ queryRecord))
      = some (-1) ∧
    (stateAfter DNSState.init
      (DNSTCPRequestParse specEnv tcp DNSState.init (queryRecord ++ queryRecord))).tx_list
      = [queryTx] ∧
    (stateAfter DNSState.init
      (DNSTCPRequestParse specEnv tcp DNSState.init (queryRecord ++ queryRecord))).calls
      = [.next_record 70, .request_data ((queryRecord ++ queryRecord).drop 2) 33,
          .next_record 37] ∧
    rd16 ((queryRecord ++ queryRecord).drop 33) 0 = some 1 ∧
    retOf (DNSTCPRequestParse specEnv tcp DNSState.init queryRecord) = some 1 ∧
    (stateAfter DNSState.init
      (DNSTCPRequestParse specEnv tcp DNSState.init queryRecord)).tx_list = [queryTx] := by
  decide

/-- C3 as amended: a chunk made of a 2-byte length `L`, a header that passes
`DNSValidateRequestHeader` and announces the questions `qs`, the well-formed
questions on the wire and `rest`, where `L` is the length of all that comes
behind the length field. From an idle state `DNSTCPRequestParse` returns 1,
stays idle, and has stored the questions in wire order, each with its dotted
name, its type and class and the id of the header, which is the big-endian
value of the first two message bytes. -/
theorem C3_single_record (env : Env) (f : Option Flow) (st : DNSState) (hi lo : Byte)
    (hdrBytes : List Byte) (hdr : DNSHeader) (qs : List Question) (rest : List Byte)
    (hf : ∀ fl, f = some fl → fl.proto = IPPROTO_TCP)
    (h0 : st.offset = 0) (hr0 : st.record_len = 0)
    (hhl : hdrBytes.length = 12) (hh : readHeader hdrBytes = some hdr)
    (hval : env.DNSValidateRequestHeader hdr = true) (hq : hdr.questions = qs.length)
    (hwf : ∀ q ∈ qs, q.WellFormed env.DNS_MAX_SIZE)
    (hL : ntohs hi lo = (hdrBytes ++ encodeQuestions qs ++ rest).length) :
    ∃ st1, DNSTCPRequestParse env f st (hi :: lo :: (hdrBytes ++ encodeQuestions qs ++ rest))
        = .ok (1, st1) ∧
      st1.offset = 0 ∧ st1.record_len = 0 ∧
      st1.tx_list = st.tx_list ++ qs.map (txOfQuestion hdr.tx_id) ∧
      st1 = storeQuestions hdr.tx_id
        ((st.note (.next_record ((hdrBytes ++ encodeQuestions qs ++ rest).length + 2))).note
          (.request_data (hdrBytes ++ encodeQuestions qs ++ rest)
            (hdrBytes ++ encodeQuestions qs ++ rest).length)) qs ∧
      rd16 (hdrBytes ++ encodeQuestions qs ++ rest) 0 = some hdr.tx_id := by
  generalize hmsg : hdrBytes ++ encodeQuestions qs ++ rest = msg at hL
  have hml : 12 ≤ msg.length := by
    rw [← hmsg]; simp only [List.length_append]; omega
  have hle : ntohs hi lo ≤ 65535 := by
    have h1 := hi.isLt
    have h2 := lo.isLt
    unfold ntohs; omega
  have hparse := DNSRequestParseData_wellFormed env
    ((st.note (.next_record (msg.length + 2))).note (.request_data msg msg.length))
    hdrBytes hdr qs rest hhl hh hval hq hwf
  rw [hmsg] at hparse
  have hpass := requestPass_whole env st (hi :: lo :: msg) msg.length h0
    (by simp only [List.length_cons]; omega) (by simp only [List.length_cons]; omega)
    (by simp [rd16, hL]) hml (by simp only [List.length_cons]; omega)
  simp only [List.length_cons, List.drop_succ_cons, List.drop_zero] at hpass
  rw [hparse] at hpass
  simp only [show ¬ ((1 : Int) < 0) by decide, if_false] at hpass
  obtain ⟨f1, f2, f3⟩ := storeQuestions_frame hdr.tx_id qs
    ((st.note (.next_record (msg.length + 2))).note (.request_data msg msg.length))
  refine ⟨_, ?_, ?_, ?_, ?_, rfl, ?_⟩
  · rw [DNSTCPRequestParse_eq env f st _ hf (by simp)]
    unfold requestNextRecord
    simp only [List.length_cons]
    rw [nextRecordLoop_succ, hpass]
  · rw [f1.2.2.1]; exact h0
  · rw [f1.2.1]; exact hr0
  · rw [f3]; rfl
  · have htake : msg.take 12 = hdrBytes := by
      rw [← hmsg, List.append_assoc, ← hhl, List.take_left]
    have : readHeader msg = some hdr := by
      rw [← readHeader_take (n := 12) (Nat.le_refl _), htake, hh]
    unfold readHeader at this
    split at this
    · simp only [Option.some.injEq] at this
      subst this
      assumption
    · simp at this


/-- C3 at scenario 1 with the length field that matches its 33 message bytes. -/
theorem C3_single_record_witness :
    queryRecord = 0x00 :: 0x21 :: (queryHeaderBytes ++ encodeQuestions [queryQuestion] ++ []) ∧
    txOfQuestion queryHeader.tx_id queryQuestion = queryTx ∧
    ∃ st1, DNSTCPRequestParse specEnv tcp DNSState.init
        (0x00 :: 0x21 :: (queryHeaderBytes ++ encodeQuestions [queryQuestion] ++ []))
        = .ok (1, st1) ∧
      st1.offset = 0 ∧ st1.record_len = 0 ∧
      st1.tx_list = DNSState.init.tx_list ++ [queryQuestion].map (txOfQuestion queryHeader.tx_id) :=
  ⟨by decide, by decide,
    match C3_single_record specEnv tcp DNSState.init 0x00 0x21 queryHeaderBytes queryHeader
      [queryQuestion] []
      (fun fl h => by cases h; rfl) rfl rfl (by decide) (by decide) (by decide) (by decide)
      (fun q hq => by
        rw [List.mem_singleton] at hq
        subst hq
        exact ⟨by decide, by decide, by decide, by decide⟩)
      (by decide) with
    | ⟨st1, h1, h2, h3, h4, _⟩ => ⟨st1, h1, h2, h3, h4⟩⟩

set_option maxRecDepth 100000 in
/-- C3 as stated fails twice. The bytes of scenario 1 declare 29 bytes for a
message of 33, so the parser is given the message without its trailer, returns
-1 and stores nothing. And a record that meets every condition of the claim,
with a dotted name of 255 octets that is shorter than the name buffer of 256,
is rejected: the test before the copy of the last label asks for the name and
its dot to stay below the buffer size. -/
theorem C3_counterexample :
    (scenario1.length = 35 ∧ rd16 scenario1 0 = some 29 ∧
      retOf (DNSTCPRequestParse specEnv tcp DNSState.init scenario1) = some (-1) ∧
      (stateAfter DNSState.init
        (DNSTCPRequestParse specEnv tcp DNSState.init scenario1)).tx_list = []) ∧
    (rd16 longNameRecord 0 = some (longNameRecord.length - 2) ∧
      12 ≤ longNameRecord.length - 2 ∧
      readHeader (longNameRecord.drop 2) = some queryHeader ∧
      specEnv.DNSValidateRequestHeader queryHeader = true ∧
      (∀ l ∈ longNameQuestion.labels, 1 ≤ l.length ∧ l.length ≤ 63) ∧
      (dottedName longNameQuestion.labels).length = 255 ∧
      (dottedName longNameQuestion.labels).length < specEnv.DNS_MAX_SIZE ∧
      retOf (DNSTCPRequestParse specEnv tcp DNSState.init longNameRecord) = some (-1) ∧
      (stateAfter DNSState.init
        (DNSTCPRequestParse specEnv tcp DNSState.init longNameRecord)).tx_list = []) := by
  decide
/-- C4: in every state of a flow, `offset ≤ record_len ≤ 65535`. -/
theorem C4_boundedness (env : Env) (st : DNSState) (h : Reachable env st) :
    st.offset ≤ st.record_len ∧ st.record_len ≤ 65535 := by
  induction h with
  | init => exact ⟨Nat.le_refl _, by decide⟩
  | request f st input r st1 _ _ hcall ih => exact DNSTCPRequestParse_bounded ih hcall
  | response fuel f st input r st1 _ _ hcall ih => exact DNSTCPResponseParse_bounded ih hcall

/-- C4 at the state with 18 of 33 bytes buffered. -/
theorem C4_boundedness_witness :
    Reachable specEnv midRequest ∧ midRequest.offset = 18 ∧ midRequest.record_len = 33 ∧
      midRequest.offset ≤ midRequest.record_len ∧ midRequest.record_len ≤ 65535 :=
  have hr : Reachable specEnv midRequest :=
    Reachable.request tcp DNSState.init (queryRecord.take 20) 1 midRequest Reachable.init
      (by decide) (by rfl)
  ⟨hr, by decide, by decide, C4_boundedness specEnv midRequest hr⟩

/-- C5: in every state of a flow, `DNSTCPRequestParse` returns on every chunk
(no read outside a memory object on the way), and every call of
`DNSRequestParseData` in the log of the flow declared a length `n` of at least
12 over memory of at least `n` bytes and read indices below `n` only: on the
memory cut to `n` bytes the parser still returns, with the same result. -/
theorem C5_no_out_of_bounds_read (env : Env) (st : DNSState) (h : Reachable env st) :
    (∀ (f : Option Flow) (input : List Byte), input.length < 4294967296 →
      ∃ r st1, DNSTCPRequestParse env f st input = .ok (r, st1)) ∧
    (∀ (mem : List Byte) (n : Nat), Call.request_data mem n ∈ st.calls →
      12 ≤ n ∧ n ≤ mem.length ∧
      ∀ s : DNSState,
        (∃ r s1, DNSRequestParseData env s (mem.take n) n = .ok (r, s1)) ∧
        DNSRequestParseData env s mem n = DNSRequestParseData env s (mem.take n) n) := by
  have hs := h.safe
  refine ⟨fun f input hlen => DNSTCPRequestParse_total env f st input hs hlen,
    fun mem n hm => ?_⟩
  obtain ⟨h12, hle⟩ := hs.2.2 mem n hm
  refine ⟨h12, hle, fun s => ⟨?_, (DNSRequestParseData_take env s mem n h12 hle).symm⟩⟩
  exact DNSRequestParseData_ok env s (mem.take n) n h12
    (by rw [List.length_take_of_le hle])

/-- C5 at the state after the query of scenario 1: the logged call of the
parser has 33 bytes for its declared length 33, and a further chunk is parsed
to the end. -/
theorem C5_no_out_of_bounds_read_witness :
    Reachable specEnv afterQuery ∧
    Call.request_data (queryRecord.drop 2) 33 ∈ afterQuery.calls ∧
    (12 ≤ 33 ∧ 33 ≤ (queryRecord.drop 2).length) ∧
    retOf (DNSTCPRequestParse specEnv tcp afterQuery queryRecord) = some 1 :=
  have hr : Reachable specEnv afterQuery :=
    Reachable.request tcp DNSState.init queryRecord 1 afterQuery Reachable.init
      (by decide) (by rfl)
  have h := (C5_no_out_of_bounds_read specEnv afterQuery hr).2 (queryRecord.drop 2) 33
    (by decide)
  ⟨hr, by decide, ⟨h.1, h.2.1⟩, by decide⟩

/-- C6 as amended: a chunk that holds one request record (length `L`, header,
the well-formed questions `good`, then a question whose labels `lead` are
followed by a length octet `b` above 63) and nothing else. From an idle state
`DNSTCPRequestParse` returns -1 and stays idle; the queries stored are those of
the questions before the malformed one, and none if the header fails
validation or the malformed question is the first. -/
theorem C6_malformed_label (env : Env) (f : Option Flow) (st : DNSState) (hi lo : Byte)
    (hdrBytes : List Byte) (hdr : DNSHeader) (good : List Question)
    (lead : List (List Byte)) (b : Byte) (rest : List Byte)
    (hf : ∀ fl, f = some fl → fl.proto = IPPROTO_TCP)
    (h0 : st.offset = 0) (hr0 : st.record_len = 0)
    (hhl : hdrBytes.length = 12) (hh : readHeader hdrBytes = some hdr)
    (hq : good.length < hdr.questions)
    (hwf : ∀ q ∈ good, q.WellFormed env.DNS_MAX_SIZE)
    (hlead : ∀ l ∈ lead, 1 ≤ l.length ∧ l.length ≤ 63) (hb : 63 < b.val)
    (hL : ntohs hi lo
      = (hdrBytes ++ encodeQuestions good ++ encodeLabels lead ++ b :: rest).length) :
    ∃ st1, DNSTCPRequestParse env f st
        (hi :: lo :: (hdrBytes ++ encodeQuestions good ++ encodeLabels lead ++ b :: rest))
        = .ok (-1, st1) ∧
      st1.offset = 0 ∧ st1.record_len = 0 ∧ st1.events = st.events ∧
      st1.tx_list = st.tx_list ++
        (if env.DNSValidateRequestHeader hdr = true then good.map (txOfQuestion hdr.tx_id)
          else []) ∧
      (good = [] → st1.tx_list = st.tx_list ∧ st1.transaction_cnt = st.transaction_cnt) := by
  have hparse := DNSRequestParseData_malformed env
    ((st.note (.next_record ((hdrBytes ++ encodeQuestions good ++ encodeLabels lead
      ++ b :: rest).length + 2))).note
      (.request_data (hdrBytes ++ encodeQuestions good ++ encodeLabels lead ++ b :: rest)
        (hdrBytes ++ encodeQuestions good ++ encodeLabels lead ++ b :: rest).length))
    hdrBytes hdr good lead b rest hhl hh hq hwf hlead hb
  have hcall := DNSTCPRequestParse_whole env f st hi lo _ (-1) _ hf h0 hL
    (by simp only [List.length_append]; omega) (Or.inr rfl) hparse
  refine ⟨_, hcall, ?_⟩
  obtain ⟨f1, f2, f3⟩ := storeQuestions_frame hdr.tx_id good
    ((st.note (.next_record ((hdrBytes ++ encodeQuestions good ++ encodeLabels lead
      ++ b :: rest).length + 2))).note
      (.request_data (hdrBytes ++ encodeQuestions good ++ encodeLabels lead ++ b :: rest)
        (hdrBytes ++ encodeQuestions good ++ encodeLabels lead ++ b :: rest).length))
  cases hv : env.DNSValidateRequestHeader hdr with
  | false =>
    simp only [Bool.false_eq_true, if_false, List.append_nil]
    exact ⟨h0, hr0, rfl, rfl, fun _ => ⟨rfl, rfl⟩⟩
  | true =>
    simp only [if_true]
    refine ⟨by rw [f1.2.2.1]; exact h0, by rw [f1.2.1]; exact hr0, by rw [f2]; rfl,
      by rw [f3]; rfl, fun hg => ?_⟩
    subst hg
    exact ⟨rfl, rfl⟩

/-- C6 at scenario 5: the query of scenario 1 with 0x40 as its first label
length. -/
theorem C6_malformed_label_witness :
    malformedRecord.length = 35 ∧ malformedRecord.drop 14 = 0x40 :: queryRecord.drop 15 ∧
    malformedRecord.take 14 = queryRecord.take 14 ∧
    ∃ st1, DNSTCPRequestParse specEnv tcp DNSState.init
        (0x00 :: 0x21 :: (queryHeaderBytes ++ encodeQuestions [] ++ encodeLabels [] ++
          0x40 :: queryMessage.drop 13)) = .ok (-1, st1) ∧
      st1.offset = 0 ∧ st1.record_len = 0 ∧ st1.tx_list = DNSState.init.tx_list :=
  ⟨by decide, by decide, by decide,
    match C6_malformed_label specEnv tcp DNSState.init 0x00 0x21 queryHeaderBytes queryHeader []
      [] 0x40 (queryMessage.drop 13) (fun fl h => by cases h; rfl) rfl rfl (by decide)
      (by decide) (by decide) (fun q hq => by cases hq) (fun l hl => by cases hl) (by decide)
      (by decide) with
    | ⟨st1, h1, h2, h3, _, _, h6⟩ => ⟨st1, h1, h2, h3, (h6 rfl).1⟩⟩

/-- C6 as stated fails for a malformed label in a later question: of a record
with two questions, the second with the label length 0x40, the first question
is stored before the parser returns -1. -/
theorem C6_counterexample :
    rd16 twoQuestionRecord 0 = some (twoQuestionRecord.length - 2) ∧
    (twoQuestionRecord.drop 2).take 12
      = [0x12, 0x34, 0x01, 0x00, 0x00, 0x02, 0x00, 0x00, 0x00, 0x00, 0x00, 0x00] ∧
    (twoQuestionRecord.drop 35)[0]? = some 0x40 ∧
    retOf (DNSTCPRequestParse specEnv tcp DNSState.init twoQuestionRecord) = some (-1) ∧
    (stateAfter DNSState.init
      (DNSTCPRequestParse specEnv tcp DNSState.init twoQuestionRecord)).tx_list = [queryTx] ∧
    (stateAfter DNSState.init
      (DNSTCPRequestParse specEnv tcp DNSState.init twoQuestionRecord)).transaction_cnt = 1 ∧
    (stateAfter DNSState.init
      (DNSTCPRequestParse specEnv tcp DNSState.init twoQuestionRecord)).offset = 0 := by
  decide

/-- C7 (the code departs from the claim): a response chunk that declares a
record of 5 bytes. `DNSTCPResponseParse` has no test of the declared length
against the header size: it calls `DNSReponseParseData` with length 5, which
reads the header behind the declared length, raises the unsolicited response
event and returns 1; the framer goes on and returns 1, with 12 bytes buffered
for a record of 256. `DNSTCPRequestParse` returns -1 on the same bytes without
a call of the parser. -/
theorem C7_short_declared_length_response :
    rd16 shortResponse 0 = some 5 ∧
    retOf (DNSTCPResponseParse specEnv 2 tcp DNSState.init shortResponse) = some 1 ∧
    (stateAfter DNSState.init
      (DNSTCPResponseParse specEnv 2 tcp DNSState.init shortResponse)).calls
      = [.next_record 19, .response_data (shortResponse.drop 2) 5, .next_record 14,
          .buffer_data 12 0 256] ∧
    (stateAfter DNSState.init
      (DNSTCPResponseParse specEnv 2 tcp DNSState.init shortResponse)).events
      = [.UNSOLLICITED_RESPONSE] ∧
    (stateAfter DNSState.init
      (DNSTCPResponseParse specEnv 2 tcp DNSState.init shortResponse)).offset = 12 ∧
    retOf (DNSTCPRequestParse specEnv tcp DNSState.init shortResponse) = some (-1) ∧
    (stateAfter DNSState.init
      (DNSTCPRequestParse specEnv tcp DNSState.init shortResponse)).calls
      = [.next_record 19] := by
  decide

/-- C8 as amended: the two directions share the one reassembly buffer of the
flow. While a record is partially buffered (`0 < offset < record_len`), a
response chunk shorter than the bytes still missing leaves `record_len`, the
bytes buffered so far and the transactions unchanged, is copied behind the
buffered bytes and advances `offset` by its length; the call returns 1. -/
theorem C8_shared_reassembly (env : Env) (fuel : Nat) (f : Option Flow) (st : DNSState)
    (input : List Byte) (hf : ∀ fl, f = some fl → fl.proto = IPPROTO_TCP)
    (hne : input ≠ []) (h0 : 0 < st.offset)
    (hlt : input.length + st.offset < st.record_len) (hrl : st.record_len ≤ 65535) :
    ∃ st1, DNSTCPResponseParse env (fuel + 1) f st input = .ok (1, st1) ∧
      st1.record_len = st.record_len ∧ st1.offset = st.offset + input.length ∧
      st1.tx_list = st.tx_list ∧ st1.events = st.events ∧
      (∀ b, st.buffer = some b → st.offset ≤ b.length →
        ∃ b1, st1.buffer = some b1 ∧ b1.take st.offset = b.take st.offset ∧
          (b1.drop st.offset).take input.length = input) := by
  obtain ⟨st1, hp, s1, s2, s3, s4, s5, -, -⟩ :=
    recordPass_mid_less false (DNSReponseParseData env) Call.response_data st input h0 hlt hrl
  have hl : input.length ≠ 0 := fun h => hne (List.length_eq_zero.mp h)
  have hcall : DNSTCPResponseParse env (fuel + 1) f st input = .ok (1, st1) := by
    have hloop : responseNextRecord env (fuel + 1) st input input.length = .ok (1, st1) := by
      unfold responseNextRecord
      rw [responsePass_eq, nextRecordLoop_succ, hp]
    unfold DNSTCPResponseParse
    cases f with
    | none => simp only [if_neg hl]; exact hloop
    | some fl =>
      simp only [if_neg hl, hf fl rfl, ne_eq, not_true_eq_false, if_false]; exact hloop
  refine ⟨st1, hcall, s1, s2, s4, s5, fun b hb hle => ⟨_, s3, ?_, ?_⟩⟩
  · rw [hb]; exact memcpyAt_take _ _ _ _ hle
  · rw [hb]
    have := memcpyAt_drop b input st.offset input.length hle (Nat.le_refl _)
    rw [List.take_length] at this
    exact this

/-- C8 at the state with 18 of 33 request bytes buffered and a response chunk
of one byte. -/
theorem C8_shared_reassembly_witness :
    midRequest.offset = 18 ∧ midRequest.record_len = 33 ∧
    ∃ st1, DNSTCPResponseParse specEnv (0 + 1) tcp midRequest [0xaa] = .ok (1, st1) ∧
      st1.record_len = midRequest.record_len ∧ st1.offset = midRequest.offset + 1 :=
  ⟨by decide, by decide,
    match C8_shared_reassembly specEnv 0 tcp midRequest [0xaa] (fun fl h => by cases h; rfl)
      (by decide) (by decide) (by decide) (by decide) with
    | ⟨st1, h1, h2, h3, _⟩ => ⟨st1, h1, h2, h3⟩⟩

/-- C8 as stated fails: with 18 of 33 request bytes buffered, a response chunk
of one byte moves `offset` to 19 and lies in the buffer behind the request
bytes; the rest of the request then completes a record that is not the request
message, the parser rejects it and no query is stored, where without the
response chunk the query of scenario 1 is stored. -/
theorem C8_counterexample :
    midRequest.offset = 18 ∧ midRequest.record_len = 33 ∧
    retOf (DNSTCPResponseParse specEnv 1 tcp midRequest [0xaa]) = some 1 ∧
    midRequestAfterResponse.offset = 19 ∧
    midRequestAfterResponse.buffer = some (queryMessage.take 18 ++ [0xaa]) ∧
    midRequest.buffer = some (queryMessage.take 18) ∧
    retOf (DNSTCPRequestParse specEnv tcp midRequestAfterResponse (queryRecord.drop 20))
      = some (-1) ∧
    (stateAfter midRequestAfterResponse
      (DNSTCPRequestParse specEnv tcp midRequestAfterResponse (queryRecord.drop 20))).tx_list
      = [] ∧
    retOf (DNSTCPRequestParse specEnv tcp midRequest (queryRecord.drop 20)) = some 1 ∧
    (stateAfter midRequest
      (DNSTCPRequestParse specEnv tcp midRequest (queryRecord.drop 20))).tx_list
      = [queryTx] := by
  decide

/-- C9: from a state in which `offset = 0` implies `record_len = 0`, on a TCP
flow and a chunk that is not empty, a call of either framer that returns a
negative value leaves `offset = 0` and `record_len = 0`; every transaction of
the state before is still in the list, in its place, with its id and queries. -/
theorem C9_reset_after_failure (env : Env) (fuel : Nat) (fl : Flow) (st : DNSState)
    (input : List Byte) (r : Int) (st1 : DNSState) (htcp : fl.proto = IPPROTO_TCP)
    (hne : input ≠ []) (hidle : st.offset = 0 → st.record_len = 0)
    (hcall : DNSTCPRequestParse env (some fl) st input = .ok (r, st1) ∨
      DNSTCPResponseParse env fuel (some fl) st input = .ok (r, st1))
    (hfail : r < 0) :
    st1.offset = 0 ∧ st1.record_len = 0 ∧ st.tx_list.map txKey <+: st1.tx_list.map txKey := by
  have hlen : input.length ≠ 0 := by
    intro h; exact hne (List.length_eq_zero.mp h)
  rcases hcall with hcall | hcall
  · rcases DNSTCPRequestParse_cases hcall with ⟨-, -, h | ⟨fl1, e, hp⟩⟩ | ⟨-, -, hl⟩
    · exact absurd h hlen
    · simp only [Option.some.injEq] at e
      subst e
      exact absurd htcp hp
    · unfold requestNextRecord at hl
      rw [requestPass_eq] at hl
      obtain ⟨h1, h2⟩ := nextRecordLoop_reset (DNSRequestParseData_parseFrame env) hidle hl
      exact ⟨(h1 hfail).1, (h1 hfail).2, h2⟩
  · rcases DNSTCPResponseParse_cases hcall with ⟨-, -, h | ⟨fl1, e, hp⟩⟩ | ⟨-, -, hl⟩
    · exact absurd h hlen
    · simp only [Option.some.injEq] at e
      subst e
      exact absurd htcp hp
    · unfold responseNextRecord at hl
      rw [responsePass_eq] at hl
      obtain ⟨h1, h2⟩ := nextRecordLoop_reset (DNSReponseParseData_parseFrame env) hidle hl
      exact ⟨(h1 hfail).1, (h1 hfail).2, h2⟩

/-- C9 at the state with 18 of 33 bytes buffered: 15 bytes 0xff complete the
record, the parser rejects it and the buffer is reset. -/
theorem C9_reset_after_failure_witness :
    midRequest.offset = 18 ∧
    (stateAfter midRequest
        (DNSTCPRequestParse specEnv tcp midRequest (List.replicate 15 0xff))).offset = 0 ∧
    (stateAfter midRequest
        (DNSTCPRequestParse specEnv tcp midRequest (List.replicate 15 0xff))).record_len = 0 ∧
    midRequest.tx_list.map txKey <+:
      (stateAfter midRequest
        (DNSTCPRequestParse specEnv tcp midRequest (List.replicate 15 0xff))).tx_list.map
        txKey :=
  ⟨by decide,
    C9_reset_after_failure specEnv 0 ⟨IPPROTO_TCP⟩ midRequest (List.replicate 15 0xff) (-1)
      (stateAfter midRequest
        (DNSTCPRequestParse specEnv tcp midRequest (List.replicate 15 0xff)))
      rfl (by decide) (by decide) (Or.inl (by rfl)) (by decide)⟩

/-- C11: the question walk of `DNSReponseParseData` extends that of
`DNSRequestParseData`. Wherever the request walk over `n` questions from a
cursor ends normally at a cursor `d`, the response walk over the same bytes
ends normally at `d`; so when `DNSRequestParseData` returns 1 on a message, the
question loop of `DNSReponseParseData` on that message ends at the cursor of
the request parser, and the response parser returns 1 exactly when its header
test and its two record loops from that cursor succeed. A label length octet
above 63 is walked over by the response walk when the label and the length
octet behind it lie within `input_len`: the walk goes on behind the label. -/
theorem C11_response_walk_extends_request_walk (env : Env) (input : List Byte)
    (input_len : Nat) :
    (∀ (tx_id n data d : Nat) (st : DNSState),
      (requestQuestions env input input_len tx_id n data st).1 = .done d →
      responseQuestions env input input_len n data = .done d) ∧
    (∀ (st st1 : DNSState) (hdr : DNSHeader), readHeader input = some hdr →
      DNSRequestParseData env st input input_len = .ok (1, st1) →
      ∃ d, requestQuestions env input input_len hdr.tx_id hdr.questions sizeof_DNSHeader st
          = (.done d, st1) ∧
        responseQuestions env input input_len hdr.questions sizeof_DNSHeader = .done d ∧
        ∀ (s s1 : DNSState) (r : Int),
          DNSReponseParseData env s input input_len = .ok (r, s1) →
          (r = 1 ↔ env.DNSValidateResponseHeader hdr = true ∧
            ∃ d1 d2, recordsCursor env input input_len hdr.answer_rr d = some d1 ∧
              recordsCursor env input input_len hdr.authority_rr d1 = some d2)) ∧
    (∀ (fuel data : Nat) (fqdn : List Byte) (b : Byte), input[data]? = some b →
      63 < b.val → data + 1 + b.val + 1 ≤ input_len → input_len ≤ input.length →
      responseLabels env.DNS_MAX_SIZE input input_len (fuel + 1) data fqdn =
        responseLabels env.DNS_MAX_SIZE input input_len fuel (data + 1 + b.val)
          (if fqdn.length + b.val + 1 < env.DNS_MAX_SIZE then
            fqdn ++ (input.drop (data + 1)).take b.val ++ [dot] else fqdn)) := by
  refine ⟨fun tx_id n data d st h => requestQuestions_response env input input_len tx_id n data
    st d h, fun st st1 hdr hh h => ?_, fun fuel data fqdn b hb h63 hin hmem =>
    responseLabels_step _ input input_len fuel data fqdn b hb (by omega) hin hmem⟩
  obtain ⟨-, d, hd⟩ := DNSRequestParseData_questions hh h
  have hq := requestQuestions_response env input input_len hdr.tx_id hdr.questions
    sizeof_DNSHeader st d (by rw [hd])
  refine ⟨d, hd, hq, fun s s1 r hr => ?_⟩
  have := (DNSReponseParseData_ret env s input input_len hdr hh r s1 hr).1
  rw [this]
  constructor
  · rintro ⟨hv, data, d1, d2, e1, e2, e3⟩
    rw [hq] at e1
    cases e1
    exact ⟨hv, d1, d2, e2, e3⟩
  · rintro ⟨hv, d1, d2, e2, e3⟩
    exact ⟨hv, d, d1, d2, hq, e2, e3⟩

set_option maxRecDepth 100000 in
/-- C11 on the query of scenario 1, where both walks end at cursor 33, and on
`longLabelMessage`, where the request walk stops at the length octet 0x40 and
the response walk goes on behind the 64 octets of the label and ends at cursor
82. -/
theorem C11_response_walk_extends_request_walk_witness :
    (requestQuestions specEnv queryMessage 33 0x1234 1 12 DNSState.init).1 = .done 33 ∧
    responseQuestions specEnv queryMessage 33 1 12 = .done 33 ∧
    (requestQuestions specEnv longLabelMessage 82 0x1234 1 12 DNSState.init).1
      = .insufficient_data ∧
    responseQuestions specEnv longLabelMessage 82 1 12 = .done 82 ∧
    responseLabels specEnv.DNS_MAX_SIZE longLabelMessage 82 (81 + 1) 12 [] =
      responseLabels specEnv.DNS_MAX_SIZE longLabelMessage 82 81 77
        (List.replicate 64 97 ++ [dot]) :=
  have h := C11_response_walk_extends_request_walk specEnv queryMessage 33
  have h2 := C11_response_walk_extends_request_walk specEnv longLabelMessage 82
  ⟨by decide, h.1 0x1234 1 12 33 DNSState.init (by decide), by decide, by decide,
    h2.2.2 81 12 [] 0x40 (by decide) (by decide) (by decide) (by decide)⟩

/-- C12 (the claim as stated fails): an input of the two bytes `00 05` declares
a length of 5, below 12, and `DNSTcpProbingParser` returns `ALPROTO_UNKNOWN`,
not `ALPROTO_FAILED`: an input shorter than `DNSTcpHeader` is sent back for more
data before the length field is looked at. -/
theorem C12_counterexample :
    2 ≤ ([0x00, 0x05] : List Byte).length ∧ rd16 [0x00, 0x05] 0 = some 5 ∧
    verdictOf (DNSTcpProbingParser specEnv [0x00, 0x05] 2) = some .ALPROTO_UNKNOWN ∧
    verdictOf (DNSTcpProbingParser specEnv [0x00, 0x05] 2) ≠ some .ALPROTO_FAILED := by
  decide

/-- C12 (amended): for an input whose first two bytes declare a length below
12, `DNSTcpProbingParser` returns `ALPROTO_FAILED` when the input has at least
14 bytes, the size of `DNSTcpHeader`, whatever the bytes behind the length
field, and `ALPROTO_UNKNOWN` when it is shorter. -/
theorem C12_probing_rule_2 (env : Env) (input : List Byte) (L : Nat)
    (hl : rd16 input 0 = some L) (hL : L < 12) :
    (14 ≤ input.length →
      DNSTcpProbingParser env input input.length = .ok .ALPROTO_FAILED) ∧
    (input.length < 14 →
      DNSTcpProbingParser env input input.length = .ok .ALPROTO_UNKNOWN) := by
  unfold DNSTcpProbingParser sizeof_DNSTcpHeader sizeof_DNSHeader
  constructor
  · intro h14
    rw [if_neg (by omega), hl]
    dsimp only
    rw [if_pos hL]
  · intro h14
    rw [if_pos (Or.inr h14)]

/-- C12 (amended) on the 19 bytes of `shortResponse`, which begin `00 05`, and
on their first two bytes. -/
theorem C12_probing_rule_2_witness :
    rd16 shortResponse 0 = some 5 ∧
    DNSTcpProbingParser specEnv shortResponse shortResponse.length = .ok .ALPROTO_FAILED ∧
    DNSTcpProbingParser specEnv (shortResponse.take 2) (shortResponse.take 2).length
      = .ok .ALPROTO_UNKNOWN :=
  ⟨by decide,
    (C12_probing_rule_2 specEnv shortResponse 5 (by decide) (by decide)).1 (by decide),
    (C12_probing_rule_2 specEnv (shortResponse.take 2) 5 (by decide) (by decide)).2
      (by decide)⟩

/-- C13 (the code departs from the claim): the probing parser on an input of at
least 14 bytes whose length field declares `L ≥ 12` with `L > input_len - 2`,
that is `L > input_len`, `L = input_len` or `L = input_len - 1`.

* When `L > input_len`, `DNSTCPRequestParseProbe` leaves at its test
  `L >= input_len` with 0 before it looks at a question, so the branch for a
  result of -1 is never taken: the verdict is `ALPROTO_DNS_TCP` above 512 bytes
  and `ALPROTO_UNKNOWN` otherwise, whatever the bytes behind the header.
* When `L = input_len` (the last two bytes of the record are missing) the
  comparison `L > ilen` fails, the walk leaves with 0 and the verdict is
  `ALPROTO_FAILED`.
* When `L = input_len - 1` the verdict is that of a walk over the bytes
  present, `ALPROTO_DNS_TCP` or `ALPROTO_FAILED`. -/
theorem C13_probing_rule_3 (env : Env) (input : List Byte) (L : Nat)
    (h14 : 14 ≤ input.length) (h32 : input.length < 4294967296)
    (hl : rd16 input 0 = some L) (h12 : 12 ≤ L) :
    (L > input.length →
      DNSTCPRequestParseProbe env input input.length = .ok 0 ∧
      DNSTcpProbingParser env input input.length =
        .ok (if input.length > 512 then .ALPROTO_DNS_TCP else .ALPROTO_UNKNOWN)) ∧
    (L = input.length →
      DNSTcpProbingParser env input input.length = .ok .ALPROTO_FAILED) ∧
    (L + 1 = input.length →
      DNSTcpProbingParser env input input.length = .ok .ALPROTO_DNS_TCP ∨
      DNSTcpProbingParser env input input.length = .ok .ALPROTO_FAILED) := by
  have hprobe : L ≥ input.length → DNSTCPRequestParseProbe env input input.length = .ok 0 := by
    intro hge
    unfold DNSTCPRequestParseProbe sizeof_DNSHeader
    rw [hl]
    dsimp only
    rw [if_neg (by omega), if_pos hge]
  refine ⟨fun h => ⟨hprobe (by omega), ?_⟩, fun h => ?_, fun h => ?_⟩
  · unfold DNSTcpProbingParser sizeof_DNSTcpHeader sizeof_DNSHeader
    rw [if_neg (by omega), hl]
    dsimp only
    rw [if_neg (by omega), if_pos h, hprobe (by omega)]
    dsimp only
    rw [if_neg (by decide)]
    split <;> rfl
  · unfold DNSTcpProbingParser sizeof_DNSTcpHeader sizeof_DNSHeader
    rw [if_neg (by omega), hl]
    dsimp only
    rw [if_neg (by omega), if_neg (by omega), hprobe (by omega)]
    dsimp only
    rw [if_pos (by decide)]
  · obtain ⟨r, hr, -⟩ := DNSTCPRequestParseProbe_ok env input input.length (by omega)
      (Nat.le_refl _) h32
    unfold DNSTcpProbingParser sizeof_DNSTcpHeader sizeof_DNSHeader
    rw [if_neg (by omega), hl]
    dsimp only
    rw [if_neg (by omega), if_neg (by omega), hr]
    dsimp only
    split
    · exact Or.inr rfl
    · exact Or.inl rfl

/-- C13 on two inputs. `truncatedMalformed` declares 33 bytes, holds 18 of them
and has the label length octet 0x40 in its first question: the verdict is
`ALPROTO_UNKNOWN`, where the claim has `NOT_DNS`. The first 33 bytes of the
well-formed `queryRecord` declare 33 bytes and hold 31 of them: the verdict is
`ALPROTO_FAILED`, where the claim has `NEED_MORE`. -/
theorem C13_probing_rule_3_witness :
    rd16 truncatedMalformed 0 = some 33 ∧ truncatedMalformed.length = 20 ∧
    truncatedMalformed[14]? = some 0x40 ∧
    DNSTCPRequestParseProbe specEnv truncatedMalformed truncatedMalformed.length = .ok 0 ∧
    DNSTcpProbingParser specEnv truncatedMalformed truncatedMalformed.length
      = .ok .ALPROTO_UNKNOWN ∧
    rd16 (queryRecord.take 33) 0 = some 33 ∧
    DNSTcpProbingParser specEnv (queryRecord.take 33) (queryRecord.take 33).length
      = .ok .ALPROTO_FAILED :=
  have h := C13_probing_rule_3 specEnv truncatedMalformed 33 (by decide) (by decide)
    (by decide) (by decide)
  have h2 := C13_probing_rule_3 specEnv (queryRecord.take 33) 33 (by decide) (by decide)
    (by decide) (by decide)
  ⟨by decide, by decide, by decide, (h.1 (by decide)).1, (h.1 (by decide)).2,
    by decide, h2.2.1 (by decide)⟩

set_option maxRecDepth 100000 in
/-- C14 (the claim as stated fails): `headerOnlyDeclared` declares 12 bytes and
has 33 behind the length field. The dry run of the request parser on the 12
declared bytes returns -1 (the header counts one question and no byte of it is
declared), yet the verdict is `ALPROTO_DNS_TCP`: the probing walk goes over all
33 bytes. With the byte at index 14, behind the declared bytes, changed to 0x40
the verdict is `ALPROTO_FAILED`. The verdict is also `ALPROTO_DNS_TCP` on
`longNameRecord`, which declares all its 273 message bytes and whose dotted name
of 255 bytes the request parser turns down. -/
theorem C14_counterexample :
    rd16 headerOnlyDeclared 0 = some 12 ∧ 12 + 2 ≤ headerOnlyDeclared.length ∧
    intOf (DNSRequestParseDataNull specEnv ((headerOnlyDeclared.drop 2).take 12) 12)
      = some (-1) ∧
    verdictOf (DNSTcpProbingParser specEnv headerOnlyDeclared headerOnlyDeclared.length)
      = some .ALPROTO_DNS_TCP ∧
    headerOnlyDeclaredBad.take 14 = headerOnlyDeclared.take 14 ∧
    headerOnlyDeclaredBad.length = headerOnlyDeclared.length ∧
    verdictOf (DNSTcpProbingParser specEnv headerOnlyDeclaredBad headerOnlyDeclaredBad.length)
      = some .ALPROTO_FAILED ∧
    rd16 longNameRecord 0 = some 273 ∧ longNameRecord.length = 273 + 2 ∧
    intOf (DNSRequestParseDataNull specEnv ((longNameRecord.drop 2).take 273) 273)
      = some (-1) ∧
    verdictOf (DNSTcpProbingParser specEnv longNameRecord longNameRecord.length)
      = some .ALPROTO_DNS_TCP := by
  decide

/-- C14 (amended): for an input whose length field declares `L` with
`12 ≤ L ≤ input_len - 2`, `DNSTcpProbingParser` returns `ALPROTO_DNS_TCP` or
`ALPROTO_FAILED`, and it returns `ALPROTO_DNS_TCP` whenever the dry run of the
request parser (`DNSRequestParseData` with a null state) on exactly the `L`
bytes `input[2..2+L]` returns 1. The dry run itself returns 1 or -1, the value
that the parser returns when it is given a state. -/
theorem C14_probing_rule_4 (env : Env) (input : List Byte) (L : Nat)
    (hl : rd16 input 0 = some L) (h12 : 12 ≤ L) (hle : L + 2 ≤ input.length)
    (h32 : input.length < 4294967296) :
    (DNSTcpProbingParser env input input.length = .ok .ALPROTO_DNS_TCP ∨
      DNSTcpProbingParser env input input.length = .ok .ALPROTO_FAILED) ∧
    (DNSRequestParseDataNull env ((input.drop 2).take L) L = .ok 1 →
      DNSTcpProbingParser env input input.length = .ok .ALPROTO_DNS_TCP) ∧
    (DNSRequestParseDataNull env ((input.drop 2).take L) L = .ok 1 ∨
      DNSRequestParseDataNull env ((input.drop 2).take L) L = .ok (-1)) ∧
    (∀ st : DNSState, intOf (DNSRequestParseDataNull env ((input.drop 2).take L) L)
      = retOf (DNSRequestParseData env st ((input.drop 2).take L) L)) := by
  have htl : ((input.drop 2).take L).length = L := by
    simp only [List.length_take, List.length_drop]; omega
  have hunf : ∀ r, DNSTCPRequestParseProbe env input input.length = .ok r →
      DNSTcpProbingParser env input input.length
        = if r ≠ 1 then .ok .ALPROTO_FAILED else .ok .ALPROTO_DNS_TCP := by
    intro r hr
    unfold DNSTcpProbingParser sizeof_DNSTcpHeader sizeof_DNSHeader
    rw [if_neg (by omega), hl]
    dsimp only
    rw [if_neg (by omega), if_neg (by omega), hr]
  have heq : ∀ st : DNSState, intOf (DNSRequestParseDataNull env ((input.drop 2).take L) L)
      = retOf (DNSRequestParseData env st ((input.drop 2).take L) L) :=
    fun st => DNSRequestParseDataNull_eq env st _ L (by omega)
  refine ⟨?_, fun h => ?_, ?_, heq⟩
  · obtain ⟨r, hr, -⟩ := DNSTCPRequestParseProbe_ok env input input.length (by omega)
      (Nat.le_refl _) h32
    rw [hunf r hr]
    split
    · exact Or.inr rfl
    · exact Or.inl rfl
  · rw [hunf 1 (DNSRequestParseDataNull_probe env input L hl h12 hle h32 h)]
    rfl
  · obtain ⟨r, st1, e⟩ := DNSRequestParseData_ok env DNSState.init ((input.drop 2).take L) L
      h12 (by omega)
    have hr := (DNSRequestParseData_frame e).2.2.2
    have := heq DNSState.init
    rw [e] at this
    cases hd : DNSRequestParseDataNull env ((input.drop 2).take L) L with
    | error x => rw [hd] at this; simp [intOf, retOf] at this
    | ok v =>
      rw [hd] at this
      simp only [intOf, retOf, Option.some.injEq] at this
      subst this
      rcases hr with rfl | rfl
      · exact Or.inl rfl
      · exact Or.inr rfl

/-- C14 (amended) on the well-formed record `queryRecord`: the dry run on its
33 declared bytes returns 1 and the verdict is `ALPROTO_DNS_TCP`. -/
theorem C14_probing_rule_4_witness :
    rd16 queryRecord 0 = some 33 ∧
    DNSRequestParseDataNull specEnv ((queryRecord.drop 2).take 33) 33 = .ok 1 ∧
    DNSTcpProbingParser specEnv queryRecord queryRecord.length = .ok .ALPROTO_DNS_TCP :=
  ⟨by decide, by rfl,
    (C14_probing_rule_4 specEnv queryRecord 33 (by decide) (by decide) (by decide)
      (by decide)).2.1 (by rfl)⟩

/-- C15 (the claim as stated fails): `DNSStateTransactionFree` with the id 3 on
a flow whose `transaction_done` is 7 leaves 3, not the maximum 7: over the calls
`mark_done 7`, `mark_done 3` on a new flow `transaction_done` goes 0, 7, 3. -/
theorem C15_counterexample :
    (DNSStateTransactionFree DNSState.init 7).transaction_done = 7 ∧
    (DNSStateTransactionFree (DNSStateTransactionFree DNSState.init 7) 3).transaction_done
      = 3 ∧
    max 7 3 = 7 ∧
    donesOf (flowTrace specEnv DNSState.init [.mark_done 7, .mark_done 3]) = some [0, 7, 3] := by
  decide

/-- C15 (amended): `DNSStateTransactionFree` sets `transaction_done` to its
argument and writes nothing else, so the field ends at the maximum of its old
value and the id exactly when the id is not below the old value. The framers do
not write `transaction_done`, and `DNSTCPResponseParse` does not write
`transaction_cnt`. Hence along every sequence of framer calls and cleanup calls
in which each cleanup id is at least the `transaction_done` of that moment,
`transaction_done` never goes down; and along every sequence `transaction_cnt`
advances, in 16 bit arithmetic, by the number of transactions added, so that it
does not go down in a call that keeps it below 65536. -/
theorem C15_transaction_monotonicity (env : Env) (st : DNSState) :
    (∀ id, DNSStateTransactionFree st id = { st with transaction_done := id }) ∧
    (∀ id, (DNSStateTransactionFree st id).transaction_done = max st.transaction_done id ↔
      st.transaction_done ≤ id) ∧
    (∀ f input r st1, DNSTCPRequestParse env f st input = .ok (r, st1) →
      st1.transaction_done = st.transaction_done) ∧
    (∀ fuel f input r st1, DNSTCPResponseParse env fuel f st input = .ok (r, st1) →
      st1.transaction_done = st.transaction_done ∧
      st1.transaction_cnt = st.transaction_cnt) ∧
    (∀ cs tr, flowTrace env st cs = .ok tr → IdsAscend st.transaction_done cs →
      tr.Chain' (fun a b => a.transaction_done ≤ b.transaction_done)) ∧
    (∀ cs tr, flowTrace env st cs = .ok tr →
      tr.Chain' (fun a b => CntAdvance a b ∧
        (a.transaction_cnt + (b.tx_list.length - a.tx_list.length) < 65536 →
          a.transaction_cnt ≤ b.transaction_cnt))) := by
  refine ⟨fun id => rfl, fun id => ?_, fun f input r st1 h => (DNSTCPRequestParse_tx h).1,
    fun fuel f input r st1 h => ⟨(DNSTCPResponseParse_tx h).1, (DNSTCPResponseParse_tx h).2.1⟩,
    fun cs tr h => (flowTrace_chain env cs st tr h).2, fun cs tr h => ?_⟩
  · show id = max st.transaction_done id ↔ st.transaction_done ≤ id
    rw [Nat.max_def]
    split <;> omega
  · exact List.Chain'.imp (fun a b hab => ⟨hab, hab.le⟩) (flowTrace_chain env cs st tr h).1

/-- C15 (amended) on `sampleCalls`: all three calls return, the ids 1 and 4
ascend from 0, `transaction_done` goes 0, 0, 1, 4 and `transaction_cnt` goes 0,
1, 1, 1. -/
theorem C15_transaction_monotonicity_witness :
    flowTrace specEnv DNSState.init sampleCalls
      = .ok (traceAfter (flowTrace specEnv DNSState.init sampleCalls)) ∧
    IdsAscend DNSState.init.transaction_done sampleCalls ∧
    (traceAfter (flowTrace specEnv DNSState.init sampleCalls)).Chain'
      (fun a b => a.transaction_done ≤ b.transaction_done) ∧
    (traceAfter (flowTrace specEnv DNSState.init sampleCalls)).map DNSState.transaction_done
      = [0, 0, 1, 4] ∧
    (traceAfter (flowTrace specEnv DNSState.init sampleCalls)).map DNSState.transaction_cnt
      = [0, 1, 1, 1] :=
  have hasc : IdsAscend DNSState.init.transaction_done sampleCalls :=
    show (0 ≤ 1 ∧ 1 ≤ 4 ∧ True) from by decide
  ⟨by rfl, hasc,
    (C15_transaction_monotonicity specEnv DNSState.init).2.2.2.2.1 sampleCalls _ (by rfl)
      hasc,
    by decide, by decide⟩

/-- C16: `DNSStateUpdateTransactionId` leaves behind the pointer the maximum of
the value that was there and `transaction_cnt`; the value is a new one exactly
when `transaction_cnt` was above it; the state is left as it is; and a second
call with the value left by the first changes nothing. -/
theorem C16_update_id (s : DNSState) (i : Nat) :
    (DNSStateUpdateTransactionId s i).2 = max i s.transaction_cnt ∧
    ((DNSStateUpdateTransactionId s i).2 ≠ i ↔ s.transaction_cnt > i) ∧
    (DNSStateUpdateTransactionId s i).1 = s ∧
    DNSStateUpdateTransactionId (DNSStateUpdateTransactionId s i).1
      (DNSStateUpdateTransactionId s i).2 = DNSStateUpdateTransactionId s i := by
  unfold DNSStateUpdateTransactionId
  by_cases h : s.transaction_cnt > i
  · rw [if_pos h]
    dsimp only
    rw [if_neg (Nat.lt_irrefl _)]
    refine ⟨by rw [Nat.max_def, if_pos (by omega)], ⟨fun _ => h, fun _ => by omega⟩, rfl,
      rfl⟩
  · rw [if_neg h]
    dsimp only
    rw [if_neg h]
    refine ⟨by rw [Nat.max_def]; split <;> omega,
      ⟨fun hne => absurd rfl hne, fun hc => absurd hc h⟩, rfl, rfl⟩

/-- C17: `TmqhInputSimple` on a queue whose field `len` is the number of its
packets, with `woken` the content of the queue when a wait returns. The handler
takes the mutex, waits once if `len` is 0 on entry and not at all otherwise, and
releases the mutex before it returns. It returns null exactly when the queue is
empty after that, and otherwise the oldest packet, which is then out of the
queue. -/
theorem C17_input_handler (woken : List Packet) (q : PacketQueue)
    (hlen : q.len = q.pkts.length) :
    (TmqhInputSimple woken q).2.mutex_q = false ∧
    (TmqhInputSimple woken q).2.log.count .wait =
      q.log.count .wait + (if q.len = 0 then 1 else 0) ∧
    (∃ tail, (TmqhInputSimple woken q).2.log = q.log ++ .lock :: tail ∧
      tail.getLast? = some .unlock ∧ tail.count .unlock = 1 ∧ tail.count .lock = 0) ∧
    ((TmqhInputSimple woken q).1 = none ↔ (if q.len = 0 then woken else q.pkts) = []) ∧
    (∀ p rest, (if q.len = 0 then woken else q.pkts) = p :: rest →
      (TmqhInputSimple woken q).1 = some p ∧ (TmqhInputSimple woken q).2.pkts = rest ∧
      (TmqhInputSimple woken q).2.len = rest.length) ∧
    ((if q.len = 0 then woken else q.pkts) = [] → (TmqhInputSimple woken q).2.pkts = []) := by
  unfold TmqhInputSimple
  by_cases h0 : q.len = 0
  · have hq : q.pkts = [] := List.length_eq_zero.mp (by omega)
    cases woken with
    | nil =>
      simp [SCMutexLock, SCondWait, SCMutexUnlock, PacketDequeue, h0, List.count_append]
    | cons p rest =>
      simp [SCMutexLock, SCondWait, SCMutexUnlock, PacketDequeue, h0, List.count_append]
  · cases hp : q.pkts with
    | nil => rw [hp] at hlen; simp at hlen; omega
    | cons p rest =>
      have hl : q.len = rest.length + 1 := by rw [hlen, hp]; rfl
      simp [SCMutexLock, SCondWait, SCMutexUnlock, PacketDequeue, h0, hp, hl,
        List.count_append]

/-- C17 on an empty queue: when the wait returns with the packets 5 and 6 in
the queue, the handler returns 5 and leaves 6; when it returns with the queue
still empty, the handler returns null. Both times the mutex is free at the
end. After `TmqhOutputSimple` has put packet 9 into the queue the handler
returns 9 without a wait. -/
theorem C17_input_handler_witness :
    TmqhInputSimple [5, 6] PacketQueue.empty
      = (some 5, ⟨[6], 1, false, [.lock, .wait, .dequeue, .unlock]⟩) ∧
    TmqhInputSimple [] PacketQueue.empty = (none, ⟨[], 0, false, [.lock, .wait, .unlock]⟩) ∧
    (TmqhInputSimple [] (TmqhOutputSimple PacketQueue.empty 9)).1 = some 9 ∧
    (TmqhInputSimple [] (TmqhOutputSimple PacketQueue.empty 9)).2.log.count .wait = 0 ∧
    (TmqhInputSimple [5, 6] PacketQueue.empty).2.mutex_q = false :=
  ⟨by decide, by decide, by decide, by decide,
    (C17_input_handler [5, 6] PacketQueue.empty (by decide)).1⟩

/-- C19 (the code departs from the claim): `DNSTCPResponseParse` does not return
on `zeroLengthResponse`. In an idle state the length field 0 passes for a
record that ends inside the chunk (`input_len - 2 > 0`), `DNSReponseParseData`
is called with length 0, reads the header behind the declared bytes and returns
1 when the header test lets that header through, and the framer goes to
`next_record` with `input += 0`, `input_len -= 0`: the same 14 bytes in an idle
state again. Whatever number of passes is allowed, they are used up. -/
theorem C19_response_framer_does_not_return (env : Env)
    (hv : env.DNSValidateResponseHeader zeroLengthHeader = true) (f : Option Flow)
    (hf : ∀ fl, f = some fl → fl.proto = IPPROTO_TCP) (st : DNSState) (h0 : st.offset = 0) :
    (∃ st1, responsePass env st zeroLengthResponse zeroLengthResponse.length
      = .ok (.again st1 zeroLengthResponse zeroLengthResponse.length) ∧ st1.offset = 0) ∧
    (∀ fuel, DNSTCPResponseParse env fuel f st zeroLengthResponse = .error .fuel) := by
  refine ⟨responsePass_zeroLength env hv st h0, fun fuel => ?_⟩
  have hl : zeroLengthResponse.length = 14 := rfl
  unfold DNSTCPResponseParse
  cases f with
  | none =>
    dsimp only
    rw [if_neg (by rw [hl]; decide), hl]
    exact responseNextRecord_zeroLength env hv fuel st h0
  | some fl =>
    dsimp only
    rw [if_neg (by simp [hf fl rfl]), if_neg (by rw [hl]; decide), hl]
    exact responseNextRecord_zeroLength env hv fuel st h0

/-- C19 on a new TCP flow with the header test of the spec: the length field
of `zeroLengthResponse` is 0, and neither a thousand passes nor three are
enough. `DNSTCPRequestParse`, which tests the declared length against the
header size, returns -1 on the same bytes. -/
theorem C19_response_framer_does_not_return_witness :
    rd16 zeroLengthResponse 0 = some 0 ∧
    DNSTCPResponseParse specEnv 1000 tcp DNSState.init zeroLengthResponse = .error .fuel ∧
    outOfFuel (DNSTCPResponseParse specEnv 3 tcp DNSState.init zeroLengthResponse) = true ∧
    retOf (DNSTCPRequestParse specEnv tcp DNSState.init zeroLengthResponse) = some (-1) :=
  ⟨by decide,
    (C19_response_framer_does_not_return specEnv (by decide) tcp
      (by intro fl e; cases e; rfl) DNSState.init rfl).2 1000,
    by decide, by decide⟩

/-- C20: the request framer on a state with `offset ≤ record_len ≤ 65535` and a
chunk of fewer than 2^32 bytes.

* The loop around `next_record` does not use up `input_len / 12 + 2` passes,
  that is `input_len / 12 + 1` re-entries (a run of the model may also stop at a
  read of buffer bytes that were never written, which takes a record in progress
  of fewer than 12 declared bytes).
* A pass that ends at `goto next_record` leaves an idle state and the rest of
  the chunk: from an idle state the rest is shorter by a declared length of at
  least 12, from a state with a record in progress by the `record_len - offset`
  bytes that the record missed.
* When a record in progress declares at least 12 bytes, as in every state of a
  flow, `DNSTCPRequestParse` returns, and its result is reached within
  `input_len / 12 + 2` passes. -/
theorem C20_request_framer_terminates (env : Env) (f : Option Flow) (st : DNSState)
    (input : List Byte) (hb : st.offset ≤ st.record_len) (hr : st.record_len ≤ 65535)
    (hlen : input.length < 4294967296) :
    requestNextRecord env (input.length / 12 + 2) st input input.length ≠ .error .fuel ∧
    DNSTCPRequestParse env f st input ≠ .error .fuel ∧
    (∀ st1 input1 l1, requestPass env st input input.length = .ok (.again st1 input1 l1) →
      st1.offset = 0 ∧ st1.record_len ≤ 65535 ∧ l1 = input1.length ∧
      ((st.offset = 0 ∧ ∃ L, rd16 input 0 = some L ∧ 12 ≤ L ∧ l1 + L = input.length) ∨
        (st.offset ≠ 0 ∧ l1 + (st.record_len - st.offset) = input.length))) ∧
    ((st.offset ≠ 0 → 12 ≤ st.record_len) →
      ∃ r st1, DNSTCPRequestParse env f st input = .ok (r, st1) ∧
        (input ≠ [] → (∀ fl, f = some fl → fl.proto = IPPROTO_TCP) →
          requestNextRecord env (input.length / 12 + 2) st input input.length
            = .ok (r, st1))) := by
  have hbd : Bounded st := ⟨hb, hr⟩
  have hpb : passBound st input.length < input.length / 12 + 2 := by
    unfold passBound; split <;> omega
  have hnf : ∀ fuel, passBound st input.length < fuel →
      requestNextRecord env fuel st input input.length ≠ .error .fuel := by
    intro fuel hf
    unfold requestNextRecord
    rw [requestPass_eq]
    exact requestLoop_ne_fuel (DNSRequestParseData_parseFrame env)
      (DNSRequestParseData_ne_fuel env) fuel st input input.length hbd rfl hlen hf
  have hbig : passBound st input.length < input.length + 2 := by
    have : input.length / 12 ≤ input.length := Nat.div_le_self _ _
    omega
  refine ⟨hnf _ hpb, ?_, fun st1 input1 l1 h => ?_, fun h12 => ?_⟩
  · unfold DNSTCPRequestParse
    cases f with
    | none =>
      dsimp only
      split
      · simp
      · exact hnf _ hbig
    | some fl =>
      dsimp only
      split
      · simp
      · split
        · simp
        · exact hnf _ hbig
  · rw [requestPass_eq] at h
    obtain ⟨a1, a2, a3, a4⟩ := recordPass_again (DNSRequestParseData_parseFrame env) hbd rfl
      hlen h
    refine ⟨a1, a2.2, a3, ?_⟩
    rcases a4 with ⟨h0, L, e1, e2, e3, -⟩ | ⟨h0, e, -⟩
    · exact Or.inl ⟨h0, L, e1, e2, e3⟩
    · exact Or.inr ⟨h0, e⟩
  · obtain ⟨r, st1, hres⟩ := requestLoop_returns Call.request_data
      (DNSRequestParseData_parseFrame env)
      (fun s mem n hn _ hle => DNSRequestParseData_ok env s mem n (hn rfl) hle)
      (input.length / 12 + 2) st input input.length hbd h12 rfl hlen hpb
    have hres2 : requestNextRecord env (input.length / 12 + 2) st input input.length
        = .ok (r, st1) := by
      unfold requestNextRecord
      rw [requestPass_eq]
      exact hres
    have hfull : requestNextRecord env (input.length + 2) st input input.length
        = .ok (r, st1) := by
      unfold requestNextRecord at hres2 ⊢
      exact nextRecordLoop_mono _ _ _ _ _ _ _
        (by have : input.length / 12 ≤ input.length := Nat.div_le_self _ _; omega) hres2
    by_cases hne : input = []
    · refine ⟨-1, st, ?_, fun h => absurd hne h⟩
      subst hne
      unfold DNSTCPRequestParse
      cases f with
      | none => rfl
      | some fl =>
        dsimp only
        split <;> rfl
    · by_cases hf : ∀ fl, f = some fl → fl.proto = IPPROTO_TCP
      · refine ⟨r, st1, ?_, fun _ _ => hres2⟩
        rw [DNSTCPRequestParse_eq env f st input hf hne]
        exact hfull
      · refine ⟨-1, st, ?_, fun _ h => absurd h hf⟩
        unfold DNSTCPRequestParse
        cases f with
        | none => exact absurd (fun fl e => by cases e) hf
        | some fl =>
          dsimp only
          rw [if_pos (fun e => hf (fun fl1 e1 => by cases e1; exact e))]

/-- C20 on the state `midRequest`, in which 18 bytes of a record of 33 are
buffered, and a chunk that holds the 15 bytes missing and then `queryRecord`
(50 bytes): the call returns 1 within `50 / 12 + 2 = 6` passes, and the first
pass ends at `goto next_record` in an idle state with the 35 bytes of
`queryRecord` left. -/
theorem C20_request_framer_terminates_witness :
    midRequest.offset = 18 ∧ midRequest.record_len = 33 ∧
    retOf (DNSTCPRequestParse specEnv tcp midRequest (queryRecord.drop 20 ++ queryRecord))
      = some 1 ∧
    retOf (requestNextRecord specEnv 6 midRequest (queryRecord.drop 20 ++ queryRecord) 50)
      = some 1 ∧
    requestNextRecord specEnv ((queryRecord.drop 20 ++ queryRecord).length / 12 + 2)
      midRequest (queryRecord.drop 20 ++ queryRecord)
      (queryRecord.drop 20 ++ queryRecord).length ≠ .error .fuel :=
  ⟨by decide, by decide, by decide, by decide,
    (C20_request_framer_terminates specEnv tcp midRequest (queryRecord.drop 20 ++ queryRecord)
      (by decide) (by decide) (by decide)).1⟩

/-- C22: the code breaks the strict invariant where the 32-bit sum
`input_len + offset` wraps. `midRequest` is the state of a flow after a first
chunk of 20 bytes (18 bytes of a record of 33 are buffered). On a next chunk of
2^32 - 18 bytes the sum is 0, which is below `record_len`, so
`DNSTCPRequestParse` takes the branch for a record that is not yet complete and
hands the whole chunk to `BufferData`. There the length, 65518 after the
conversion to `uint16_t`, exceeds the room left in the record: the branch of
`BUG_ON(1)` is entered, the length is clipped to 15, and the call returns 1 with
`offset = record_len = 33`. All bytes of the record are buffered and the record
is left unparsed, in a state that is neither idle nor has
`12 ≤ offset < record_len`. -/
theorem C22_wrapped_sum_leaves_record_unparsed :
    Reachable specEnv midRequest ∧ midRequest.offset = 18 ∧ midRequest.record_len = 33 ∧
    hugeChunk.length = 4294967278 ∧
    ∃ st1, DNSTCPRequestParse specEnv tcp midRequest hugeChunk = .ok (1, st1) ∧
      Reachable specEnv st1 ∧ st1.offset = 33 ∧ st1.record_len = 33 ∧
      st1.calls = midRequest.calls ++
        [.next_record 4294967278, .buffer_data 4294967278 18 33, .bug_on] ∧
      ¬ ((st1.offset = 0 ∧ st1.record_len = 0) ∨
          (12 ≤ st1.offset ∧ st1.offset < st1.record_len)) := by
  have hl : hugeChunk.length = 4294967278 := List.length_replicate _ _
  have ho : midRequest.offset = 18 := by decide
  have hr : midRequest.record_len = 33 := by decide
  have hm : Reachable specEnv midRequest :=
    Reachable.request tcp DNSState.init (queryRecord.take 20) 1 midRequest Reachable.init
      (by decide) (by rfl)
  obtain ⟨st1, hcall, e1, e2, e3⟩ := DNSTCPRequestParse_clip specEnv tcp midRequest hugeChunk
    (fun fl e => by cases e; rfl) (by rw [ho]; decide) (by rw [ho, hr]; decide)
    (by rw [hr]; decide) (by rw [hl, ho, hr]; decide) (by rw [hl, ho, hr]; decide)
    (by rw [hl, ho, hr]; decide)
  rw [hl, ho, hr] at e3
  rw [hr] at e1 e2
  refine ⟨hm, ho, hr, hl, st1, hcall, ?_, e1, e2, e3, ?_⟩
  · exact Reachable.request tcp midRequest hugeChunk 1 st1 hm (by rw [hl]; decide) hcall
  · rw [e1, e2]
    decide

end DnsTcp
